import Mathlib

/-!
Go-Quant/goquant: plot finalisation, lazy series and indicators

A shallow embedding of `core/goquant.go`, `core/ta.go`, `serie/default.go`,
`serie/custom.go` and `serie/utils.go`.

Conventions of the embedding
* Go `float64` is an abstract type `F` with the operations of the class `GoFloat`
  (arithmetic, conversions, `math.NaN()`, `math.IsNaN`, `math.IsInf`, `%v` formatting).
  Theorems are stated for every such `F`; `XFloat` (exact rationals with NaN and the two
  infinities) is the instance on which the concrete scenarios are evaluated, and `RFloat`
  is `XFloat` with every result rounded to the nearest `float64` (IEEE 754 binary64,
  round to nearest even, overflow to an infinity).
* Go `int` is `Int`: every index handled here is bounded by a slice length and times are
  unix seconds, so 64-bit wrap-around is not modelled.  Go integer division truncates
  towards zero and is `Int.tdiv`.
* A Go panic of an emitter or of the engine set-up (index out of range) is `none` in
  `Option`; a panic inside a series read is recorded in the field `panicked` of the engine
  state, which stays `false` on a normal return.
* Go maps are association lists in insertion order; every map loop modelled here treats
  its entries independently, so the unspecified iteration order of Go is not observable.
-/

namespace Goquant

/-! ## float64 -/

/-- The operations on `float64` that the program uses. -/
class GoFloat (F : Type) extends Add F, Sub F, Mul F, Div F where
  /-- The conversion `float64(i)` -/
  ofInt : Int → F
  /-- The conversion `int(x)` -/
  toInt : F → Int
  /-- The value of `math.NaN()` -/
  nan : F
  /-- The test `math.IsNaN` -/
  isNaN : F → Bool
  /-- The test `math.IsInf(x, 0)` -/
  isInf : F → Bool
  /-- The text `fmt` prints for the verb `%v` -/
  format : F → String
  /-- The function `math.Max` -/
  max : F → F → F
  /-- The function `math.Abs` -/
  abs : F → F
  /-- The comparison `a < b` (and `b > a`) -/
  lt : F → F → Bool
  /-- The comparison `a <= b` (and `b >= a`) -/
  le : F → F → Bool
  /-- The comparison `a == b` -/
  eq : F → F → Bool
  /-- NaN is recognised by `math.IsNaN` -/
  isNaN_nan : isNaN nan = true
  /-- Multiplication is commutative -/
  mul_comm' : ∀ a b : F, a * b = b * a
  /-- NaN propagates through a product -/
  nan_mul : ∀ a : F, nan * a = nan
  /-- NaN propagates through a sum -/
  nan_add : ∀ a : F, nan + a = nan
  /-- NaN propagates through a sum, on the right as well -/
  add_nan : ∀ a : F, a + nan = nan
  /-- NaN propagates through a quotient -/
  nan_div : ∀ a : F, nan / a = nan
  /-- No comparison `<=` holds of NaN -/
  nan_le : ∀ a : F, le nan a = false
  /-- No comparison `<=` holds of NaN, on the right as well -/
  le_nan : ∀ a : F, le a nan = false
  /-- A value that is not NaN compares `<=` with itself -/
  le_self : ∀ a : F, isNaN a = false → le a a = true
  /-- Of two values that are not NaN, `a <= b` fails exactly when `b < a` -/
  not_le_iff_lt : ∀ a b : F, isNaN a = false → isNaN b = false →
    (le a b = false ↔ lt b a = true)
  /-- The constants `True` and `False` of the program differ -/
  one_ne_zero : ofInt 1 ≠ ofInt 0

/-- Exact model of `float64`: a rational, NaN, or an infinity (the arithmetic is not rounded
and has no signed zero; `RFloat` below rounds every result to the nearest `float64`). -/
inductive XFloat where
  | nan
  | ninf
  | fin (q : ℚ)
  | pinf
  deriving DecidableEq

namespace XFloat

/-- Negation. -/
def neg : XFloat → XFloat
  | nan => nan
  | ninf => pinf
  | fin q => fin (-q)
  | pinf => ninf

/-- Addition with the IEEE rules for NaN and infinities. -/
def add : XFloat → XFloat → XFloat
  | nan, _ => nan
  | _, nan => nan
  | fin a, fin b => fin (a + b)
  | pinf, ninf => nan
  | ninf, pinf => nan
  | pinf, _ => pinf
  | _, pinf => pinf
  | ninf, _ => ninf
  | _, ninf => ninf

/-- An infinity scaled by a finite factor. -/
def scaleInf (positive : Bool) (q : ℚ) : XFloat :=
  if q = 0 then nan else if (0 < q) = positive then pinf else ninf

/-- Multiplication with the IEEE rules for NaN and infinities. -/
def mul : XFloat → XFloat → XFloat
  | nan, _ => nan
  | _, nan => nan
  | fin a, fin b => fin (a * b)
  | pinf, pinf => pinf
  | ninf, ninf => pinf
  | pinf, ninf => ninf
  | ninf, pinf => ninf
  | pinf, fin q => scaleInf true q
  | fin q, pinf => scaleInf true q
  | ninf, fin q => scaleInf false q
  | fin q, ninf => scaleInf false q

/-- Division with the IEEE rules for NaN, infinities and a zero divisor. -/
def div : XFloat → XFloat → XFloat
  | nan, _ => nan
  | _, nan => nan
  | fin a, fin b => if b = 0 then scaleInf true a else fin (a / b)
  | fin _, pinf => fin 0
  | fin _, ninf => fin 0
  | pinf, fin q => if 0 ≤ q then pinf else ninf
  | ninf, fin q => if 0 ≤ q then ninf else pinf
  | pinf, pinf => nan
  | pinf, ninf => nan
  | ninf, pinf => nan
  | ninf, ninf => nan

/-- Truncation of a rational towards zero. -/
def truncate (q : ℚ) : Int := Int.tdiv q.num q.den

/-- The conversion `int(x)` of the 64-bit targets that answer every value without an
`int64` (NaN, the infinities, a value out of range) with the smallest `int64`. -/
def toInt : XFloat → Int
  | fin q =>
    if -9223372036854775808 ≤ truncate q ∧ truncate q ≤ 9223372036854775807 then truncate q
    else -9223372036854775808
  | _ => -9223372036854775808

/-- The order `<` with the IEEE rule for NaN. -/
def lt : XFloat → XFloat → Bool
  | nan, _ => false
  | _, nan => false
  | fin a, fin b => decide (a < b)
  | ninf, ninf => false
  | ninf, _ => true
  | _, ninf => false
  | pinf, _ => false
  | fin _, pinf => true

/-- The order `<=` with the IEEE rule for NaN. -/
def le : XFloat → XFloat → Bool
  | nan, _ => false
  | _, nan => false
  | fin a, fin b => decide (a ≤ b)
  | ninf, _ => true
  | _, pinf => true
  | pinf, _ => false
  | fin _, ninf => false

/-- The function `math.Max`, with its special cases in the order of the library: `+Inf`
when an argument is `+Inf`, then NaN when an argument is NaN. -/
def max : XFloat → XFloat → XFloat
  | pinf, _ => pinf
  | _, pinf => pinf
  | nan, _ => nan
  | _, nan => nan
  | fin a, fin b => fin (if a ≤ b then b else a)
  | ninf, b => b
  | a, ninf => a

/-- The function `math.Abs`. -/
def abs : XFloat → XFloat
  | nan => nan
  | ninf => pinf
  | fin q => fin (if q < 0 then -q else q)
  | pinf => pinf

/-- The power `2^e` for an integer exponent. -/
def pow2 (e : Int) : ℚ :=
  if 0 ≤ e then ((2 ^ e.toNat : Nat) : ℚ) else 1 / ((2 ^ (-e).toNat : Nat) : ℚ)

/-- The number of binary digits of `n` less one (0 for 0), by halving; the first argument
bounds the number of steps. -/
def log2Steps : Nat → Nat → Nat
  | 0, _ => 0
  | fuel + 1, n => if 2 ≤ n then log2Steps fuel (n / 2) + 1 else 0

/-- The `float64` nearest to a rational, ties to the even significand (the rounding of
IEEE 754 binary64): a significand of 53 bits above `2^-1022`, multiples of `2^-1074` below,
and the infinity of the sign for a result of magnitude `2^1024` or more. -/
def round64 (q : ℚ) : XFloat :=
  if q = 0 then XFloat.fin 0
  else
    let a := |q|
    let e0 : Int := (log2Steps a.num.natAbs a.num.natAbs : Int) - (log2Steps a.den a.den : Int)
    let e := if a < pow2 e0 then e0 - 1 else e0
    let t : Int := if e - 52 < -1074 then -1074 else e - 52
    let m := a / pow2 t
    let f : Nat := m.num.natAbs / m.den
    let r := m - (f : ℚ)
    let n : Nat :=
      if r < 1 / 2 then f else if 1 / 2 < r then f + 1 else if f % 2 = 0 then f else f + 1
    let v := (n : ℚ) * pow2 t
    if pow2 1024 ≤ v then (if 0 < q then XFloat.pinf else XFloat.ninf)
    else XFloat.fin (if 0 < q then v else -v)

/-- The power `10^e` for an integer exponent. -/
def pow10 (e : Int) : ℚ :=
  if 0 ≤ e then ((10 ^ e.toNat : Nat) : ℚ) else 1 / ((10 ^ (-e).toNat : Nat) : ℚ)

/-- The position of the decimal point of a positive rational: the `dp` with
`10^(dp-1) ≤ a < 10^dp`. -/
def decimalPoint (a : ℚ) : Int :=
  let d : Int := ((toString a.num.natAbs).length : Int) - ((toString a.den).length : Int)
  if a < pow10 d then d else d + 1

/-- The shortest decimal that rounds to the `float64` value `a > 0` (the digits that
`strconv` produces for the precision -1): its digits as a number and the exponent of its
last digit.  The search goes from `nd` digits on, for at most `fuel` lengths; of the two
decimals of a length next to `a`, the nearer is tried first. -/
def shortestDecimal (a : ℚ) (dp : Int) : Nat → Nat → Nat × Int
  | 0, nd => ((a / pow10 (dp - nd)).num.natAbs / (a / pow10 (dp - nd)).den, dp - nd)
  | fuel + 1, nd =>
    let scale := pow10 (dp - nd)
    let m := a / scale
    let lo : Nat := m.num.natAbs / m.den
    let near := if m - (lo : ℚ) ≤ ((lo : ℚ) + 1) - m then lo else lo + 1
    let far := if m - (lo : ℚ) ≤ ((lo : ℚ) + 1) - m then lo + 1 else lo
    if round64 ((near : ℚ) * scale) = XFloat.fin a then (near, dp - nd)
    else if round64 ((far : ℚ) * scale) = XFloat.fin a then (far, dp - nd)
    else shortestDecimal a dp fuel (nd + 1)

/-- The number `n` without its trailing decimal zeros, and the number of zeros taken off;
the first argument bounds the number of steps. -/
def stripZeros : Nat → Nat → Nat → Nat × Nat
  | 0, n, z => (n, z)
  | fuel + 1, n, z => if n ≠ 0 ∧ n % 10 = 0 then stripZeros fuel (n / 10) (z + 1) else (n, z)

/-- The text of a positive `float64` for the verb `%v` (the format `%g` of `strconv` with
the shortest digits): the format `%e` when the decimal exponent is below -4 or at least 6,
the format `%f` otherwise. -/
def formatPositive (a : ℚ) : String :=
  let r := shortestDecimal a (decimalPoint a) 17 1
  let s := stripZeros 400 r.1 0
  let digits := toString s.1
  let nd : Int := digits.length
  let dp : Int := nd + (s.2 : Int) + r.2
  let exp := dp - 1
  if exp < -4 ∨ 6 ≤ exp then
    digits.take 1 ++ (if 1 < digits.length then "." ++ digits.drop 1 else "") ++ "e" ++
      (if exp < 0 then "-" else "+") ++ (if exp.natAbs < 10 then "0" else "") ++
      toString exp.natAbs
  else if dp ≤ 0 then "0." ++ String.mk (List.replicate (-dp).toNat '0') ++ digits
  else if nd ≤ dp then digits ++ String.mk (List.replicate (dp - nd).toNat '0')
  else digits.take dp.toNat ++ "." ++ digits.drop dp.toNat

/-- The text that `fmt` prints under the verb `%v` for the `float64` nearest to `q`. -/
def formatRat (q : ℚ) : String :=
  match round64 q with
  | XFloat.fin v =>
    if v = 0 then "0" else if v < 0 then "-" ++ formatPositive (-v) else formatPositive v
  | XFloat.pinf => "+Inf"
  | XFloat.ninf => "-Inf"
  | XFloat.nan => "NaN"

end XFloat

instance : GoFloat XFloat where
  add := XFloat.add
  sub := fun a b => XFloat.add a (XFloat.neg b)
  mul := XFloat.mul
  div := XFloat.div
  ofInt := fun i => XFloat.fin i
  toInt := XFloat.toInt
  nan := XFloat.nan
  isNaN := fun x => decide (x = XFloat.nan)
  isInf := fun x => decide (x = XFloat.pinf ∨ x = XFloat.ninf)
  format := fun x => match x with
    | XFloat.nan => "NaN"
    | XFloat.ninf => "-Inf"
    | XFloat.fin q => XFloat.formatRat q
    | XFloat.pinf => "+Inf"
  max := XFloat.max
  abs := XFloat.abs
  lt := XFloat.lt
  le := XFloat.le
  eq := fun a b => decide (a ≠ XFloat.nan ∧ a = b)
  isNaN_nan := by decide
  mul_comm' := fun a b => by
    show XFloat.mul a b = XFloat.mul b a
    cases a <;> cases b <;> simp [XFloat.mul, mul_comm]
  nan_mul := fun a => by cases a <;> rfl
  nan_add := fun a => by cases a <;> rfl
  add_nan := fun a => by cases a <;> rfl
  nan_div := fun a => by cases a <;> rfl
  nan_le := fun a => by cases a <;> rfl
  le_nan := fun a => by cases a <;> rfl
  le_self := fun a => by cases a <;> simp [XFloat.le]
  not_le_iff_lt := fun a b => by
    cases a <;> cases b <;> simp [XFloat.le, XFloat.lt]
  one_ne_zero := by decide

/-- The rounding of an exact result: a finite value is rounded to the nearest `float64`. -/
def XFloat.rounded : XFloat → XFloat
  | XFloat.fin q => XFloat.round64 q
  | x => x

/-- The type `float64` with its rounding and overflow: each operation is the operation of
`XFloat` on the exact values followed by the rounding to the nearest `float64` (no signed
zero, one NaN). -/
structure RFloat where
  val : XFloat
  deriving DecidableEq

instance : GoFloat RFloat where
  add := fun a b => ⟨XFloat.rounded (XFloat.add a.val b.val)⟩
  sub := fun a b => ⟨XFloat.rounded (XFloat.add a.val (XFloat.neg b.val))⟩
  mul := fun a b => ⟨XFloat.rounded (XFloat.mul a.val b.val)⟩
  div := fun a b => ⟨XFloat.rounded (XFloat.div a.val b.val)⟩
  ofInt := fun i => ⟨XFloat.rounded (XFloat.fin i)⟩
  toInt := fun x => XFloat.toInt x.val
  nan := ⟨XFloat.nan⟩
  isNaN := fun x => decide (x.val = XFloat.nan)
  isInf := fun x => decide (x.val = XFloat.pinf ∨ x.val = XFloat.ninf)
  format := fun x => GoFloat.format x.val
  max := fun a b => ⟨XFloat.max a.val b.val⟩
  abs := fun a => ⟨XFloat.abs a.val⟩
  lt := fun a b => XFloat.lt a.val b.val
  le := fun a b => XFloat.le a.val b.val
  eq := fun a b => decide (a.val ≠ XFloat.nan ∧ a.val = b.val)
  isNaN_nan := by decide
  mul_comm' := fun a b => by
    show RFloat.mk (XFloat.rounded (XFloat.mul a.val b.val)) =
      RFloat.mk (XFloat.rounded (XFloat.mul b.val a.val))
    have : XFloat.mul a.val b.val = XFloat.mul b.val a.val := GoFloat.mul_comm' a.val b.val
    rw [this]
  nan_mul := fun a => by
    show RFloat.mk (XFloat.rounded (XFloat.mul XFloat.nan a.val)) = RFloat.mk XFloat.nan
    have : XFloat.mul XFloat.nan a.val = XFloat.nan := GoFloat.nan_mul a.val
    rw [this]; rfl
  nan_add := fun a => by
    show RFloat.mk (XFloat.rounded (XFloat.add XFloat.nan a.val)) = RFloat.mk XFloat.nan
    have : XFloat.add XFloat.nan a.val = XFloat.nan := GoFloat.nan_add a.val
    rw [this]; rfl
  add_nan := fun a => by
    show RFloat.mk (XFloat.rounded (XFloat.add a.val XFloat.nan)) = RFloat.mk XFloat.nan
    have : XFloat.add a.val XFloat.nan = XFloat.nan := GoFloat.add_nan a.val
    rw [this]; rfl
  nan_div := fun a => by
    show RFloat.mk (XFloat.rounded (XFloat.div XFloat.nan a.val)) = RFloat.mk XFloat.nan
    have : XFloat.div XFloat.nan a.val = XFloat.nan := GoFloat.nan_div a.val
    rw [this]; rfl
  nan_le := fun a => GoFloat.nan_le a.val
  le_nan := fun a => GoFloat.le_nan a.val
  le_self := fun a h => GoFloat.le_self a.val h
  not_le_iff_lt := fun a b ha hb => GoFloat.not_le_iff_lt a.val b.val ha hb
  one_ne_zero := by decide!

/-- The predicate `serie.NA`: NaN or infinite. -/
def NA {F : Type} [GoFloat F] (value : F) : Bool :=
  GoFloat.isNaN value || GoFloat.isInf value

/-! ## Data model (`core/goquant.go`, `serie/default.go`) -/

/-- The struct `serie.Bar`. -/
structure Bar (F : Type) where
  Close : F
  Open : F
  High : F
  Low : F
  Volume : F
  Time : F

/-- The struct `PlotPoint`; a nil `*float64` is `none`. -/
structure PlotPoint (F : Type) where
  Value : Option F
  Index : Int
  Time : Int
  deriving DecidableEq

/-- The struct `PlotConfig`. -/
structure PlotConfig (F : Type) where
  Color : String
  Width : F
  Dashed : F
  Smooth : Int
  Precision : Int
  Location : String
  Shift : Int
  deriving DecidableEq

/-- The struct `PlotData`. -/
structure PlotData (F : Type) where
  Data : List (PlotPoint F)
  Config : PlotConfig F
  deriving DecidableEq

/-- The string type `LineType`. -/
abbrev LineType := String

/-- The constant `HorizontalStraightLine`. -/
def HorizontalStraightLine : LineType := "horizontalStraightLine"
/-- The constant `VerticalStraightLine`. -/
def VerticalStraightLine : LineType := "verticalStraightLine"
/-- The constant `Segment`. -/
def Segment : LineType := "segment"

/-- The struct `LineConfig`. -/
structure LineConfig (F : Type) where
  Color : String
  Width : F
  Dashed : F
  Location : String
  Shift : Int
  deriving DecidableEq

/-- The struct `Point`. -/
structure Point (F : Type) where
  X : F
  Y : F
  deriving DecidableEq

/-- The struct `LineData`; its field `Type` is `Typ` here. -/
structure LineData (F : Type) where
  Typ : LineType
  Config : LineConfig F
  Points : List (Point F)
  deriving DecidableEq

/-- The struct `GoQuant`, together with the state its series reach through pointers:
`heap` holds the float buffers behind the `*[]float64` of materialized series (a buffer is
named by its position), `taStorage` maps a label to the buffer and `diff` of its storage
series, and `cache` is the package variable `cache` of `serie/custom.go`.  The six price
series (`open` is `openSerie` here) are given by their buffer and `diff`, `none` being the
nil of an engine without bars; `counters` holds the variables `times` that the closures of
`valueWhen` capture (a variable is named by its position).  `panicked` records that a
statement of a series read was reached that panics in Go (a write through `Set` past the
end of the buffer or through the nil pointer that a wrapper hands out, a read of a nil
series): it is never reset, and the program has returned normally exactly when it is
`false`. -/
structure GoQuant (F : Type) where
  loopIndex : Int
  loopFuncIndex : Int
  bars : List (Bar F)
  taStorage : List (String × Nat × Int)
  plotStorage : List (String × PlotData F)
  lineStorage : List (LineData F)
  heap : List (List F)
  cache : List (String × List (Int × F))
  openSerie : Option (Nat × Int) := none
  high : Option (Nat × Int) := none
  close : Option (Nat × Int) := none
  low : Option (Nat × Int) := none
  volume : Option (Nat × Int) := none
  time : Option (Nat × Int) := none
  counters : List Int := []
  panicked : Bool := false

/-- The zero value that `&PlotConfig{}` allocates. -/
def PlotConfig.zero {F : Type} [GoFloat F] : PlotConfig F :=
  { Color := "", Width := GoFloat.ofInt 0, Dashed := GoFloat.ofInt 0, Smooth := 0,
    Precision := 0, Location := "", Shift := 0 }

/-- The zero value that `&LineConfig{}` allocates. -/
def LineConfig.zero {F : Type} [GoFloat F] : LineConfig F :=
  { Color := "", Width := GoFloat.ofInt 0, Dashed := GoFloat.ofInt 0, Location := "",
    Shift := 0 }

/-- The step `if config.Location == "" { config.Location = location }` of `plot`. -/
def PlotConfig.orLocation {F : Type} (config : PlotConfig F) (location : String) : PlotConfig F :=
  if config.Location = "" then { config with Location := location } else config

/-- The step `if config.Location == "" { config.Location = location }` of the line emitters. -/
def LineConfig.orLocation {F : Type} (config : LineConfig F) (location : String) : LineConfig F :=
  if config.Location = "" then { config with Location := location } else config

/-- The slice read `bars[i]`, which panics out of range. -/
def barAt {F : Type} (bars : List (Bar F)) (i : Int) : Option (Bar F) :=
  if i < 0 then none else bars.get? i.toNat

/-- The map read `m[k]` with its `exists` flag. -/
def mapGet {K V : Type} [DecidableEq K] : List (K × V) → K → Option V
  | [], _ => none
  | e :: m, k => if e.1 = k then some e.2 else mapGet m k

/-- The map write `m[k] = v`: an existing entry is replaced in place, a new one is added. -/
def mapSet {K V : Type} [DecidableEq K] : List (K × V) → K → V → List (K × V)
  | [], k, v => [(k, v)]
  | e :: m, k, v => if e.1 = k then (k, v) :: m else e :: mapSet m k v

/-! ## Emitters (`vline`, `hline`, `line`, `plot`) -/

section Emitters
variable {F : Type} [GoFloat F]

/-- The method `vline`. -/
def vline (g : GoQuant F) (config : Option (LineConfig F)) : GoQuant F :=
  let config := config.getD LineConfig.zero
  let config := config.orLocation "candle_pane"
  let index := g.loopIndex + config.Shift
  if index < 0 ∨ index ≥ g.bars.length then g
  else match barAt g.bars index with
    | none => g
    | some bar =>
      let mid := (bar.Open + bar.Close) / GoFloat.ofInt 2
      let x := bar.Time
      { g with lineStorage := g.lineStorage ++
          [{ Typ := VerticalStraightLine, Config := config, Points := [{ X := x, Y := mid }] }] }

/-- The method `hline`. -/
def hline (g : GoQuant F) (value : F) (config : Option (LineConfig F)) : GoQuant F :=
  let config := config.getD LineConfig.zero
  let config := config.orLocation "candle_pane"
  let index := g.loopIndex + config.Shift
  if index < 0 ∨ index ≥ g.bars.length then g
  else match barAt g.bars index with
    | none => g
    | some bar =>
      let x := bar.Time
      { g with lineStorage := g.lineStorage ++
          [{ Typ := HorizontalStraightLine, Config := config, Points := [{ X := x, Y := value }] }] }

/-- The method `line`. -/
def line (g : GoQuant F) (p1 p2 : Point F) (config : Option (LineConfig F)) : GoQuant F :=
  let config := config.getD LineConfig.zero
  let config := config.orLocation "candle_pane"
  { g with lineStorage := g.lineStorage ++
      [{ Typ := Segment, Config := config, Points := [p1, p2] }] }

/-- The method `plot`; `callerLine` is the line number that `runtime.Caller(1)` reports. -/
def plot (g : GoQuant F) (value : F) (config : Option (PlotConfig F)) (label : List String)
    (callerLine : Nat) : GoQuant F :=
  let lbl := match label with
    | l :: _ => l
    | [] => toString callerLine
  let config := config.getD PlotConfig.zero
  let config := config.orLocation lbl
  let _value : Option F := if NA value then none else some value
  let plotStorage := match mapGet g.plotStorage lbl with
    | some _ => g.plotStorage
    | none => mapSet g.plotStorage lbl { Config := config, Data := [] }
  let g := { g with plotStorage := plotStorage }
  let index := g.loopIndex + config.Shift
  if index < 0 ∨ index ≥ g.bars.length then g
  else match barAt g.bars index with
    | none => g
    | some bar =>
      let plot : PlotPoint F := { Value := _value, Index := index, Time := GoFloat.toInt bar.Time }
      let data := match mapGet g.plotStorage lbl with
        | some pd => pd.Data
        | none => []
      let data := data ++ [plot]
      { g with plotStorage := mapSet g.plotStorage lbl { Data := data, Config := config } }

end Emitters

/-! ## `FillTheGaps` -/

section FillTheGaps
variable {F : Type} [GoFloat F]

/-- The loops `for i := lo; i < barsEnd; i++` of `FillTheGaps` that append
`PlotPoint{Value: nil, Index: i, Time: int(g.bars[i].Time)}`; the first argument is the
number of iterations left. -/
def nilLoop (bars : List (Bar F)) : Nat → Int → List (PlotPoint F) → Option (List (PlotPoint F))
  | 0, _, filledData => some filledData
  | n + 1, i, filledData =>
    match barAt bars i with
    | none => none
    | some bar =>
      nilLoop bars n (i + 1)
        (filledData ++ [{ Value := none, Index := i, Time := GoFloat.toInt bar.Time }])

/-- The body of the loop `for j := 1; j <= gapSize; j++`: the point interpolated at slot `j`. -/
def interpolatedPoint (prevPoint currPoint : PlotPoint F) (gapSize j : Int) : PlotPoint F :=
  let interpolatedIndex := prevPoint.Index + j
  let interpolatedTime :=
    prevPoint.Time + Int.tdiv ((currPoint.Time - prevPoint.Time) * j) (gapSize + 1)
  let interpolatedValue : Option F :=
    match prevPoint.Value, currPoint.Value with
    | some pv, some cv => some (pv + (cv - pv) * GoFloat.ofInt j / GoFloat.ofInt (gapSize + 1))
    | none, some cv => some cv
    | some pv, none => some pv
    | none, none => none
  { Value := interpolatedValue, Index := interpolatedIndex, Time := interpolatedTime }

/-- The loop `for j := 1; j <= gapSize; j++`; the first argument is the number of
iterations left. -/
def interpLoop (prevPoint currPoint : PlotPoint F) (gapSize : Int) :
    Nat → Int → List (PlotPoint F) → List (PlotPoint F)
  | 0, _, filledData => filledData
  | n + 1, j, filledData =>
    interpLoop prevPoint currPoint gapSize n (j + 1)
      (filledData ++ [interpolatedPoint prevPoint currPoint gapSize j])

/-- The loop `for i := 1; i < plotLength; i++`, run over the points `Data[i]` still to
visit, with `prevPoint = Data[i-1]`. -/
def gapLoop : List (PlotPoint F) → PlotPoint F → List (PlotPoint F) → List (PlotPoint F)
  | [], _, filledData => filledData
  | currPoint :: rest, prevPoint, filledData =>
    let gapSize := currPoint.Index - prevPoint.Index - 1
    let filledData :=
      if gapSize > 0 then interpLoop prevPoint currPoint gapSize gapSize.toNat 1 filledData
      else filledData
    gapLoop rest currPoint (filledData ++ [currPoint])

/-- The body of the loop over `g.plotStorage` in `FillTheGaps`, for one label. -/
def fillPlotData (bars : List (Bar F)) (plotData : PlotData F) : Option (PlotData F) :=
  let barsLength : Int := bars.length
  match plotData.Data with
  | [] => some plotData
  | first :: rest =>
    let firstPlotIndex := first.Index
    let lastPlotIndex := ((first :: rest).getLast (List.cons_ne_nil first rest)).Index
    match nilLoop bars firstPlotIndex.toNat 0 [] with
    | none => none
    | some filledData =>
      let filledData := filledData ++ [first]
      let filledData := gapLoop rest first filledData
      match nilLoop bars (barsLength - (lastPlotIndex + 1)).toNat (lastPlotIndex + 1) filledData with
      | none => none
      | some filledData => some { Data := filledData, Config := plotData.Config }

/-- The loop over the entries of `g.plotStorage`. -/
def fillStorage (bars : List (Bar F)) :
    List (String × PlotData F) → Option (List (String × PlotData F))
  | [] => some []
  | (label, plotData) :: rest =>
    match fillPlotData bars plotData with
    | none => none
    | some filled =>
      match fillStorage bars rest with
      | none => none
      | some restFilled => some ((label, filled) :: restFilled)

/-- The method `FillTheGaps`. -/
def FillTheGaps (g : GoQuant F) : Option (GoQuant F) :=
  match fillStorage g.bars g.plotStorage with
  | none => none
  | some plotStorage => some { g with plotStorage := plotStorage }

end FillTheGaps

/-! ## `RemoveDuplicatesFromStraightLines` -/

section Dedup
variable {F : Type} [GoFloat F]

/-- The text `fmt` prints for a `LineConfig` under `%v`: the field values between braces,
separated by one space, strings unquoted. -/
def formatLineConfig (config : LineConfig F) : String :=
  "\x7b" ++ config.Color ++ " " ++ GoFloat.format config.Width ++ " " ++
    GoFloat.format config.Dashed ++ " " ++ config.Location ++ " " ++
    toString config.Shift ++ "\x7d"

/-- The call `fmt.Sprintf("%v|%v|%v", typ, config, coordinate)`. -/
def sprintfKey (typ : LineType) (config : LineConfig F) (coordinate : F) : String :=
  typ ++ "|" ++ formatLineConfig config ++ "|" ++ GoFloat.format coordinate

/-- The key computed at the top of the loop body: `none` is the panic of `line.Points[0]`
on an empty slice, `some none` the `continue` of the last branch. -/
def lineKey (line : LineData F) : Option (Option String) :=
  if line.Typ = HorizontalStraightLine then
    match line.Points with
    | [] => none
    | p :: _ => some (some (sprintfKey line.Typ line.Config p.Y))
  else if line.Typ = VerticalStraightLine then
    match line.Points with
    | [] => none
    | p :: _ => some (some (sprintfKey line.Typ line.Config p.X))
  else some none

/-- The loop `for _, line := range g.lineStorage`, with the keys of the map `seen` and
the slice `uniqueLines` as accumulators. -/
def dedupLoop : List (LineData F) → List String → List (LineData F) → Option (List (LineData F))
  | [], _, uniqueLines => some uniqueLines
  | line :: rest, seen, uniqueLines =>
    match lineKey line with
    | none => none
    | some none => dedupLoop rest seen uniqueLines
    | some (some key) =>
      if key ∈ seen then dedupLoop rest seen uniqueLines
      else dedupLoop rest (key :: seen) (uniqueLines ++ [line])

/-- The method `RemoveDuplicatesFromStraightLines`. -/
def RemoveDuplicatesFromStraightLines (g : GoQuant F) : Option (GoQuant F) :=
  match dedupLoop g.lineStorage [] [] with
  | none => none
  | some uniqueLines => some { g with lineStorage := uniqueLines }

end Dedup

/-! ## `Logic` -/

section Logic
variable {F : Type} [GoFloat F]

/-- One call that the user function makes on the emitters it is handed. -/
inductive Call (F : Type) where
  | plot (value : F) (config : Option (PlotConfig F)) (label : List String) (callerLine : Nat)
  | line (p1 p2 : Point F) (config : Option (LineConfig F))
  | vline (config : Option (LineConfig F))
  | hline (value : F) (config : Option (LineConfig F))

/-- The effect of one emitter call. -/
def Call.run (g : GoQuant F) : Call F → GoQuant F
  | Call.plot value config label callerLine => Goquant.plot g value config label callerLine
  | Call.line p1 p2 config => Goquant.line g p1 p2 config
  | Call.vline config => Goquant.vline g config
  | Call.hline value config => Goquant.hline g value config

/-- The loop `for ; g.loopIndex < endIndex; g.loopIndex++` of `Logic`; the first argument is
the number of iterations left.  The user function is given by the emitter calls it makes,
in order, when invoked on the engine state: series reads leave `loopIndex`, `bars` and the
plot and line stores alone, so they do not appear here. -/
def logicLoop (userFunc : GoQuant F → List (Call F)) : Nat → GoQuant F → GoQuant F
  | 0, g => g
  | n + 1, g =>
    let g := (userFunc g).foldl Call.run g
    logicLoop userFunc n { g with loopIndex := g.loopIndex + 1 }

/-- The method `Logic`. -/
def Logic (g : GoQuant F) (userFunc : GoQuant F → List (Call F)) : Option (GoQuant F) :=
  let endIndex : Int := g.bars.length
  let g := logicLoop userFunc (endIndex - g.loopIndex).toNat g
  match FillTheGaps g with
  | none => none
  | some g => RemoveDuplicatesFromStraightLines g

/-- The function `New`, followed by one `AddBars`, as far as the emitters see it. -/
def New (bars : List (Bar F)) : GoQuant F :=
  { loopIndex := 0, loopFuncIndex := 0, bars := bars, taStorage := [], plotStorage := [],
    lineStorage := [], heap := [], cache := [] }

end Logic

/-! ## Series (`serie/default.go`, `serie/custom.go`) -/

section Series
variable {F : Type} [GoFloat F]

/-- The constant `OpMul`. -/
def OpMul : Nat := 0
/-- The constant `OpAdd`. -/
def OpAdd : Nat := 1
/-- The constant `OpSub`. -/
def OpSub : Nat := 2
/-- The constant `OpDiv`. -/
def OpDiv : Nat := 3
/-- The constant `OpCustom`. -/
def OpCustom : Nat := 4

/-- The method `BarIndex`. -/
def GoQuant.BarIndex (g : GoQuant F) : Int := g.loopIndex
/-- The method `BarFuncIndex`. -/
def GoQuant.BarFuncIndex (g : GoQuant F) : Int := g.loopFuncIndex
/-- The method `IncreaseFuncIndex`. -/
def GoQuant.IncreaseFuncIndex (g : GoQuant F) (steps : Int) : GoQuant F :=
  { g with loopFuncIndex := g.loopFuncIndex + steps }
/-- The method `DecreaseFuncIndex`. -/
def GoQuant.DecreaseFuncIndex (g : GoQuant F) (steps : Int) : GoQuant F :=
  { g with loopFuncIndex := g.loopFuncIndex - steps }

mutual
/-- The two implementations of the interface `Serie`.  `SerieWrapper` names its buffer
`*data` by position in `heap`; the thunk `*f` of a `CustomSerieWrapper` is a function of
the engine state that returns its result and the state it leaves.  An operation
`[2]any{opType, value}` is a pair. -/
inductive Serie (F : Type) : Type where
  | SerieWrapper (data : Nat) (operations : List (Nat × Value F)) (diff : Int)
  | CustomSerieWrapper (f : GoQuant F → F × GoQuant F) (operations : List (Nat × Value F))
      (cacheKey : String)
/-- The operand of an operation, of Go type `any`: a `float64`, a `Serie`, a `Func`, or a
value of another type. -/
inductive Value (F : Type) : Type where
  | float (v : F)
  | serie (s : Serie F)
  | func (f : F → F)
  | other
end

/-- The read `cache[cacheKey][index]` with its `exists` flag. -/
def cacheGet (cache : List (String × List (Int × F))) (cacheKey : String) (index : Int) :
    Option F :=
  match mapGet cache cacheKey with
  | none => none
  | some inner => mapGet inner index

/-- The write `cache[cacheKey][index] = result`, the inner map being made when missing. -/
def cacheSet (cache : List (String × List (Int × F))) (cacheKey : String) (index : Int)
    (result : F) : List (String × List (Int × F)) :=
  match mapGet cache cacheKey with
  | none => mapSet cache cacheKey [(index, result)]
  | some inner => mapSet cache cacheKey (mapSet inner index result)

/-- The arithmetic of one `case` of the `switch opType`, once the operand `v` is known. -/
def arith (opType : Nat) (result v : F) : F :=
  match opType with
  | 0 => result * v
  | 1 => result + v
  | 2 => result - v
  | 3 => result / v
  | _ => result

mutual
/-- The methods `SerieWrapper.Get` and `CustomSerieWrapper.Get`. -/
def Serie.Get : Serie F → GoQuant F → F × GoQuant F
  | Serie.SerieWrapper data operations diff, g =>
    let adjustedIndex := g.BarIndex - g.BarFuncIndex - diff
    let buffer := g.heap.getD data []
    if adjustedIndex < 0 ∨ adjustedIndex ≥ buffer.length then (GoFloat.nan, g)
    else match buffer.get? adjustedIndex.toNat with
      | none => (GoFloat.nan, g)
      | some result => applyOperations operations result g
  | Serie.CustomSerieWrapper f operations cacheKey, g =>
    let index := g.BarIndex - g.BarFuncIndex
    match (if cacheKey ≠ "" then cacheGet g.cache cacheKey index else none) with
    | some result => (result, g)
    | none =>
      let r := f g
      let r := applyOperations operations r.1 r.2
      if cacheKey ≠ "" then (r.1, { r.2 with cache := cacheSet r.2.cache cacheKey index r.1 })
      else r
/-- The loop `for _, operation := range operations` of both `Get` methods. -/
def applyOperations : List (Nat × Value F) → F → GoQuant F → F × GoQuant F
  | [], result, g => (result, g)
  | operation :: rest, result, g =>
    let r := applyOperation operation.1 operation.2 result g
    applyOperations rest r.1 r.2
/-- The body of that loop: the `switch opType` and the type switch on the operand.  An
operand that is neither `float64` nor `Serie` leaves the result as it is; `OpCustom` is
only ever stored by `Custom`, whose operand is a `Func`. -/
def applyOperation : Nat → Value F → F → GoQuant F → F × GoQuant F
  | opType, Value.float v, result, g => (arith opType result v, g)
  | opType, Value.serie s, result, g =>
    if opType < 4 then
      let r := Serie.Get s g
      (arith opType result r.1, r.2)
    else (result, g)
  | opType, Value.func customFunc, result, g =>
    if opType = 4 then (customFunc result, g) else (result, g)
  | _, Value.other, result, g => (result, g)
end

/-- The function `NewWrapper`. -/
def NewWrapper (f : GoQuant F → F × GoQuant F) : Serie F :=
  Serie.CustomSerieWrapper f [] ""

/-- The function `NewSerie`, with the engine state in which the new buffer exists; it
panics when `data` is empty and no length is given, or the length is negative. -/
def NewSerie (g : GoQuant F) (data : List F) (length : List Int) : Option (Serie F × GoQuant F) :=
  let d : Option (List F) :=
    if data.length = 0 then
      match length with
      | [] => none
      | l :: _ => if l < 0 then none else some (List.replicate l.toNat (GoFloat.ofInt 0))
    else some data
  match d with
  | none => none
  | some d =>
    some (Serie.SerieWrapper g.heap.length [] g.BarIndex, { g with heap := g.heap ++ [d] })

/-- The methods `SerieWrapper.addOperation` and `CustomSerieWrapper.addOperation`, with the
operations as the list that a read of the derived series visits right after the call: the
operations of the receiver followed by the new one.  The slice that the code keeps, and the
backing array that `append` may share between two series derived from one receiver, are
`SlicedSerie.addOperation` below; `SlicedSerie.addOperation_now` relates the two. -/
def Serie.addOperation : Serie F → Nat → Value F → Serie F
  | Serie.SerieWrapper data operations diff, opType, value =>
    Serie.SerieWrapper data (operations ++ [(opType, value)]) diff
  | Serie.CustomSerieWrapper f operations _, opType, value =>
    Serie.CustomSerieWrapper f (operations ++ [(opType, value)]) ""

/-- The method `Custom`. -/
def Serie.Custom (s : Serie F) (f : F → F) : Serie F := s.addOperation OpCustom (Value.func f)
/-- The method `Mul`. -/
def Serie.Mul (s : Serie F) (value : Value F) : Serie F := s.addOperation OpMul value
/-- The method `Add`. -/
def Serie.Add (s : Serie F) (value : Value F) : Serie F := s.addOperation OpAdd value
/-- The method `Sub`. -/
def Serie.Sub (s : Serie F) (value : Value F) : Serie F := s.addOperation OpSub value
/-- The method `Div`. -/
def Serie.Div (s : Serie F) (value : Value F) : Serie F := s.addOperation OpDiv value

/-- The method `Cache`, given the label it resolves (`label[0]`, or the line of the caller
number as text); on a `SerieWrapper` it only prints a message. -/
def Serie.Cache : Serie F → String → Serie F
  | Serie.SerieWrapper data operations diff, _ => Serie.SerieWrapper data operations diff
  | Serie.CustomSerieWrapper f operations _, lbl => Serie.CustomSerieWrapper f operations lbl

/-- The methods `SerieWrapper.B` and `CustomSerieWrapper.B`. -/
def Serie.B (s : Serie F) (steps : Int) : Serie F :=
  NewWrapper (fun g =>
    let g := g.IncreaseFuncIndex steps
    let res := s.Get g
    (res.1, res.2.DecreaseFuncIndex steps))

/-- The methods `SerieWrapper.G` and `CustomSerieWrapper.G`. -/
def Serie.G (s : Serie F) (i : Int) (g : GoQuant F) : F × GoQuant F :=
  if i = 0 then s.Get g else (s.B i).Get g

end Series

/-! ## Engine set-up and storage (`New`, `AddBars`, `NewStorage`, `Set`, `AddData`) -/

section Storage
variable {F : Type} [GoFloat F]

/-- The constant `True`. -/
def TrueValue : F := GoFloat.ofInt 1
/-- The constant `False`. -/
def FalseValue : F := GoFloat.ofInt 0
/-- The constant `BUILT_IN`. -/
def BUILT_IN : String := "_"

/-- The function `serie.NZ`. -/
def NZ (value : F) (replacement : List F) : F :=
  let rep := match replacement with
    | r :: _ => r
    | [] => GoFloat.ofInt 0
  if NA value then rep else value

/-- The function `New` of `core/goquant.go`: an engine without bars. -/
def GoQuant.New : GoQuant F :=
  { loopIndex := 0, loopFuncIndex := 0, bars := [], taStorage := [], plotStorage := [],
    lineStorage := [], heap := [], cache := [] }

/-- The function `ExtractField`; an unknown field name gives nil. -/
def ExtractField (bars : List (Bar F)) (field : String) : List F :=
  if field = "Close" then bars.map (fun bar => bar.Close)
  else if field = "Open" then bars.map (fun bar => bar.Open)
  else if field = "High" then bars.map (fun bar => bar.High)
  else if field = "Low" then bars.map (fun bar => bar.Low)
  else if field = "Volume" then bars.map (fun bar => bar.Volume)
  else if field = "Time" then bars.map (fun bar => bar.Time)
  else []

/-- The buffer and `diff` of a materialized series, as the engine records them. -/
def Serie.record : Serie F → Option (Nat × Int)
  | Serie.SerieWrapper data _ diff => some (data, diff)
  | Serie.CustomSerieWrapper _ _ _ => none

/-- The series behind a recorded buffer and `diff`.  A read of a nil series panics in Go:
here it is a wrapper whose read records the panic. -/
def recorded (record : Option (Nat × Int)) : Serie F :=
  match record with
  | some (data, diff) => Serie.SerieWrapper data [] diff
  | none => NewWrapper (fun g => (GoFloat.nan, { g with panicked := true }))

/-- The methods `SerieWrapper.AddData` and `CustomSerieWrapper.AddData` (which only prints). -/
def Serie.AddData : Serie F → List F → GoQuant F → GoQuant F
  | Serie.SerieWrapper data _ _, bars, g =>
    { g with heap := g.heap.set data (g.heap.getD data [] ++ bars) }
  | Serie.CustomSerieWrapper _ _ _, _, g => g

/-- The assignment `*s.Set(steps) = value`.  `SerieWrapper.Set` hands out a temporary when
the index is negative, so the write is lost; it indexes the buffer without an upper bound
check, so a write past the end panics; `CustomSerieWrapper.Set` returns nil, and the
assignment through it panics. -/
def Serie.SetAssign : Serie F → Int → F → GoQuant F → GoQuant F
  | Serie.SerieWrapper data _ diff, steps, value, g =>
    let adjustedIndex := g.BarIndex - g.BarFuncIndex - steps - diff
    if adjustedIndex < 0 then g
    else if adjustedIndex.toNat < (g.heap.getD data []).length then
      { g with heap := g.heap.set data ((g.heap.getD data []).set adjustedIndex.toNat value) }
    else { g with panicked := true }
  | Serie.CustomSerieWrapper _ _ _, _, _, g => { g with panicked := true }

/-- The method `NewStorage`: `NewSerie` is called with the length `len(g.bars)`, so it
does not panic. -/
def GoQuant.NewStorage (g : GoQuant F) (label : String) (data : List F) : Serie F × GoQuant F :=
  match mapGet g.taStorage label with
  | some (buffer, diff) => (Serie.SerieWrapper buffer [] diff, g)
  | none =>
    match NewSerie g data [(g.bars.length : Int)] with
    | some (s, g) =>
      match s.record with
      | some r => (s, { g with taStorage := mapSet g.taStorage label r })
      | none => (s, g)
    | none => (Serie.SerieWrapper g.heap.length [] g.BarIndex, g)

/-- The method `NewEmptyStorage`. -/
def GoQuant.NewEmptyStorage (g : GoQuant F) (label : String) : Serie F × GoQuant F :=
  g.NewStorage label []

/-- The step `g.x.AddData(...)` of `AddBars` on a price series; nil panics. -/
def addPriceData (record : Option (Nat × Int)) (data : List F) (g : GoQuant F) :
    Option (GoQuant F) :=
  match record with
  | some (buffer, diff) => some ((Serie.SerieWrapper buffer [] diff : Serie F).AddData data g)
  | none => none

/-- The method `AddBars`.  The first call makes the six price series with `NewSerie`, which
panics on an empty slice of bars. -/
def GoQuant.AddBars (g : GoQuant F) (bars : List (Bar F)) : Option (GoQuant F) :=
  let g := { g with bars := g.bars ++ bars }
  let g := g.taStorage.foldl
    (fun g record => (Serie.SerieWrapper record.2.1 [] record.2.2 : Serie F).AddData
      (List.replicate bars.length (GoFloat.ofInt 0)) g) g
  match g.openSerie with
  | none =>
    match NewSerie g (ExtractField bars "Open") [] with
    | none => none
    | some (o, g) =>
      match NewSerie g (ExtractField bars "Close") [] with
      | none => none
      | some (c, g) =>
        match NewSerie g (ExtractField bars "High") [] with
        | none => none
        | some (h, g) =>
          match NewSerie g (ExtractField bars "Low") [] with
          | none => none
          | some (l, g) =>
            match NewSerie g (ExtractField bars "Volume") [] with
            | none => none
            | some (v, g) =>
              match NewSerie g (ExtractField bars "Time") [] with
              | none => none
              | some (t, g) =>
                some { g with openSerie := o.record, close := c.record, high := h.record,
                              low := l.record, volume := v.record, time := t.record }
  | some _ =>
    match addPriceData g.openSerie (ExtractField bars "Open") g with
    | none => none
    | some g =>
      match addPriceData g.close (ExtractField bars "Close") g with
      | none => none
      | some g =>
        match addPriceData g.high (ExtractField bars "High") g with
        | none => none
        | some g =>
          match addPriceData g.low (ExtractField bars "Low") g with
          | none => none
          | some g =>
            match addPriceData g.time (ExtractField bars "Time") g with
            | none => none
            | some g => addPriceData g.volume (ExtractField bars "Volume") g

end Storage

/-! ## Indicators (`core/goquant.go`, `core/ta.go`)

A condition `func() bool` is a function of the engine state that returns its result and the
state it leaves.  A label is the resolved one: `label[0]`, or the line number of the caller
as text. -/

section Indicators
variable {F : Type} [GoFloat F]

/-- The method `Max`. -/
def Max (src1 src2 : Serie F) : Serie F :=
  NewWrapper (fun g =>
    let r1 := src1.Get g
    let r2 := src2.Get r1.2
    (GoFloat.max r1.1 r2.1, r2.2))

/-- The method `crossOver`; the operator `&&` reads the previous values only when the first
comparison holds. -/
def crossOver (src1 src2 : Serie F) : Serie F :=
  NewWrapper (fun g =>
    let r1 := src1.Get g
    let r2 := src2.Get r1.2
    if GoFloat.lt r2.1 r1.1 then
      let r3 := (src1.B 1).Get r2.2
      let r4 := (src2.B 1).Get r3.2
      if GoFloat.le r3.1 r4.1 then (TrueValue, r4.2) else (FalseValue, r4.2)
    else (FalseValue, r2.2))

/-- The method `crossUnder`. -/
def crossUnder (src1 src2 : Serie F) : Serie F :=
  NewWrapper (fun g =>
    let r1 := src1.Get g
    let r2 := src2.Get r1.2
    if GoFloat.lt r1.1 r2.1 then
      let r3 := (src1.B 1).Get r2.2
      let r4 := (src2.B 1).Get r3.2
      if GoFloat.le r4.1 r3.1 then (TrueValue, r4.2) else (FalseValue, r4.2)
    else (FalseValue, r2.2))

/-- The method `cross`. -/
def cross (src1 src2 : Serie F) : Serie F :=
  NewWrapper (fun g =>
    let s1 := src1.Get g
    let s2 := src2.Get s1.2
    let s1_1 := src1.G 1 s2.2
    let s2_1 := src2.G 1 s1_1.2
    if GoFloat.lt s2.1 s1.1 && GoFloat.le s1_1.1 s2_1.1 then (TrueValue, s2_1.2)
    else if GoFloat.lt s1.1 s2.1 && GoFloat.le s2_1.1 s1_1.1 then (TrueValue, s2_1.2)
    else (FalseValue, s2_1.2))

/-- The loop `for i := 0; i < len(g.bars); i++` of `barsSince`; the first argument is the
number of iterations left. -/
def barsSinceLoop (f : GoQuant F → Bool × GoQuant F) : Nat → Int → GoQuant F → F × GoQuant F
  | 0, _, g => (GoFloat.nan, g)
  | n + 1, i, g =>
    let g := g.IncreaseFuncIndex i
    let res := f g
    let g := res.2.DecreaseFuncIndex i
    if res.1 then (GoFloat.ofInt i, g) else barsSinceLoop f n (i + 1) g

/-- The method `barsSince`.  The bound `len(g.bars)` is taken when the scan starts: a
condition reads series and does not extend the bar store. -/
def barsSince (f : GoQuant F → Bool × GoQuant F) : Serie F :=
  NewWrapper (fun g => barsSinceLoop f g.bars.length 0 g)

/-- The loop of `valueWhen`; `times` is the variable that the closure captures, kept in
`counters` at position `cell`. -/
def valueWhenLoop (src : Serie F) (f : GoQuant F → Bool × GoQuant F) (occurrence : Int)
    (cell : Nat) : Nat → Int → GoQuant F → F × GoQuant F
  | 0, _, g => (GoFloat.nan, g)
  | n + 1, i, g =>
    let g := g.IncreaseFuncIndex i
    let res := f g
    let g := res.2.DecreaseFuncIndex i
    if res.1 then
      let times := g.counters.getD cell 0
      if times ≥ occurrence then src.G i g
      else valueWhenLoop src f occurrence cell n (i + 1)
        { g with counters := g.counters.set cell (times + 1) }
    else valueWhenLoop src f occurrence cell n (i + 1) g

/-- The method `valueWhen`: the call allocates `times := 0` and returns the wrapper; the
bound `len(g.bars)` is taken when the scan starts, as in `barsSince`. -/
def valueWhen (g : GoQuant F) (src : Serie F) (f : GoQuant F → Bool × GoQuant F)
    (occurrence : Int) : Serie F × GoQuant F :=
  let cell := g.counters.length
  (NewWrapper (fun g => valueWhenLoop src f occurrence cell g.bars.length 0 g),
    { g with counters := g.counters ++ [0] })

/-- The two loops `for i := 1; i <= bars; i++` of a pivot test, reading `src.G(righBars + i)`
(`step = 1`, the left bars) or `src.G(righBars - i)` (`step = -1`, the right bars); the
result `true` is the early `return False`. -/
def pivotScan (src : Serie F) (righBars step : Int) (breaks : F → Bool) :
    Nat → Int → GoQuant F → Bool × GoQuant F
  | 0, _, g => (false, g)
  | n + 1, i, g =>
    let r := src.G (righBars + step * i) g
    if breaks r.1 then (true, r.2) else pivotScan src righBars step breaks n (i + 1) r.2

/-- The method `pivotHigh`; without a source it takes `g.high` as it is at the call. -/
def pivotHigh (g : GoQuant F) (leftBars righBars : Int) (source : List (Serie F)) : Serie F :=
  let src := match source with
    | s :: _ => s
    | [] => recorded g.high
  NewWrapper (fun g =>
    let possiblePivot := src.G righBars g
    let left := pivotScan src righBars 1 (fun x => GoFloat.le possiblePivot.1 x)
      leftBars.toNat 1 possiblePivot.2
    if left.1 then (FalseValue, left.2)
    else
      let right := pivotScan src righBars (-1) (fun x => GoFloat.le possiblePivot.1 x)
        righBars.toNat 1 left.2
      if right.1 then (FalseValue, right.2) else (TrueValue, right.2))

/-- The method `pivotLow`; without a source it takes `g.low` as it is at the call. -/
def pivotLow (g : GoQuant F) (leftBars righBars : Int) (source : List (Serie F)) : Serie F :=
  let src := match source with
    | s :: _ => s
    | [] => recorded g.low
  NewWrapper (fun g =>
    let possiblePivot := src.G righBars g
    let left := pivotScan src righBars 1 (fun x => GoFloat.le x possiblePivot.1)
      leftBars.toNat 1 possiblePivot.2
    if left.1 then (FalseValue, left.2)
    else
      let right := pivotScan src righBars (-1) (fun x => GoFloat.le x possiblePivot.1)
        righBars.toNat 1 left.2
      if right.1 then (FalseValue, right.2) else (TrueValue, right.2))

/-- The loop `for i := 0; i < int(length); i++ { sum += src.G(i) }` of `sma`; the first
argument is the number of iterations left. -/
def smaLoop (src : Serie F) : Nat → Int → F → GoQuant F → F × GoQuant F
  | 0, _, sum, g => (sum, g)
  | n + 1, i, sum, g =>
    let r := src.G i g
    smaLoop src n (i + 1) (sum + r.1) r.2

/-- The method `sma`. -/
def sma (src : Serie F) (length : F) : Serie F :=
  NewWrapper (fun g =>
    let r := smaLoop src (GoFloat.toInt length).toNat 0 (GoFloat.ofInt 0) g
    (r.1 / length, r.2))

/-- The method `vwma`. -/
def vwma (src : Serie F) (length : F) : Serie F :=
  NewWrapper (fun g =>
    let up := sma (src.Mul (Value.serie (recorded g.volume))) length
    let down := sma (recorded g.volume) length
    (up.Div (Value.serie down)).Get g)

/-- The method `ema`. -/
def ema (src : Serie F) (length : F) (lbl : String) : Serie F :=
  (NewWrapper (fun g =>
    let storage := g.NewEmptyStorage lbl
    let sum := storage.1
    let alpha := GoFloat.ofInt 2 / (length + GoFloat.ofInt 1)
    let sum1 := sum.G 1 storage.2
    if NA sum1.1 then
      let r := src.Get sum1.2
      (r.1, sum.SetAssign 0 r.1 r.2)
    else
      let r := src.Get sum1.2
      let res := alpha * r.1 + (GoFloat.ofInt 1 - alpha) * NZ sum1.1 []
      (res, sum.SetAssign 0 res r.2))).Cache (BUILT_IN ++ lbl)

/-- The method `rma`. -/
def rma (src : Serie F) (length : F) (lbl : String) : Serie F :=
  (NewWrapper (fun g =>
    let alpha := GoFloat.ofInt 1 / length
    let storage := g.NewEmptyStorage lbl
    let sum := storage.1
    let sum1 := sum.G 1 storage.2
    if NA sum1.1 then
      let r := (sma src length).Get sum1.2
      (r.1, sum.SetAssign 0 r.1 r.2)
    else
      let r := src.Get sum1.2
      let sum0 := alpha * r.1 + (GoFloat.ofInt 1 - alpha) * NZ sum1.1 []
      (sum0, sum.SetAssign 0 sum0 r.2))).Cache (BUILT_IN ++ lbl)

/-- The series `trueRange` that the closure of `atr` builds before it calls `rma`. -/
def atrTrueRange (g : GoQuant F) : Serie F × GoQuant F :=
  let high : Serie F := recorded g.high
  let low : Serie F := recorded g.low
  let close : Serie F := recorded g.close
  let high1 := high.G 1 g
  if NA high1.1 then (high.Sub (Value.serie low), high1.2)
  else
    (Max
      (Max (high.Sub (Value.serie low))
        (high.Sub (Value.serie ((close.B 1).Custom GoFloat.abs))))
      ((low.Sub (Value.serie (close.B 1))).Custom GoFloat.abs), high1.2)

/-- The method `atr`. -/
def atr (length : F) (lbl : String) : Serie F :=
  (NewWrapper (fun g =>
    let trueRange := atrTrueRange g
    (rma trueRange.1 length lbl).Get trueRange.2)).Cache (BUILT_IN ++ lbl)

/-- The method `rsi`. -/
def rsi (src : Serie F) (length : F) (lbl : String) : Serie F :=
  (NewWrapper (fun g =>
    let storage := g.NewEmptyStorage lbl
    let zero := storage.1
    let u := Max (src.Sub (Value.serie (src.B 1))) zero
    let d := Max ((src.B 1).Sub (Value.serie src)) zero
    let rs := (rma u length (lbl ++ "u")).Div (Value.serie (rma d length (lbl ++ "d")))
    let r := rs.Get storage.2
    (GoFloat.ofInt 100 - GoFloat.ofInt 100 / (GoFloat.ofInt 1 + r.1), r.2))).Cache
    (BUILT_IN ++ lbl)

/-- The closure `inRange` of `divergence`. -/
def inRange (rangeUpper rangeLower : Int) (cond : GoQuant F → Bool × GoQuant F) : Serie F :=
  NewWrapper (fun g =>
    let r := (barsSince cond).Get g
    let bars := GoFloat.toInt r.1
    if rangeLower ≤ bars ∧ bars ≤ rangeUpper then (TrueValue, r.2) else (FalseValue, r.2))

/-- The method `divergence`. -/
def divergence (rsiLen : Int) (rsiSource : Serie F) (lbR lbL rangeUpper rangeLower : Int)
    (lbl : String) : Serie F :=
  (NewWrapper (fun g =>
    let osc := rsi rsiSource (GoFloat.ofInt rsiLen) lbl
    let pl := pivotLow g lbL lbR [osc]
    let plNow := pl.Get g
    if GoFloat.eq plNow.1 FalseValue then (FalseValue, plNow.2)
    else
      let ranged := (inRange rangeUpper rangeLower (fun g =>
        let r := pl.G 1 g
        (GoFloat.eq r.1 TrueValue, r.2))).Get plNow.2
      let oscHL : Bool × GoQuant F :=
        if GoFloat.eq ranged.1 TrueValue then
          let oscNow := osc.G lbR ranged.2
          let previous := valueWhen oscNow.2 (osc.B lbR)
            (fun g => let r := pl.Get g; (GoFloat.eq r.1 TrueValue, r.2)) 1
          let oscBefore := previous.1.Get previous.2
          (GoFloat.lt oscBefore.1 oscNow.1, oscBefore.2)
        else (false, ranged.2)
      if oscHL.1 = false then (FalseValue, oscHL.2)
      else
        let lowNow := ((recorded oscHL.2.low : Serie F).B lbR).Get oscHL.2
        let previous := valueWhen lowNow.2 ((recorded lowNow.2.low : Serie F).B lbR)
          (fun g => let r := pl.Get g; (GoFloat.eq r.1 TrueValue, r.2)) 1
        let lowBefore := previous.1.Get previous.2
        if GoFloat.lt lowNow.1 lowBefore.1 then (TrueValue, lowBefore.2)
        else (FalseValue, lowBefore.2))).Cache (BUILT_IN ++ lbl)

/-- The loop of `Logic` for a user function that makes the series `mk` and reads it once,
bar after bar; the reads are returned in order.  The first argument is the number of
iterations left. -/
def readEachBar (mk : GoQuant F → Serie F) : Nat → GoQuant F → List F × GoQuant F
  | 0, g => ([], g)
  | n + 1, g =>
    let r := (mk g).Get g
    let rest := readEachBar mk n { r.2 with loopIndex := r.2.loopIndex + 1 }
    (r.1 :: rest.1, rest.2)

end Indicators

/-! ## Closed forms, invariants and example data used by the theorems -/

section Specification
variable {F : Type} [GoFloat F]

/-- The time `int(bars[i].Time)` of bar `i` (0 where `bars[i]` would panic). -/
def barTime (bars : List (Bar F)) (i : Int) : Int :=
  match barAt bars i with
  | some bar => GoFloat.toInt bar.Time
  | none => 0

/-- The points `{absent, i, bars[i].time}` for the `n` indices from `lo` on. -/
def nilPoints (bars : List (Bar F)) (lo : Int) (n : Nat) : List (PlotPoint F) :=
  (List.range n).map
    (fun (t : Nat) => { Value := none, Index := lo + (t : Int), Time := barTime bars (lo + (t : Int)) })

/-- The points inserted between two adjacent emitted points. -/
def gapPoints (p q : PlotPoint F) : List (PlotPoint F) :=
  (List.range (q.Index - p.Index - 1).toNat).map
    (fun (t : Nat) => interpolatedPoint p q (q.Index - p.Index - 1) (1 + (t : Int)))

/-- The emitted points after `p`, each preceded by the points inserted before it. -/
def gapBody : PlotPoint F → List (PlotPoint F) → List (PlotPoint F)
  | _, [] => []
  | p, q :: rest => gapPoints p q ++ q :: gapBody q rest

/-- Closed form of the filled list of one label. -/
def filledPoints (bars : List (Bar F)) (first : PlotPoint F) (rest : List (PlotPoint F)) :
    List (PlotPoint F) :=
  let last := ((first :: rest).getLast (List.cons_ne_nil first rest)).Index
  nilPoints bars 0 first.Index.toNat ++ first :: gapBody first rest ++
    nilPoints bars (last + 1) ((bars.length : Int) - (last + 1)).toNat

/-- The integers `lo, lo+1, ..., lo+n-1`. -/
def intRange (lo : Int) (n : Nat) : List Int := (List.range n).map (fun (t : Nat) => lo + (t : Int))

/-- Strictly ascending indices. -/
def Ascending (data : List (PlotPoint F)) : Prop :=
  List.Pairwise (fun a b => a.Index < b.Index) data

/-- Every stored plot point lies on a bar. -/
def PlotInRange (bars : List (Bar F)) (store : List (String × PlotData F)) : Prop :=
  ∀ e ∈ store, ∀ p ∈ e.2.Data, 0 ≤ p.Index ∧ p.Index < bars.length

/-- Every stored straight line has the point its key is read from. -/
def LinesHavePoint (store : List (LineData F)) : Prop :=
  ∀ l ∈ store, l.Typ = HorizontalStraightLine ∨ l.Typ = VerticalStraightLine → l.Points ≠ []

/-- What the emitters maintain on an engine over the bars `bars`. -/
def EmitInv (bars : List (Bar F)) (g : GoQuant F) : Prop :=
  g.bars = bars ∧ PlotInRange bars g.plotStorage ∧ LinesHavePoint g.lineStorage

/-- Bars at times 100, 200, 300, 400. -/
def exampleBars : List (Bar XFloat) :=
  [100, 200, 300, 400].map (fun (t : Int) =>
    { Close := XFloat.fin 0, Open := XFloat.fin 0, High := XFloat.fin 0, Low := XFloat.fin 0,
      Volume := XFloat.fin 0, Time := XFloat.fin t })

/-- A user function that plots 1 under the label `a`, shifted nine bars ahead. -/
def shiftedStrategy (_ : GoQuant XFloat) : List (Call XFloat) :=
  [Call.plot (XFloat.fin 1) (some { (PlotConfig.zero : PlotConfig XFloat) with Shift := 9 }) ["a"] 0]

/-- A user function that plots the bar index under the label `a` on bars 1 and 3 only. -/
def sparseStrategy (g : GoQuant XFloat) : List (Call XFloat) :=
  if g.loopIndex = 1 ∨ g.loopIndex = 3 then [Call.plot (XFloat.fin g.loopIndex) none ["a"] 0] else []

/-- What the loop of `RemoveDuplicatesFromStraightLines` maintains: every kept line has a
key recorded in `seen`, and kept lines have pairwise different keys. -/
def DedupInv (seen : List String) (uniqueLines : List (LineData F)) : Prop :=
  (∀ l ∈ uniqueLines, ∃ key, lineKey l = some (some key) ∧ key ∈ seen) ∧
  List.Pairwise (fun a b => lineKey a ≠ lineKey b) uniqueLines

/-- The plot of scenario 4: points `(0, 100, 10)` and `(3, 400, 40)`. -/
def gapScenario : PlotData XFloat :=
  { Data := [{ Value := some (XFloat.fin 10), Index := 0, Time := 100 },
             { Value := some (XFloat.fin 40), Index := 3, Time := 400 }],
    Config := PlotConfig.zero }

/-- What a read at the effective index sees of an engine state: everything but the split
of the effective index `loopIndex - loopFuncIndex` into its two terms. -/
def GoQuant.view (g : GoQuant F) :
    Int × List (List F) × List (String × List (Int × F)) × List (String × Nat × Int) ×
      List (Bar F) × List (String × PlotData F) × List (LineData F) ×
      List (Option (Nat × Int)) × List Int × Bool :=
  (g.loopIndex - g.loopFuncIndex, g.heap, g.cache, g.taStorage, g.bars, g.plotStorage,
    g.lineStorage, [g.openSerie, g.high, g.close, g.low, g.volume, g.time], g.counters,
    g.panicked)

/-- A thunk that depends on the cursor only through the effective index: on two states with
the same view it returns the same value and leaves states with the same view. -/
def ThunkRespectsView (f : GoQuant F → F × GoQuant F) : Prop :=
  ∀ g1 g2 : GoQuant F, g1.view = g2.view → (f g1).1 = (f g2).1 ∧ (f g1).2.view = (f g2).2.view

mutual
/-- Every thunk of the series, and of its series operands, respects the view. -/
def Serie.respectsView : Serie F → Prop
  | Serie.SerieWrapper _ operations _ => operationsRespectView operations
  | Serie.CustomSerieWrapper f operations _ => ThunkRespectsView f ∧ operationsRespectView operations
/-- Every series operand of the pipeline respects the view. -/
def operationsRespectView : List (Nat × Value F) → Prop
  | [] => True
  | operation :: rest => Value.respectsView operation.2 ∧ operationsRespectView rest
/-- A series operand respects the view; other operands always do. -/
def Value.respectsView : Value F → Prop
  | Value.serie s => Serie.respectsView s
  | _ => True
end

/-- An engine at bar 2 whose only buffer holds 1, 2, 3. -/
def bufferEngine : GoQuant XFloat :=
  { loopIndex := 2, loopFuncIndex := 0, bars := [], taStorage := [], plotStorage := [],
    lineStorage := [], heap := [[XFloat.fin 1, XFloat.fin 2, XFloat.fin 3]], cache := [] }

/-- The read `s.Get()` is answered from the memoization cache. -/
def Serie.cacheHit (s : Serie F) (g : GoQuant F) : Prop :=
  match s with
  | Serie.SerieWrapper _ _ _ => False
  | Serie.CustomSerieWrapper _ _ cacheKey =>
    cacheKey ≠ "" ∧ cacheGet g.cache cacheKey (g.BarIndex - g.BarFuncIndex) ≠ none

/-- A wrapper cached under the label `x` whose thunk returns 1. -/
def firstCached : Serie XFloat := (NewWrapper (fun g => (XFloat.fin 1, g))).Cache "x"

/-- Another wrapper cached under the same label `x`, whose thunk returns 2. -/
def secondCached : Serie XFloat := (NewWrapper (fun g => (XFloat.fin 2, g))).Cache "x"

/-- The engine state after `firstCached.Get()` was read at bar 0. -/
def cachedEngine : GoQuant XFloat := (firstCached.Get (New exampleBars)).2

/-- The line store after one `line` call on a fresh engine. -/
def segmentEngine : GoQuant XFloat :=
  line (New exampleBars) { X := XFloat.fin 100, Y := XFloat.fin 1 }
    { X := XFloat.fin 400, Y := XFloat.fin 2 } none

/-- A line config with a space in its color. -/
def configA : LineConfig XFloat :=
  { Color := "a 1", Width := XFloat.fin 2, Dashed := XFloat.fin 3, Location := "b", Shift := 0 }

/-- A different line config that `%v` prints as the same text. -/
def configB : LineConfig XFloat :=
  { Color := "a", Width := XFloat.fin 1, Dashed := XFloat.fin 2, Location := "3 b", Shift := 0 }

/-- The line store after `hline(30, configA)` and `hline(30, configB)` on a fresh engine. -/
def collidingEngine : GoQuant XFloat :=
  hline (hline (New exampleBars) (XFloat.fin 30) (some configA)) (XFloat.fin 30) (some configB)

/-- Scenario 5: `hline(30)` twice with the same config, then once with another color. -/
def duplicateEngine : GoQuant XFloat :=
  hline (hline (hline (New exampleBars) (XFloat.fin 30)
    (some { (LineConfig.zero : LineConfig XFloat) with Color := "red" })) (XFloat.fin 30)
    (some { (LineConfig.zero : LineConfig XFloat) with Color := "red" })) (XFloat.fin 30)
    (some { (LineConfig.zero : LineConfig XFloat) with Color := "blue" })

/-- The engine after `New` and `AddBars` of bars with the given closes, each bar with
`low = 3`, the other prices equal to the close, and volume 1. -/
def engineOfCloses (closes : List ℚ) : Option (GoQuant XFloat) :=
  (GoQuant.New : GoQuant XFloat).AddBars (closes.map (fun c =>
    { Close := XFloat.fin c, Open := XFloat.fin c, High := XFloat.fin c, Low := XFloat.fin 3,
      Volume := XFloat.fin 1, Time := XFloat.fin 0 }))

/-- A slice header of type `[][2]any`: its backing array (named by position in the memory
of arrays), its length and its capacity. -/
structure OpSlice where
  array : Nat
  len : Nat
  cap : Nat
  deriving DecidableEq

/-- The built-in `append(s, operation)`: with spare capacity the element is written into
the backing array of `s`, at index `len(s)`; otherwise a new array is allocated, of capacity
1 for an empty slice and of twice the capacity after that (the growth of the Go runtime for
slices this short), and the elements of `s` are copied.  A slot never written is `none`. -/
def goAppend (arrays : List (List (Option (Nat × Value F)))) (s : OpSlice)
    (operation : Nat × Value F) : OpSlice × List (List (Option (Nat × Value F))) :=
  if s.len < s.cap then
    ({ s with len := s.len + 1 },
      arrays.set s.array ((arrays.getD s.array []).set s.len (some operation)))
  else
    let newcap := if s.cap = 0 then 1 else 2 * s.cap
    let old := (arrays.getD s.array []).take s.len
    ({ array := arrays.length, len := s.len + 1, cap := newcap },
      arrays ++ [old ++ some operation :: List.replicate (newcap - s.len - 1) none])

/-- The elements `s[0], ..., s[len(s)-1]` that a loop `range s` visits. -/
def readSlice (arrays : List (List (Option (Nat × Value F)))) (s : OpSlice) :
    List (Nat × Value F) :=
  ((arrays.getD s.array []).take s.len).filterMap id

/-- The two implementations of `Serie` with the field `operations` as the slice it is. -/
inductive SlicedSerie (F : Type) : Type where
  | SerieWrapper (data : Nat) (operations : OpSlice) (diff : Int)
  | CustomSerieWrapper (f : GoQuant F → F × GoQuant F) (operations : OpSlice)
      (cacheKey : String)

/-- The methods `addOperation` on slices: `append` on the operations of the receiver, and a
new struct around the result. -/
def SlicedSerie.addOperation (arrays : List (List (Option (Nat × Value F)))) :
    SlicedSerie F → Nat → Value F → SlicedSerie F × List (List (Option (Nat × Value F)))
  | SlicedSerie.SerieWrapper data operations diff, opType, value =>
    let r := goAppend arrays operations (opType, value)
    (SlicedSerie.SerieWrapper data r.1 diff, r.2)
  | SlicedSerie.CustomSerieWrapper f operations _, opType, value =>
    let r := goAppend arrays operations (opType, value)
    (SlicedSerie.CustomSerieWrapper f r.1 "", r.2)

/-- The series as a read sees it: its operations are the elements of the slice now. -/
def SlicedSerie.now (arrays : List (List (Option (Nat × Value F)))) : SlicedSerie F → Serie F
  | SlicedSerie.SerieWrapper data operations diff =>
    Serie.SerieWrapper data (readSlice arrays operations) diff
  | SlicedSerie.CustomSerieWrapper f operations cacheKey =>
    Serie.CustomSerieWrapper f (readSlice arrays operations) cacheKey

/-- The empty slice `[][2]any{}` that `NewSerie` and `NewWrapper` store. -/
def emptySlice : OpSlice := { array := 0, len := 0, cap := 0 }

/-- The series `p`: a buffer series with the three operations `+1`, `+2`, `+3`, derived one
after the other from the series that `NewSerie` returns; and the arrays allocated so far. -/
def threeOps : SlicedSerie XFloat × List (List (Option (Nat × Value XFloat))) :=
  let s0 : SlicedSerie XFloat := SlicedSerie.SerieWrapper 0 emptySlice 0
  let s1 := s0.addOperation [] OpAdd (Value.float (XFloat.fin 1))
  let s2 := s1.1.addOperation s1.2 OpAdd (Value.float (XFloat.fin 2))
  s2.1.addOperation s2.2 OpAdd (Value.float (XFloat.fin 3))

/-- The series `a := p.Add(10)`. -/
def siblingA : SlicedSerie XFloat × List (List (Option (Nat × Value XFloat))) :=
  threeOps.1.addOperation threeOps.2 OpAdd (Value.float (XFloat.fin 10))

/-- The series `b := p.Sub(5)`, derived after `a`. -/
def siblingB : SlicedSerie XFloat × List (List (Option (Nat × Value XFloat))) :=
  threeOps.1.addOperation siblingA.2 OpSub (Value.float (XFloat.fin 5))

/-- The operation slice of a sliced series. -/
def SlicedSerie.operations : SlicedSerie F → OpSlice
  | SlicedSerie.SerieWrapper _ operations _ => operations
  | SlicedSerie.CustomSerieWrapper _ operations _ => operations

/-- The read `s.Get()` of a materialized series falls outside its buffer. -/
def Serie.outOfRange (s : Serie F) (g : GoQuant F) : Prop :=
  match s with
  | Serie.SerieWrapper data _ diff =>
    g.BarIndex - g.BarFuncIndex - diff < 0 ∨
      g.BarIndex - g.BarFuncIndex - diff ≥ (g.heap.getD data []).length
  | Serie.CustomSerieWrapper _ _ _ => False

/-- An engine at bar 0 with `func_offset = 1`: the cursor inside a read `B(1)` on the first
bar. -/
def offsetEngine : GoQuant XFloat := { bufferEngine with loopIndex := 0, loopFuncIndex := 1 }

/-- A thunk that counts its runs in the first cell of buffer 0 and returns the count. -/
def countingThunk (g : GoQuant XFloat) : XFloat × GoQuant XFloat :=
  let count := ((g.heap.getD 0 []).getD 0 (XFloat.fin 0)) + XFloat.fin 1
  (count, { g with heap := g.heap.set 0 ((g.heap.getD 0 []).set 0 count) })

/-- The counting thunk as a wrapper cached under the label `c`. -/
def countingSerie : Serie XFloat := (NewWrapper countingThunk).Cache "c"

/-- An engine at bar 0 whose buffer 0 holds the count 0. -/
def countingEngine : GoQuant XFloat :=
  { loopIndex := 0, loopFuncIndex := 0, bars := [], taStorage := [], plotStorage := [],
    lineStorage := [], heap := [[XFloat.fin 0]], cache := [] }

/-- The engine of the closes 1, 2, 3 after `firstCached.Get()` was read at bar 0. -/
def cachedBarsEngine : Option (GoQuant XFloat) :=
  (engineOfCloses [1, 2, 3]).map (fun g => (firstCached.Get g).2)

/-- The slot `buffer[e]` of a buffer, NaN outside it: what a materialized series without
operations reads at the effective index `e`. -/
def bufferAt (buffer : List F) (e : Int) : F :=
  if e < 0 ∨ e ≥ buffer.length then GoFloat.nan else buffer.getD e.toNat GoFloat.nan

/-- The sum `0 + x0 + x1 + ...` in the order of the loop of `sma`. -/
def sumFrom (sum : F) (values : List F) : F := values.foldl (fun acc x => acc + x) sum

/-- The shape that `ema` and `rma` share: a wrapper cached under `BUILT_IN + lbl` whose
thunk reads the previous slot of the storage `lbl`, takes `seed.Get()` when that slot is NA
and `alpha*src.Get() + (1-alpha)*NZ(previous)` otherwise, and stores the result in the
current slot. -/
def recursiveAverage (seed src : Serie F) (alpha : F) (lbl : String) : Serie F :=
  (NewWrapper (fun g =>
    let storage := g.NewEmptyStorage lbl
    let sum := storage.1
    let sum1 := sum.G 1 storage.2
    if NA sum1.1 then
      let r := seed.Get sum1.2
      (r.1, sum.SetAssign 0 r.1 r.2)
    else
      let r := src.Get sum1.2
      let res := alpha * r.1 + (GoFloat.ofInt 1 - alpha) * NZ sum1.1 []
      (res, sum.SetAssign 0 res r.2))).Cache (BUILT_IN ++ lbl)

/-- The value of a recursive average at bar `i`, by recursion on the bar: the seed at bar 0
and after an NA value, the weighted sum after any other value. -/
def recAt (alpha : F) (seedAt srcAt : Int → F) : Nat → F
  | 0 => seedAt 0
  | i + 1 =>
    if NA (recAt alpha seedAt srcAt i) then seedAt ((i : Int) + 1)
    else alpha * srcAt ((i : Int) + 1) + (GoFloat.ofInt 1 - alpha) * recAt alpha seedAt srcAt i

/-- The engine after `New` and `AddBars` of three bars with the closes 10, 11, 12, at bar
0; the close series is buffer 1. -/
def threeBarsEngine : GoQuant XFloat := (engineOfCloses [10, 11, 12]).getD GoQuant.New

/-- A strategy that reads `divergence(1, close, 0, 1, 60, 5, "L")` at every bar. -/
def divergenceStrategy (g : GoQuant XFloat) : Serie XFloat :=
  divergence 1 (recorded g.close) 0 1 60 5 "L"

/-- The engine of the closes 1, 2, 3 at bar 2, after the strategy ran on the bars 0 and 1. -/
def divergenceEngine : Option (GoQuant XFloat) :=
  (engineOfCloses [1, 2, 3]).map (fun g => (readEachBar divergenceStrategy 2 g).2)

/-- The engine after `New` and `AddBars` of two bars, at bar 1: bar 0 closes at -5, bar 1
has the high 10 and the low 9. -/
def gapEngine : Option (GoQuant XFloat) :=
  ((GoQuant.New : GoQuant XFloat).AddBars
    [{ Close := XFloat.fin (-5), Open := XFloat.fin (-5), High := XFloat.fin (-4),
       Low := XFloat.fin (-6), Volume := XFloat.fin 1, Time := XFloat.fin 0 },
     { Close := XFloat.fin 10, Open := XFloat.fin 9, High := XFloat.fin 10,
       Low := XFloat.fin 9, Volume := XFloat.fin 1, Time := XFloat.fin 1 }]).map
    (fun g => { g with loopIndex := 1 })

/-- The engine of the closes 10, 11, 12 at bar 2, the last of its three bars. -/
def lastBarEngine : GoQuant XFloat := { threeBarsEngine with loopIndex := 2 }

/-- A condition that holds where the effective index `bar_index - func_offset` is 0 (on
the first bar), and leaves the engine state alone. -/
def atFirstBar (g : GoQuant XFloat) : Bool × GoQuant XFloat :=
  (decide (g.BarIndex - g.BarFuncIndex = 0), g)

/-- A condition that holds at every offset. -/
def always (g : GoQuant XFloat) : Bool × GoQuant XFloat := (true, g)

/-- The shape that `pivotHigh` and `pivotLow` share: the thunk reads the centre
`src.G(righBars)`, scans the left and then the right neighbours, and returns `False` at
the first neighbour for which `rejects centre neighbour` holds. -/
def pivotWith (src : Serie F) (leftBars righBars : Int) (rejects : F → F → Bool) : Serie F :=
  NewWrapper (fun g =>
    let possiblePivot := src.G righBars g
    let left := pivotScan src righBars 1 (rejects possiblePivot.1) leftBars.toNat 1
      possiblePivot.2
    if left.1 then (FalseValue, left.2)
    else
      let right := pivotScan src righBars (-1) (rejects possiblePivot.1) righBars.toNat 1 left.2
      if right.1 then (FalseValue, right.2) else (TrueValue, right.2))

/-- No neighbour of the window is rejected: the `leftBars` values `v (R + i)` and the
`righBars` values `v (R - i)`, `i ≥ 1`, where `v k` is the value of `src.G(k)`. -/
def noneRejected (rejects : F → Bool) (v : Int → F) (leftBars righBars : Int) : Prop :=
  (∀ i : Int, 1 ≤ i → i ≤ leftBars → rejects (v (righBars + i)) = false) ∧
  (∀ i : Int, 1 ≤ i → i ≤ righBars → rejects (v (righBars - i)) = false)

/-- Some neighbour of the window has the value of the centre. -/
def plateau (v : Int → F) (leftBars righBars : Int) : Prop :=
  (∃ i : Int, 1 ≤ i ∧ i ≤ leftBars ∧ v (righBars + i) = v righBars) ∨
  (∃ i : Int, 1 ≤ i ∧ i ≤ righBars ∧ v (righBars - i) = v righBars)

/-- An engine at bar 2 with the buffers 1, 2, 2 and 3, 2, 2: a plateau at the last two
bars, above and below the first bar. -/
def plateauEngine : GoQuant XFloat :=
  { bufferEngine with heap := [[XFloat.fin 1, XFloat.fin 2, XFloat.fin 2],
                               [XFloat.fin 3, XFloat.fin 2, XFloat.fin 2]] }

/-- A thunk returns with `func_offset` at its value at entry. -/
def KeepsOffset (f : GoQuant F → F × GoQuant F) : Prop :=
  ∀ g : GoQuant F, (f g).2.loopFuncIndex = g.loopFuncIndex

/-- A condition returns with `func_offset` at its value at entry. -/
def CondKeepsOffset (f : GoQuant F → Bool × GoQuant F) : Prop :=
  ∀ g : GoQuant F, (f g).2.loopFuncIndex = g.loopFuncIndex

/-- Every series operand of the pipeline is read with `func_offset` restored. -/
def operandsKeepOffset (operations : List (Nat × Value F)) : Prop :=
  ∀ operation ∈ operations, ∀ s : Serie F, operation.2 = Value.serie s → KeepsOffset s.Get

/-- The thunk of the series (if it has one) and the reads of its series operands return
with `func_offset` restored. -/
def Serie.scoped : Serie F → Prop
  | Serie.SerieWrapper _ operations _ => operandsKeepOffset operations
  | Serie.CustomSerieWrapper f operations _ => KeepsOffset f ∧ operandsKeepOffset operations

/-- The series of the claim: built from materialized series by `B`, arithmetic derivation
(with a constant or a series operand), `Custom`, `Cache` and the library indicators; the
conditions handed to `barsSince` and `valueWhen` restore `func_offset`. -/
inductive Built : Serie F → Prop where
  | materialized (data : Nat) (diff : Int) : Built (Serie.SerieWrapper data [] diff)
  | back (s : Serie F) (steps : Int) : Built s → Built (s.B steps)
  | constant (s : Serie F) (opType : Nat) (c : F) :
      Built s → Built (s.addOperation opType (Value.float c))
  | operand (s t : Serie F) (opType : Nat) :
      Built s → Built t → Built (s.addOperation opType (Value.serie t))
  | custom (s : Serie F) (f : F → F) : Built s → Built (s.Custom f)
  | cache (s : Serie F) (lbl : String) : Built s → Built (s.Cache lbl)
  | max (s t : Serie F) : Built s → Built t → Built (Max s t)
  | cross (s t : Serie F) : Built s → Built t → Built (cross s t)
  | crossOver (s t : Serie F) : Built s → Built t → Built (crossOver s t)
  | crossUnder (s t : Serie F) : Built s → Built t → Built (crossUnder s t)
  | barsSince (cond : GoQuant F → Bool × GoQuant F) :
      CondKeepsOffset cond → Built (barsSince cond)
  | valueWhen (g0 : GoQuant F) (s : Serie F) (cond : GoQuant F → Bool × GoQuant F)
      (occurrence : Int) :
      Built s → CondKeepsOffset cond → Built (valueWhen g0 s cond occurrence).1
  | pivotHigh (g0 : GoQuant F) (leftBars righBars : Int) (source : List (Serie F)) :
      (∀ s, s ∈ source → Built s) → Built (pivotHigh g0 leftBars righBars source)
  | pivotLow (g0 : GoQuant F) (leftBars righBars : Int) (source : List (Serie F)) :
      (∀ s, s ∈ source → Built s) → Built (pivotLow g0 leftBars righBars source)
  | sma (s : Serie F) (length : F) : Built s → Built (sma s length)
  | vwma (s : Serie F) (length : F) : Built s → Built (vwma s length)
  | ema (s : Serie F) (length : F) (lbl : String) : Built s → Built (ema s length lbl)
  | rma (s : Serie F) (length : F) (lbl : String) : Built s → Built (rma s length lbl)
  | atr (length : F) (lbl : String) : Built (atr length lbl)
  | rsi (s : Serie F) (length : F) (lbl : String) : Built s → Built (rsi s length lbl)
  | divergence (rsiLen : Int) (s : Serie F) (lbR lbL rangeUpper rangeLower : Int)
      (lbl : String) :
      Built s → Built (divergence rsiLen s lbR lbL rangeUpper rangeLower lbl)

/-- A strategy that reads `rsi(close, 1, "L")` at every bar. -/
def rsiStrategy (g : GoQuant XFloat) : Serie XFloat :=
  rsi (recorded g.close) (XFloat.fin 1) "L"

/-- The buffers of the storage series are distinct, exist, and are not the buffer of a
price series: what `NewSerie` gives, each call allocating its own slice. -/
def StorageSeparate (g : GoQuant F) : Prop :=
  (g.taStorage.map (fun record => record.2.1)).Nodup ∧
  (∀ record ∈ g.taStorage, record.2.1 < g.heap.length) ∧
  (∀ record ∈ g.taStorage,
    ∀ price ∈ [g.openSerie, g.close, g.high, g.low, g.time, g.volume],
      price.map (fun p => p.1) ≠ some record.2.1)

/-- The engine of the closes 10, 11, 12 after `NewEmptyStorage("L")`. -/
def storageEngine : GoQuant XFloat := (threeBarsEngine.NewEmptyStorage "L").2

/-- The engine that `AddBars` returns, or the empty engine where it panics. -/
def afterAddBars (g : GoQuant XFloat) (bars : List (Bar XFloat)) : GoQuant XFloat :=
  (g.AddBars bars).getD GoQuant.New

/-- One more bar, closing at 13. -/
def fourthBar : Bar XFloat :=
  { Close := XFloat.fin 13, Open := XFloat.fin 13, High := XFloat.fin 13, Low := XFloat.fin 3,
    Volume := XFloat.fin 1, Time := XFloat.fin 0 }

/-- The engine of the closes 10, 11, 12 at bar 1. -/
def secondBarEngine : GoQuant XFloat := { threeBarsEngine with loopIndex := 1 }

/-- The method `IsFirstBar`. -/
def GoQuant.IsFirstBar (g : GoQuant F) : Bool := decide (g.loopIndex = 0)

/-- The method `IsLastBar`. -/
def GoQuant.IsLastBar (g : GoQuant F) : Bool := decide (g.loopIndex = (g.bars.length : Int))

/-- A user function that plots `IsLastBar()` as 1 or 0 under the label `last`. -/
def lastBarStrategy (g : GoQuant XFloat) : List (Call XFloat) :=
  [Call.plot (if g.IsLastBar then TrueValue else FalseValue) none ["last"] 0]

/-- A user function that plots `IsFirstBar()` as 1 or 0 under the label `first`. -/
def firstBarStrategy (g : GoQuant XFloat) : List (Call XFloat) :=
  [Call.plot (if g.IsFirstBar then TrueValue else FalseValue) none ["first"] 0]

/-- A plot with points at the bars 1 and 2 only. -/
def innerScenario : PlotData XFloat :=
  { Data := [{ Value := some (XFloat.fin 20), Index := 1, Time := 200 },
             { Value := some (XFloat.fin 30), Index := 2, Time := 300 }],
    Config := PlotConfig.zero }

/-- A plot label without points. -/
def emptyScenario : PlotData XFloat := { Data := [], Config := PlotConfig.zero }

/-- The engine after `New` and `AddBars` of three bars with the closes 1, 3, 2, at bar 2;
the close series is buffer 1. -/
def peakEngine : GoQuant XFloat :=
  { (engineOfCloses [1, 3, 2]).getD GoQuant.New with loopIndex := 2 }

/-- The value of `close.G(k)` on `peakEngine`, at bar 2. -/
def peakValue (k : Int) : XFloat :=
  bufferAt (peakEngine.heap.getD 1 []) (peakEngine.loopIndex - (peakEngine.loopFuncIndex + k) - 0)

/-- No value of the window is NaN: the centre `v R`, the `leftBars` values `v (R + i)` and
the `righBars` values `v (R - i)`, `i ≥ 1`. -/
def windowNumbers (v : Int → F) (leftBars righBars : Int) : Prop :=
  GoFloat.isNaN (v righBars) = false ∧
  (∀ i : Int, 1 ≤ i → i ≤ leftBars → GoFloat.isNaN (v (righBars + i)) = false) ∧
  (∀ i : Int, 1 ≤ i → i ≤ righBars → GoFloat.isNaN (v (righBars - i)) = false)

/-- The strict test of the window: `below centre neighbour` holds of every neighbour. -/
def allNeighbours (below : F → F → Bool) (v : Int → F) (leftBars righBars : Int) : Prop :=
  (∀ i : Int, 1 ≤ i → i ≤ leftBars → below (v righBars) (v (righBars + i)) = true) ∧
  (∀ i : Int, 1 ≤ i → i ≤ righBars → below (v righBars) (v (righBars - i)) = true)

/-- The RSI of length 2 of the close series (buffer 1), under the label `L`. -/
def rsiTwo : Serie XFloat := rsi (Serie.SerieWrapper 1 [] 0) (XFloat.fin 2) "L"

/-- The condition `rsiTwo.G(1) == True`. -/
def rsiWasTrue (g : GoQuant XFloat) : Bool × GoQuant XFloat :=
  (GoFloat.eq (rsiTwo.G 1 g).1 TrueValue, (rsiTwo.G 1 g).2)

/-- A slice header that a chain of `append` calls from the empty slice produces: its length
is within its capacity, its backing array has the capacity, and the slots below its length
were written. -/
def OpSlice.valid (arrays : List (List (Option (Nat × Value F)))) (s : OpSlice) : Prop :=
  s.len ≤ s.cap ∧ s.cap ≤ (arrays.getD s.array []).length ∧
  ∀ slot ∈ (arrays.getD s.array []).take s.len, slot.isSome = true

/-- The methods `Mul`, `Add` and `Custom` on slices. -/
def SlicedSerie.Mul (arrays : List (List (Option (Nat × Value F)))) (s : SlicedSerie F)
    (value : Value F) : SlicedSerie F × List (List (Option (Nat × Value F))) :=
  s.addOperation arrays OpMul value

/-- The method `Add` on slices. -/
def SlicedSerie.Add (arrays : List (List (Option (Nat × Value F)))) (s : SlicedSerie F)
    (value : Value F) : SlicedSerie F × List (List (Option (Nat × Value F))) :=
  s.addOperation arrays OpAdd value

/-- The method `Custom` on slices. -/
def SlicedSerie.Custom (arrays : List (List (Option (Nat × Value F)))) (s : SlicedSerie F)
    (f : F → F) : SlicedSerie F × List (List (Option (Nat × Value F))) :=
  s.addOperation arrays OpCustom (Value.func f)

/-- The memoization cache does not disagree with the series at the cursor: a materialized
series and a wrapper without label have no entry; for a wrapper cached under a label, the
entry at the current effective index, if there is one, is the value that the thunk and the
pipeline of the series give in this state (as after a read of this series at this bar). -/
def Serie.cacheAgrees (s : Serie F) (g : GoQuant F) : Prop :=
  match s with
  | Serie.SerieWrapper _ _ _ => True
  | Serie.CustomSerieWrapper f operations cacheKey =>
    cacheKey ≠ "" → ∀ v : F, cacheGet g.cache cacheKey (g.BarIndex - g.BarFuncIndex) = some v →
      v = (applyOperations operations (f g).1 (f g).2).1
/-- The expression `s.Mul(a).Add(b)` on slices: the derived series and the arrays after the
two `append` calls. -/
def SlicedSerie.MulAdd (arrays : List (List (Option (Nat × Value F)))) (s : SlicedSerie F)
    (a b : F) : SlicedSerie F × List (List (Option (Nat × Value F))) :=
  (s.Mul arrays (Value.float a)).1.Add (s.Mul arrays (Value.float a)).2 (Value.float b)

/-- The read of a series past its cache: the slot and pipeline of a materialized series,
the thunk and pipeline of a wrapper (what `Get` runs when it finds no entry), nothing being
stored. -/
def Serie.evaluate (s : Serie F) (g : GoQuant F) : F × GoQuant F :=
  match s with
  | Serie.SerieWrapper data operations diff => (Serie.SerieWrapper data operations diff).Get g
  | Serie.CustomSerieWrapper f operations _ => applyOperations operations (f g).1 (f g).2

/-- The wrapper `firstCached` with its operations as a slice. -/
def firstCachedSliced : SlicedSerie XFloat :=
  SlicedSerie.CustomSerieWrapper (fun g => (XFloat.fin 1, g)) emptySlice "x"
/-- The series `s`: a buffer series with the two operations `+1`, `+2`, derived one after
the other from the series that `NewSerie` returns; and the arrays allocated so far. -/
def twoOps : SlicedSerie XFloat × List (List (Option (Nat × Value XFloat))) :=
  let s0 : SlicedSerie XFloat := SlicedSerie.SerieWrapper 0 emptySlice 0
  let s1 := s0.addOperation [] OpAdd (Value.float (XFloat.fin 1))
  s1.1.addOperation s1.2 OpAdd (Value.float (XFloat.fin 2))

/-- The series `m := s.Mul(3)` derived from `twoOps`. -/
def mulOfTwoOps : SlicedSerie XFloat × List (List (Option (Nat × Value XFloat))) :=
  twoOps.1.Mul twoOps.2 (Value.float (XFloat.fin 3))

/-- The series `d := m.Add(1)`. -/
def addOfMul : SlicedSerie XFloat × List (List (Option (Nat × Value XFloat))) :=
  mulOfTwoOps.1.Add mulOfTwoOps.2 (Value.float (XFloat.fin 1))

/-- The series `e := m.Sub(5)`, derived after `d` from the same `m`. -/
def subOfMul : SlicedSerie XFloat × List (List (Option (Nat × Value XFloat))) :=
  mulOfTwoOps.1.addOperation addOfMul.2 OpSub (Value.float (XFloat.fin 5))

/-- A source that is read from the buffers `heap0`: in every engine state whose first
buffers are `heap0`, `src.Get()` has the value `srcAt e` at the effective index
`e = bar_index - func_offset` and leaves the state as it is.  A materialized series
without operations is such a source, and so are `B`, `Max` and `sma` of such sources. -/
def PureSource (src : Serie F) (srcAt : Int → F) (heap0 : List (List F)) : Prop :=
  ∀ g' : GoQuant F, g'.heap.take heap0.length = heap0 →
    src.Get g' = (srcAt (g'.loopIndex - g'.loopFuncIndex), g')

/-- The value `SMA(src, m).Get()` at the effective index `i` over a source with the values
`srcAt`: the sum of `srcAt i`, `srcAt (i-1)`, ..., `srcAt (i-m+1)` in the order of the loop,
divided by the length. -/
def smaAt (srcAt : Int → F) (length : F) (m : Nat) (i : Int) : F :=
  sumFrom (GoFloat.ofInt 0) ((List.range m).map (fun (k : Nat) => srcAt (i - (k : Int))))
    / length

/-- The engine state between two bars of a run that reads a recursive average at every
bar: the cursor stands at bar `k`, no panic is recorded, the storage `lbl` is the first
buffer made after the buffers `heap0` (made at bar 0, as long as the bar store), its slot
`k - 1` holds `prev`, the buffers `heap0` are untouched and the cache has no entry for bar
`k` or later. -/
def RecInv (lbl : String) (heap0 : List (List F)) (N k : Nat) (prev : F)
    (g : GoQuant F) : Prop :=
  g.loopIndex = k ∧ g.loopFuncIndex = 0 ∧ g.panicked = false ∧
  mapGet g.taStorage lbl = some (heap0.length, 0) ∧ g.heap.take heap0.length = heap0 ∧
  heap0.length < g.heap.length ∧ (g.heap.getD heap0.length []).length = N ∧
  (g.heap.getD heap0.length []).get? (k - 1) = some prev ∧
  ∀ j : Int, (k : Int) ≤ j → cacheGet g.cache (BUILT_IN ++ lbl) j = none
/-- The engine after `New` and `AddBars` of bars with the given closes (each rounded to the
nearest `float64`), the other prices equal to the close and volume 1, at bar 0, on
`float64` with its rounding; the close series is buffer 1. -/
def roundedEngine (closes : List ℚ) : GoQuant RFloat :=
  ((GoQuant.New : GoQuant RFloat).AddBars
    (closes.map (fun c =>
      { Close := ⟨XFloat.round64 c⟩, Open := ⟨XFloat.round64 c⟩, High := ⟨XFloat.round64 c⟩,
        Low := ⟨XFloat.round64 c⟩, Volume := ⟨XFloat.fin 1⟩, Time := ⟨XFloat.fin 0⟩ }))).getD
    GoQuant.New

/-- The value of the close series of `threeBarsEngine` at the effective index `e`. -/
def closeAt (e : Int) : XFloat := bufferAt (threeBarsEngine.heap.getD 1 []) (e - 0)

/-- A condition that depends on the cursor only through the effective index: on two states
with the same view it gives the same answer and leaves states with the same view. -/
def CondRespectsView (f : GoQuant F → Bool × GoQuant F) : Prop :=
  ∀ g1 g2 : GoQuant F, g1.view = g2.view → (f g1).1 = (f g2).1 ∧ (f g1).2.view = (f g2).2.view

/-- The series that keep no storage of their own: built from materialized series by `B`,
arithmetic derivation (with a constant or a series operand), `Custom`, `Cache`, `Max`,
`cross`, `crossOver`, `crossUnder`, `barsSince` (over a condition that depends on the
cursor only through the effective index, as a comparison of reads of such series does),
`pivotHigh`, `pivotLow`, `sma` and `vwma`. -/
inductive CursorFree : Serie F → Prop where
  | materialized (data : Nat) (diff : Int) : CursorFree (Serie.SerieWrapper data [] diff)
  | back (s : Serie F) (steps : Int) : CursorFree s → CursorFree (s.B steps)
  | constant (s : Serie F) (opType : Nat) (c : F) :
      CursorFree s → CursorFree (s.addOperation opType (Value.float c))
  | operand (s t : Serie F) (opType : Nat) :
      CursorFree s → CursorFree t → CursorFree (s.addOperation opType (Value.serie t))
  | custom (s : Serie F) (f : F → F) : CursorFree s → CursorFree (s.Custom f)
  | cache (s : Serie F) (lbl : String) : CursorFree s → CursorFree (s.Cache lbl)
  | max (s t : Serie F) : CursorFree s → CursorFree t → CursorFree (Max s t)
  | cross (s t : Serie F) : CursorFree s → CursorFree t → CursorFree (cross s t)
  | crossOver (s t : Serie F) : CursorFree s → CursorFree t → CursorFree (crossOver s t)
  | crossUnder (s t : Serie F) : CursorFree s → CursorFree t → CursorFree (crossUnder s t)
  | barsSince (cond : GoQuant F → Bool × GoQuant F) :
      CondRespectsView cond → CursorFree (barsSince cond)
  | pivotHigh (g0 : GoQuant F) (leftBars righBars : Int) (source : List (Serie F)) :
      (∀ s, s ∈ source → CursorFree s) → CursorFree (pivotHigh g0 leftBars righBars source)
  | pivotLow (g0 : GoQuant F) (leftBars righBars : Int) (source : List (Serie F)) :
      (∀ s, s ∈ source → CursorFree s) → CursorFree (pivotLow g0 leftBars righBars source)
  | sma (s : Serie F) (length : F) : CursorFree s → CursorFree (sma s length)
  | vwma (s : Serie F) (length : F) : CursorFree s → CursorFree (vwma s length)

end Specification

/-! ## Theorems -/

section Theorems
variable {F : Type} [GoFloat F]

theorem map_range_succ {α : Type} (f : Nat → α) (n : Nat) :
    (List.range (n + 1)).map f = f 0 :: (List.range n).map (fun t => f (t + 1)) := by
  simp [List.range_succ_eq_map, Function.comp_def]

theorem barAt_isSome (bars : List (Bar F)) (i : Int) (h0 : 0 ≤ i) (h1 : i < bars.length) :
    ∃ bar, barAt bars i = some bar := by
  unfold barAt
  rw [if_neg (by omega)]
  have : i.toNat < bars.length := by omega
  exact ⟨bars.get ⟨i.toNat, this⟩, List.get?_eq_get this⟩

theorem nilLoop_eq (bars : List (Bar F)) (n : Nat) (lo : Int) (acc : List (PlotPoint F))
    (h : n = 0 ∨ (0 ≤ lo ∧ lo + n ≤ bars.length)) :
    nilLoop bars n lo acc = some (acc ++ nilPoints bars lo n) := by
  induction n generalizing lo acc with
  | zero => simp [nilLoop, nilPoints]
  | succ n ih =>
    have h' : 0 ≤ lo ∧ lo + (n + 1 : Nat) ≤ bars.length := by
      rcases h with h | h
      · omega
      · exact h
    obtain ⟨hlo, h1⟩ := h'
    obtain ⟨bar, hbar⟩ := barAt_isSome bars lo hlo (by push_cast at h1; omega)
    simp only [nilLoop, hbar]
    rw [ih (lo + 1) _ (Or.inr ⟨by omega, by push_cast at h1 ⊢; omega⟩)]
    simp only [nilPoints, map_range_succ, List.append_assoc, List.singleton_append,
      Nat.cast_zero, add_zero, barTime, hbar]
    congr 3
    apply List.map_congr_left
    intro t _
    have : lo + 1 + (t : Int) = lo + ((t + 1 : Nat) : Int) := by push_cast; ring
    rw [this]

theorem interpLoop_eq (p q : PlotPoint F) (gapSize : Int) (n : Nat) (j : Int)
    (acc : List (PlotPoint F)) :
    interpLoop p q gapSize n j acc =
      acc ++ (List.range n).map (fun (t : Nat) => interpolatedPoint p q gapSize (j + (t : Int))) := by
  induction n generalizing j acc with
  | zero => simp [interpLoop]
  | succ n ih =>
    simp only [interpLoop]
    rw [ih]
    simp only [map_range_succ, List.append_assoc, List.singleton_append,
      Nat.cast_zero, add_zero]
    congr 2
    apply List.map_congr_left
    intro t _
    have : j + 1 + (t : Int) = j + ((t + 1 : Nat) : Int) := by push_cast; ring
    rw [this]

theorem gapLoop_eq (rest : List (PlotPoint F)) (prev : PlotPoint F) (acc : List (PlotPoint F)) :
    gapLoop rest prev acc = acc ++ gapBody prev rest := by
  induction rest generalizing prev acc with
  | nil => simp [gapLoop, gapBody]
  | cons c rest ih =>
    simp only [gapLoop, gapBody]
    rw [ih]
    by_cases hg : c.Index - prev.Index - 1 > 0
    · rw [if_pos hg, interpLoop_eq]
      simp [gapPoints]
    · rw [if_neg hg]
      have : (c.Index - prev.Index - 1).toNat = 0 := by omega
      simp [gapPoints, this]

theorem fillPlotData_eq (bars : List (Bar F)) (first : PlotPoint F) (rest : List (PlotPoint F))
    (config : PlotConfig F)
    (hfirst : first.Index ≤ bars.length)
    (hlast : 0 ≤ ((first :: rest).getLast (List.cons_ne_nil first rest)).Index + 1)
    (hlast' : ((first :: rest).getLast (List.cons_ne_nil first rest)).Index + 1 ≤ bars.length) :
    fillPlotData bars { Data := first :: rest, Config := config } =
      some { Data := filledPoints bars first rest, Config := config } := by
  simp only [fillPlotData]
  rw [nilLoop_eq bars _ 0 [] (Or.inr ⟨le_refl 0, by omega⟩)]
  simp only [gapLoop_eq]
  rw [nilLoop_eq bars _ _ _ (Or.inr ⟨hlast, by omega⟩)]
  simp [filledPoints]

theorem intRange_succ (lo : Int) (n : Nat) : intRange lo (n + 1) = lo :: intRange (lo + 1) n := by
  simp only [intRange, map_range_succ, Nat.cast_zero, add_zero]
  congr 1
  apply List.map_congr_left
  intro t _
  push_cast; ring

theorem intRange_append (lo : Int) (n m : Nat) :
    intRange lo n ++ intRange (lo + n) m = intRange lo (n + m) := by
  induction n generalizing lo with
  | zero => simp [intRange]
  | succ n ih =>
    have h1 : n + 1 + m = (n + m) + 1 := by omega
    rw [h1, intRange_succ, intRange_succ, List.cons_append]
    have h2 : lo + ((n + 1 : Nat) : Int) = lo + 1 + (n : Int) := by push_cast; ring
    rw [h2, ih]

theorem nilPoints_index (bars : List (Bar F)) (lo : Int) (n : Nat) :
    (nilPoints bars lo n).map (fun p => p.Index) = intRange lo n := by
  simp [nilPoints, intRange, Function.comp_def]

theorem gapPoints_index (p q : PlotPoint F) :
    (gapPoints p q).map (fun p => p.Index) = intRange (p.Index + 1) (q.Index - p.Index - 1).toNat := by
  simp only [gapPoints, intRange, List.map_map, Function.comp_def, interpolatedPoint]
  apply List.map_congr_left
  intro t _
  ring

theorem Ascending.head_le_last (q : PlotPoint F) (rest : List (PlotPoint F))
    (h : Ascending (q :: rest)) :
    q.Index ≤ ((q :: rest).getLast (List.cons_ne_nil q rest)).Index := by
  have hm := List.getLast_mem (List.cons_ne_nil q rest)
  rcases List.mem_cons.1 hm with h1 | h1
  · rw [h1]
  · exact le_of_lt ((List.pairwise_cons.1 h).1 _ h1)

theorem gapBody_index (p : PlotPoint F) (rest : List (PlotPoint F))
    (h : Ascending (p :: rest)) :
    (gapBody p rest).map (fun p => p.Index) =
      intRange (p.Index + 1)
        (((p :: rest).getLast (List.cons_ne_nil p rest)).Index - p.Index).toNat := by
  induction rest generalizing p with
  | nil => simp [gapBody, intRange]
  | cons q rest ih =>
    have hpq : p.Index < q.Index := (List.pairwise_cons.1 h).1 q (List.mem_cons_self _ _)
    have hrest : Ascending (q :: rest) := (List.pairwise_cons.1 h).2
    have hlast := Ascending.head_le_last q rest hrest
    simp only [gapBody, List.map_append, List.map_cons, gapPoints_index, ih q hrest]
    rw [List.getLast_cons (List.cons_ne_nil q rest)]
    generalize ((q :: rest).getLast (List.cons_ne_nil q rest)).Index = L at hlast ⊢
    have e1 : (L - p.Index).toNat = (q.Index - p.Index - 1).toNat + ((L - q.Index).toNat + 1) := by
      omega
    have e2 : q.Index = p.Index + 1 + ((q.Index - p.Index - 1).toNat : Int) := by omega
    rw [e1, ← intRange_append, intRange_succ, ← e2]

theorem filledPoints_index (bars : List (Bar F)) (first : PlotPoint F)
    (rest : List (PlotPoint F)) (h : Ascending (first :: rest)) (h0 : 0 ≤ first.Index)
    (h1 : ((first :: rest).getLast (List.cons_ne_nil first rest)).Index < bars.length) :
    (filledPoints bars first rest).map (fun p => p.Index) = intRange 0 bars.length := by
  have hlast := Ascending.head_le_last first rest h
  simp only [filledPoints, List.map_append, List.map_cons, nilPoints_index, gapBody_index _ _ h]
  generalize ((first :: rest).getLast (List.cons_ne_nil first rest)).Index = L at hlast h1 ⊢
  have e1 : bars.length = first.Index.toNat + (1 + ((L - first.Index).toNat +
      ((bars.length : Int) - (L + 1)).toNat)) := by omega
  have e2 : first.Index = 0 + (first.Index.toNat : Int) := by omega
  have e3 : L + 1 = first.Index + 1 + ((L - first.Index).toNat : Int) := by omega
  conv_rhs => rw [e1]
  rw [← intRange_append, ← e2, Nat.add_comm 1, intRange_succ, ← intRange_append, ← e3]
  simp

theorem mem_mapSet {K V : Type} [DecidableEq K] (m : List (K × V)) (k : K) (v : V) (e : K × V)
    (h : e ∈ mapSet m k v) : e ∈ m ∨ e = (k, v) := by
  induction m with
  | nil => simp [mapSet] at h; exact Or.inr h
  | cons a m ih =>
    simp only [mapSet] at h
    split at h
    · rcases List.mem_cons.1 h with h | h
      · exact Or.inr h
      · exact Or.inl (List.mem_cons_of_mem _ h)
    · rcases List.mem_cons.1 h with h | h
      · exact Or.inl (h ▸ List.mem_cons_self _ _)
      · rcases ih h with h | h
        · exact Or.inl (List.mem_cons_of_mem _ h)
        · exact Or.inr h

theorem mapGet_mem {K V : Type} [DecidableEq K] (m : List (K × V)) (k : K) (v : V)
    (h : mapGet m k = some v) : (k, v) ∈ m := by
  induction m with
  | nil => simp [mapGet] at h
  | cons a m ih =>
    simp only [mapGet] at h
    split at h
    · rename_i hk
      cases a
      simp only [Option.some.injEq] at h
      simp only at hk
      subst hk; subst h
      exact List.mem_cons_self _ _
    · exact List.mem_cons_of_mem _ (ih h)

theorem PlotInRange.set (bars : List (Bar F)) (store : List (String × PlotData F))
    (k : String) (pd : PlotData F) (h : PlotInRange bars store)
    (hpd : ∀ p ∈ pd.Data, 0 ≤ p.Index ∧ p.Index < bars.length) :
    PlotInRange bars (mapSet store k pd) := by
  intro e he
  rcases mem_mapSet _ _ _ _ he with h1 | h1
  · exact h e h1
  · subst h1; exact hpd

theorem PlotInRange.init (bars : List (Bar F)) (store : List (String × PlotData F))
    (k : String) (cfg : PlotConfig F) (h : PlotInRange bars store) :
    PlotInRange bars (match mapGet store k with
      | some _ => store
      | none => mapSet store k { Config := cfg, Data := [] }) := by
  split
  · exact h
  · exact PlotInRange.set _ _ _ _ h (by simp)

theorem plot_inv (bars : List (Bar F)) (g : GoQuant F) (value : F)
    (config : Option (PlotConfig F)) (label : List String) (callerLine : Nat)
    (h : EmitInv bars g) : EmitInv bars (plot g value config label callerLine) := by
  obtain ⟨hb, hp, hl⟩ := h
  unfold plot
  dsimp only
  split
  · exact ⟨hb, PlotInRange.init _ _ _ _ hp, hl⟩
  · rename_i hidx
    split
    · exact ⟨hb, PlotInRange.init _ _ _ _ hp, hl⟩
    · refine ⟨hb, PlotInRange.set _ _ _ _ (PlotInRange.init _ _ _ _ hp) ?_, hl⟩
      intro p hp'
      simp only [List.mem_append, List.mem_singleton] at hp'
      rcases hp' with h1 | h1
      · split at h1
        · rename_i pd hpd
          exact PlotInRange.init _ _ _ _ hp _ (mapGet_mem _ _ _ hpd) p h1
        · simp at h1
      · subst h1
        simp only [hb] at hidx
        dsimp only
        omega

theorem LinesHavePoint.append (store : List (LineData F)) (l : LineData F)
    (h : LinesHavePoint store) (hl : l.Points ≠ []) : LinesHavePoint (store ++ [l]) := by
  intro l' hl' ht
  rcases List.mem_append.1 hl' with h1 | h1
  · exact h l' h1 ht
  · rw [List.mem_singleton.1 h1]; exact hl

theorem line_inv (bars : List (Bar F)) (g : GoQuant F) (p1 p2 : Point F)
    (config : Option (LineConfig F)) (h : EmitInv bars g) : EmitInv bars (line g p1 p2 config) := by
  obtain ⟨hb, hp, hl⟩ := h
  exact ⟨hb, hp, LinesHavePoint.append _ _ hl (by simp)⟩

theorem vline_inv (bars : List (Bar F)) (g : GoQuant F)
    (config : Option (LineConfig F)) (h : EmitInv bars g) : EmitInv bars (vline g config) := by
  obtain ⟨hb, hp, hl⟩ := h
  unfold vline
  dsimp only
  split
  · exact ⟨hb, hp, hl⟩
  · split
    · exact ⟨hb, hp, hl⟩
    · exact ⟨hb, hp, LinesHavePoint.append _ _ hl (by simp)⟩

theorem hline_inv (bars : List (Bar F)) (g : GoQuant F) (value : F)
    (config : Option (LineConfig F)) (h : EmitInv bars g) : EmitInv bars (hline g value config) := by
  obtain ⟨hb, hp, hl⟩ := h
  unfold hline
  dsimp only
  split
  · exact ⟨hb, hp, hl⟩
  · split
    · exact ⟨hb, hp, hl⟩
    · exact ⟨hb, hp, LinesHavePoint.append _ _ hl (by simp)⟩

theorem calls_inv (bars : List (Bar F)) (calls : List (Call F)) (g : GoQuant F)
    (h : EmitInv bars g) : EmitInv bars (calls.foldl Call.run g) := by
  induction calls generalizing g with
  | nil => exact h
  | cons c calls ih =>
    apply ih
    cases c with
    | plot value config label callerLine => exact plot_inv _ _ _ _ _ _ h
    | line p1 p2 config => exact line_inv _ _ _ _ _ h
    | vline config => exact vline_inv _ _ _ h
    | hline value config => exact hline_inv _ _ _ _ h

theorem logicLoop_inv (bars : List (Bar F)) (userFunc : GoQuant F → List (Call F)) (n : Nat)
    (g : GoQuant F) (h : EmitInv bars g) : EmitInv bars (logicLoop userFunc n g) := by
  induction n generalizing g with
  | zero => exact h
  | succ n ih =>
    simp only [logicLoop]
    apply ih
    exact calls_inv bars _ g h

theorem dedupLoop_total (store : List (LineData F)) (seen : List String)
    (uniqueLines : List (LineData F)) (h : LinesHavePoint store) :
    ∃ out, dedupLoop store seen uniqueLines = some out := by
  induction store generalizing seen uniqueLines with
  | nil => exact ⟨uniqueLines, rfl⟩
  | cons l store ih =>
    have hstore : LinesHavePoint store := fun l' hl' => h l' (List.mem_cons_of_mem _ hl')
    have hl := h l (List.mem_cons_self _ _)
    simp only [dedupLoop]
    cases hk : lineKey l with
    | none =>
      exfalso
      unfold lineKey at hk
      split at hk
      · rename_i ht
        split at hk
        · rename_i hp; exact hl (Or.inl ht) hp
        · simp at hk
      · split at hk
        · rename_i ht
          split at hk
          · rename_i hp; exact hl (Or.inr ht) hp
          · simp at hk
        · simp at hk
    | some k =>
      cases k with
      | none => exact ih _ _ hstore
      | some key =>
        dsimp only
        split
        · exact ih _ _ hstore
        · exact ih _ _ hstore

theorem fillPlotData_total (bars : List (Bar F)) (pd : PlotData F)
    (h : ∀ p ∈ pd.Data, 0 ≤ p.Index ∧ p.Index < bars.length) :
    ∃ out, fillPlotData bars pd = some out := by
  obtain ⟨data, config⟩ := pd
  cases data with
  | nil => exact ⟨_, rfl⟩
  | cons first rest =>
    have hf := h first (List.mem_cons_self _ _)
    have hl := h _ (List.getLast_mem (List.cons_ne_nil first rest))
    exact ⟨_, fillPlotData_eq bars first rest config (by omega) (by omega) (by omega)⟩

theorem fillStorage_spec (bars : List (Bar F)) (store : List (String × PlotData F))
    (h : PlotInRange bars store) :
    ∃ out, fillStorage bars store = some out ∧
      ∀ label pd, mapGet store label = some pd →
        ∃ filled, fillPlotData bars pd = some filled ∧ mapGet out label = some filled := by
  induction store with
  | nil => exact ⟨[], rfl, fun label pd hget => by simp [mapGet] at hget⟩
  | cons e store ih =>
    obtain ⟨label0, pd0⟩ := e
    obtain ⟨out, hout, hspec⟩ := ih (fun e he => h e (List.mem_cons_of_mem _ he))
    obtain ⟨filled0, hfilled0⟩ := fillPlotData_total bars pd0 (h (label0, pd0) (List.mem_cons_self _ _))
    refine ⟨(label0, filled0) :: out, by simp [fillStorage, hfilled0, hout], ?_⟩
    intro label pd hget
    simp only [mapGet] at hget ⊢
    split at hget
    · rename_i heq
      simp only [Option.some.injEq] at hget
      subst hget
      exact ⟨filled0, hfilled0, by simp [heq]⟩
    · rename_i hne
      obtain ⟨filled, hf, hg⟩ := hspec label pd hget
      exact ⟨filled, hf, by simp [hne, hg]⟩

theorem intRange_zero (n : Nat) : intRange 0 n = (List.range n).map Int.ofNat := by
  simp [intRange]

/-- C1 (amended). After `Logic` returns on an engine whose plot and line stores were empty,
for every label whose emitted list (the list in the plot store when the bar loop ends) is
non-empty with strictly ascending indices, the point indices in the plot store are exactly
`0, 1, ..., bar_count - 1`, each once and in ascending order. -/
theorem Logic_plot_indices (g : GoQuant F) (userFunc : GoQuant F → List (Call F))
    (hplot : g.plotStorage = []) (hline : g.lineStorage = [])
    (label : String) (emitted : PlotData F)
    (hget : mapGet (logicLoop userFunc ((g.bars.length : Int) - g.loopIndex).toNat g).plotStorage
      label = some emitted)
    (hne : emitted.Data ≠ [])
    (hasc : List.Pairwise (fun a b => a.Index < b.Index) emitted.Data) :
    ∃ g' filled, Logic g userFunc = some g' ∧ mapGet g'.plotStorage label = some filled ∧
      filled.Data.map (fun p => p.Index) = (List.range g.bars.length).map Int.ofNat := by
  have hinv0 : EmitInv g.bars g :=
    ⟨rfl, by rw [hplot]; intro e he; simp at he, by rw [hline]; intro l hl; simp at hl⟩
  have hinv := logicLoop_inv g.bars userFunc ((g.bars.length : Int) - g.loopIndex).toNat g hinv0
  obtain ⟨g1, hg1⟩ : ∃ g1, g1 = logicLoop userFunc ((g.bars.length : Int) - g.loopIndex).toNat g :=
    ⟨_, rfl⟩
  rw [← hg1] at hget hinv
  obtain ⟨hb, hp, hl⟩ := hinv
  obtain ⟨out, hout, hspec⟩ := fillStorage_spec g.bars g1.plotStorage hp
  obtain ⟨filled, hfilled, hgetf⟩ := hspec label emitted hget
  obtain ⟨lines, hlines⟩ := dedupLoop_total g1.lineStorage [] [] hl
  refine ⟨{ g1 with plotStorage := out, lineStorage := lines }, filled, ?_, hgetf, ?_⟩
  · simp only [Logic, ← hg1, FillTheGaps, hb, hout, RemoveDuplicatesFromStraightLines, hlines]
  · obtain ⟨data, config⟩ := emitted
    cases data with
    | nil => exact absurd rfl hne
    | cons first rest =>
      have hin := hp _ (mapGet_mem _ _ _ hget)
      have hf := hin first (List.mem_cons_self _ _)
      have hlast := hin _ (List.getLast_mem (List.cons_ne_nil first rest))
      rw [fillPlotData_eq g.bars first rest config (by omega) (by omega) (by omega)] at hfilled
      simp only [Option.some.injEq] at hfilled
      rw [← hfilled, ← intRange_zero]
      exact filledPoints_index g.bars first rest hasc hf.1 hlast.2

/-- C1 (amended) at a strategy that plots on bars 1 and 3 of four. -/
theorem Logic_plot_indices_witness :
    ∃ g' filled, Logic (New exampleBars) sparseStrategy = some g' ∧
      mapGet g'.plotStorage "a" = some filled ∧
      filled.Data.map (fun p => p.Index) = (List.range exampleBars.length).map Int.ofNat :=
  Logic_plot_indices (New exampleBars) sparseStrategy rfl rfl "a"
    { Data := [{ Value := some (XFloat.fin 1), Index := 1, Time := 200 },
               { Value := some (XFloat.fin 3), Index := 3, Time := 400 }],
      Config := { (PlotConfig.zero : PlotConfig XFloat) with Location := "a" } }
    (by decide!) (by simp) (by simp)

/-- C1 (as stated). A strategy that plots under the label `a` with `Shift = 9` on four
bars leaves the label in the plot store with no point at all after `Logic`. -/
theorem Logic_plot_indices_counterexample :
    exampleBars.length = 4 ∧
    (Logic (New exampleBars) shiftedStrategy).map
      (fun g' => (mapGet g'.plotStorage "a").map (fun pd => pd.Data.map (fun p => p.Index)))
      = some (some []) := by
  decide!

theorem lineKey_some (l : LineData F) (key : String) (h : lineKey l = some (some key)) :
    ∃ p rest, l.Points = p :: rest ∧
      ((l.Typ = HorizontalStraightLine ∧ key = sprintfKey l.Typ l.Config p.Y) ∨
       (l.Typ = VerticalStraightLine ∧ key = sprintfKey l.Typ l.Config p.X)) := by
  unfold lineKey at h
  split at h
  · rename_i ht
    split at h
    · simp at h
    · rename_i p rest hp
      simp only [Option.some.injEq] at h
      exact ⟨p, rest, hp, Or.inl ⟨ht, h.symm⟩⟩
  · split at h
    · rename_i ht
      split at h
      · simp at h
      · rename_i p rest hp
        simp only [Option.some.injEq] at h
        exact ⟨p, rest, hp, Or.inr ⟨ht, h.symm⟩⟩
    · simp at h

theorem dedupLoop_inv (store : List (LineData F)) (seen : List String)
    (uniqueLines out : List (LineData F)) (h : DedupInv seen uniqueLines)
    (hout : dedupLoop store seen uniqueLines = some out) :
    ∃ seen', DedupInv seen' out := by
  induction store generalizing seen uniqueLines with
  | nil =>
    simp only [dedupLoop, Option.some.injEq] at hout
    exact ⟨seen, hout ▸ h⟩
  | cons l store ih =>
    simp only [dedupLoop] at hout
    cases hk : lineKey l with
    | none => simp [hk] at hout
    | some k =>
      cases k with
      | none =>
        simp only [hk] at hout
        exact ih _ _ h hout
      | some key =>
        simp only [hk] at hout
        split at hout
        · exact ih _ _ h hout
        · rename_i hnew
          refine ih (key :: seen) (uniqueLines ++ [l]) ⟨?_, ?_⟩ hout
          · intro l' hl'
            rcases List.mem_append.1 hl' with h1 | h1
            · obtain ⟨k', hk', hs'⟩ := h.1 l' h1
              exact ⟨k', hk', List.mem_cons_of_mem _ hs'⟩
            · rw [List.mem_singleton.1 h1]
              exact ⟨key, hk, List.mem_cons_self _ _⟩
          · rw [List.pairwise_append]
            refine ⟨h.2, List.pairwise_singleton _ _, ?_⟩
            intro a ha b hb
            rw [List.mem_singleton.1 hb, hk]
            obtain ⟨k', hk', hs'⟩ := h.1 a ha
            rw [hk']
            intro heq
            simp only [Option.some.injEq] at heq
            exact hnew (heq ▸ hs')

/-- C3. After `RemoveDuplicatesFromStraightLines` (which returns on every line store whose
straight lines carry their point, as `hline` and `vline` store them), no two horizontal lines
of the result have equal config and equal y, and no two vertical lines have equal config and
equal x. -/
theorem RemoveDuplicates_no_duplicates (g : GoQuant F) (hpoints : LinesHavePoint g.lineStorage) :
    ∃ g', RemoveDuplicatesFromStraightLines g = some g' ∧
      List.Pairwise (fun a b => ∀ p q, a.Points.head? = some p → b.Points.head? = some q →
        (a.Typ = HorizontalStraightLine → b.Typ = HorizontalStraightLine →
          ¬ (a.Config = b.Config ∧ p.Y = q.Y)) ∧
        (a.Typ = VerticalStraightLine → b.Typ = VerticalStraightLine →
          ¬ (a.Config = b.Config ∧ p.X = q.X))) g'.lineStorage := by
  obtain ⟨out, hout⟩ := dedupLoop_total g.lineStorage [] [] hpoints
  refine ⟨{ g with lineStorage := out }, by simp [RemoveDuplicatesFromStraightLines, hout], ?_⟩
  obtain ⟨seen', hinv, hpw⟩ := dedupLoop_inv g.lineStorage [] [] out
    ⟨by intro l hl; simp at hl, List.Pairwise.nil⟩ hout
  show List.Pairwise _ out
  refine List.Pairwise.imp_of_mem ?_ hpw
  intro a b ha hb hne p q hp hq
  obtain ⟨ka, hka, _⟩ := hinv a ha
  obtain ⟨kb, hkb, _⟩ := hinv b hb
  obtain ⟨pa, ra, hpa, hca⟩ := lineKey_some a ka hka
  obtain ⟨pb, rb, hpb, hcb⟩ := lineKey_some b kb hkb
  rw [hpa] at hp
  rw [hpb] at hq
  simp only [List.head?_cons, Option.some.injEq] at hp hq
  subst hp; subst hq
  have hvh : VerticalStraightLine ≠ HorizontalStraightLine := by decide
  constructor
  · intro hta htb ⟨hc, hy⟩
    apply hne
    rw [hka, hkb]
    rcases hca with ⟨_, e1⟩ | ⟨t1, _⟩
    · rcases hcb with ⟨_, e2⟩ | ⟨t2, _⟩
      · rw [e1, e2, hta, htb, hc, hy]
      · exact absurd (t2.symm.trans htb) hvh
    · exact absurd (t1.symm.trans hta) hvh
  · intro hta htb ⟨hc, hx⟩
    apply hne
    rw [hka, hkb]
    rcases hca with ⟨t1, _⟩ | ⟨_, e1⟩
    · exact absurd (hta.symm.trans t1) hvh
    · rcases hcb with ⟨t2, _⟩ | ⟨_, e2⟩
      · exact absurd (htb.symm.trans t2) hvh
      · rw [e1, e2, hta, htb, hc, hx]

theorem gapBody_snoc (a : PlotPoint F) (l : List (PlotPoint F)) (p : PlotPoint F) :
    ∃ kept, gapBody a (l ++ [p]) = kept ++ [p] ∧ List.Sublist l kept := by
  induction l generalizing a with
  | nil => exact ⟨gapPoints a p, by simp [gapBody], List.nil_sublist _⟩
  | cons b l ih =>
    obtain ⟨kept, hk, hs⟩ := ih b
    refine ⟨gapPoints a b ++ b :: kept, by simp [gapBody, hk], ?_⟩
    exact List.Sublist.trans (List.Sublist.cons₂ b hs) (List.sublist_append_right _ _)

theorem gapBody_split (a : PlotPoint F) (l : List (PlotPoint F)) (p q : PlotPoint F)
    (l2 : List (PlotPoint F)) :
    gapBody a (l ++ p :: q :: l2) = gapBody a (l ++ [p]) ++ (gapPoints p q ++ q :: gapBody q l2) := by
  induction l generalizing a with
  | nil => simp [gapBody]
  | cons b l ih => simp [gapBody, ih]

theorem sublist_gapBody (a : PlotPoint F) (l : List (PlotPoint F)) :
    List.Sublist l (gapBody a l) := by
  induction l generalizing a with
  | nil => exact List.nil_sublist _
  | cons b l ih =>
    simp only [gapBody]
    exact List.Sublist.trans (List.Sublist.cons₂ b (ih b)) (List.sublist_append_right _ _)

theorem gapPoints_length (p q : PlotPoint F) :
    (gapPoints p q).length = (q.Index - p.Index - 1).toNat := by
  simp [gapPoints]

theorem gapPoints_get (p q : PlotPoint F) (j : Nat) (h1 : 1 ≤ j)
    (h2 : (j : Int) ≤ q.Index - p.Index - 1) :
    (gapPoints p q).get? (j - 1) =
      some (interpolatedPoint p q (q.Index - p.Index - 1) (j : Int)) := by
  have hlt : j - 1 < (q.Index - p.Index - 1).toNat := by omega
  have hj : (1 : Int) + ((j - 1 : Nat) : Int) = (j : Int) := by omega
  unfold gapPoints
  rw [List.get?_eq_getElem?, List.getElem?_map, List.getElem?_range hlt]
  simp only [Option.map_some', hj]

/-- The points of one label before the first nil point of the suffix: the first emitted
point and what `gapBody` puts after it. -/
theorem filled_split (first : PlotPoint F) (rest l1 l2 : List (PlotPoint F)) (p q : PlotPoint F)
    (h : first :: rest = l1 ++ p :: q :: l2) :
    ∃ kept, first :: gapBody first rest = kept ++ p :: (gapPoints p q ++ q :: gapBody q l2) ∧
      List.Sublist l1 kept := by
  cases l1 with
  | nil =>
    simp only [List.nil_append, List.cons.injEq] at h
    obtain ⟨h1, h2⟩ := h
    subst h1; subst h2
    exact ⟨[], by simp [gapBody], List.nil_sublist _⟩
  | cons b l1 =>
    simp only [List.cons_append, List.cons.injEq] at h
    obtain ⟨h1, h2⟩ := h
    subst h1; subst h2
    obtain ⟨kept, hk, hs⟩ := gapBody_snoc first l1 p
    refine ⟨first :: kept, ?_, List.Sublist.cons₂ _ hs⟩
    rw [gapBody_split, hk]
    simp

/-- C5. In `FillTheGaps` (the body run for one label, on points that lie on bars), for
every pair of adjacent emitted points `p`, `q` with `q.Index - p.Index > 1`, exactly
`gap = q.Index - p.Index - 1` points stand between them in the result; the `j`-th
(`1 ≤ j ≤ gap`) has index `p.Index + j`, time `p.Time + (q.Time - p.Time) * j / (gap + 1)`
with truncating division, and value `p + (q - p) * j / (gap + 1)` when both values are
present, the present one when exactly one is, and none when both are absent. -/
theorem fillPlotData_interpolates (bars : List (Bar F)) (plotData : PlotData F)
    (l1 l2 : List (PlotPoint F)) (p q : PlotPoint F)
    (hrange : ∀ pt ∈ plotData.Data, 0 ≤ pt.Index ∧ pt.Index < bars.length)
    (hdata : plotData.Data = l1 ++ p :: q :: l2) (hgap : q.Index - p.Index > 1) :
    ∃ filled before inserted after,
      fillPlotData bars plotData = some filled ∧
      filled.Data = before ++ p :: (inserted ++ q :: after) ∧
      List.Sublist l1 before ∧ List.Sublist l2 after ∧
      (inserted.length : Int) = q.Index - p.Index - 1 ∧
      ∀ j : Nat, 1 ≤ j → (j : Int) ≤ q.Index - p.Index - 1 →
        inserted.get? (j - 1) = some
          { Index := p.Index + j
            Time := p.Time + Int.tdiv ((q.Time - p.Time) * j) (q.Index - p.Index - 1 + 1)
            Value := match p.Value, q.Value with
              | some pv, some qv =>
                some (pv + (qv - pv) * GoFloat.ofInt j / GoFloat.ofInt (q.Index - p.Index - 1 + 1))
              | none, some qv => some qv
              | some pv, none => some pv
              | none, none => none } := by
  obtain ⟨data, config⟩ := plotData
  simp only at hdata hrange
  cases data with
  | nil => simp at hdata
  | cons first rest =>
    have hf := hrange first (List.mem_cons_self _ _)
    have hl := hrange _ (List.getLast_mem (List.cons_ne_nil first rest))
    obtain ⟨kept, hk, hs⟩ := filled_split first rest l1 l2 p q hdata
    refine ⟨_, nilPoints bars 0 first.Index.toNat ++ kept, gapPoints p q,
      gapBody q l2 ++ nilPoints bars
        (((first :: rest).getLast (List.cons_ne_nil first rest)).Index + 1)
        ((bars.length : Int) -
          (((first :: rest).getLast (List.cons_ne_nil first rest)).Index + 1)).toNat,
      fillPlotData_eq bars first rest config (by omega) (by omega) (by omega), ?_, ?_, ?_, ?_, ?_⟩
    · simp only [filledPoints]
      rw [← List.cons_append, hk]
      simp
    · exact List.Sublist.trans hs (List.sublist_append_right _ _)
    · exact List.Sublist.trans (sublist_gapBody q l2) (List.sublist_append_left _ _)
    · rw [gapPoints_length]; omega
    · intro j h1 h2
      rw [gapPoints_get p q j h1 h2]
      rfl

/-- C5 at scenario 4. -/
theorem fillPlotData_interpolates_witness :
    ∃ filled before inserted after,
      fillPlotData exampleBars gapScenario = some filled ∧
      filled.Data = before ++ { Value := some (XFloat.fin 10), Index := 0, Time := 100 } ::
        (inserted ++ { Value := some (XFloat.fin 40), Index := 3, Time := 400 } :: after) ∧
      List.Sublist [] before ∧ List.Sublist [] after ∧
      (inserted.length : Int) = 3 - 0 - 1 ∧
      ∀ j : Nat, 1 ≤ j → (j : Int) ≤ 3 - 0 - 1 →
        inserted.get? (j - 1) = some
          { Index := 0 + j
            Time := 100 + Int.tdiv ((400 - 100) * j) (3 - 0 - 1 + 1)
            Value := some (XFloat.fin 10 + (XFloat.fin 40 - XFloat.fin 10) * GoFloat.ofInt j /
              GoFloat.ofInt (3 - 0 - 1 + 1)) } :=
  fillPlotData_interpolates exampleBars gapScenario [] []
    { Value := some (XFloat.fin 10), Index := 0, Time := 100 }
    { Value := some (XFloat.fin 40), Index := 3, Time := 400 }
    (by decide) rfl (by decide)

/-- C6 (as stated). In scenario 4 the times that `FillTheGaps` yields are not
100, 175, 250, 400: the code interpolates 200 and 300. -/
theorem fillPlotData_scenario_counterexample :
    (fillPlotData exampleBars gapScenario).map (fun filled => filled.Data.map (fun p => p.Time))
      ≠ some [100, 175, 250, 400] := by
  decide!

/-- C6 (amended). In scenario 4 (`bar_count = 4`, emitted points `(0, 100, 10)` and
`(3, 400, 40)`) `FillTheGaps` yields four points with indices 0, 1, 2, 3, values
10, 20, 30, 40 and times 100, 200, 300, 400. -/
theorem fillPlotData_scenario :
    exampleBars.length = 4 ∧
    (fillPlotData exampleBars gapScenario).map (fun filled => filled.Data) =
      some [{ Value := some (XFloat.fin 10), Index := 0, Time := 100 },
            { Value := some (XFloat.fin 20), Index := 1, Time := 200 },
            { Value := some (XFloat.fin 30), Index := 2, Time := 300 },
            { Value := some (XFloat.fin 40), Index := 3, Time := 400 }] := by
  decide!

theorem mem_intRange (lo : Int) (n : Nat) (i : Int) (h : i ∈ intRange lo n) :
    lo ≤ i ∧ i < lo + n := by
  simp only [intRange, List.mem_map, List.mem_range] at h
  obtain ⟨t, ht, rfl⟩ := h
  omega

theorem mem_nilPoints (bars : List (Bar F)) (lo : Int) (n : Nat) (pt : PlotPoint F)
    (h : pt ∈ nilPoints bars lo n) (hlo : 0 ≤ lo) (hhi : lo + n ≤ bars.length) :
    pt.Value = none ∧ ∃ bar, barAt bars pt.Index = some bar ∧ pt.Time = GoFloat.toInt bar.Time := by
  simp only [nilPoints, List.mem_map, List.mem_range] at h
  obtain ⟨t, ht, rfl⟩ := h
  obtain ⟨bar, hbar⟩ := barAt_isSome bars (lo + t) (by omega) (by omega)
  exact ⟨rfl, bar, hbar, by simp [barTime, hbar]⟩

theorem view_eq_iff (g1 g2 : GoQuant F) :
    g1.view = g2.view ↔
      g1.loopIndex - g1.loopFuncIndex = g2.loopIndex - g2.loopFuncIndex ∧ g1.heap = g2.heap ∧
        g1.cache = g2.cache ∧ g1.taStorage = g2.taStorage ∧ g1.bars = g2.bars ∧
        g1.plotStorage = g2.plotStorage ∧ g1.lineStorage = g2.lineStorage ∧
        ([g1.openSerie, g1.high, g1.close, g1.low, g1.volume, g1.time] =
          [g2.openSerie, g2.high, g2.close, g2.low, g2.volume, g2.time] ∧
        g1.counters = g2.counters ∧ g1.panicked = g2.panicked) := by
  simp only [GoQuant.view, Prod.ext_iff]

mutual
theorem Serie.Get_respectsView : ∀ (s : Serie F), Serie.respectsView s →
    ∀ g1 g2 : GoQuant F, g1.view = g2.view →
      (Serie.Get s g1).1 = (Serie.Get s g2).1 ∧ (Serie.Get s g1).2.view = (Serie.Get s g2).2.view
  | Serie.SerieWrapper data operations diff, hs, g1, g2, hv => by
    simp only [Serie.respectsView] at hs
    obtain ⟨hi, hh, _, _⟩ := (view_eq_iff g1 g2).1 hv
    simp only [Serie.Get, GoQuant.BarIndex, GoQuant.BarFuncIndex, hh, hi]
    split
    · exact ⟨rfl, hv⟩
    · split
      · exact ⟨rfl, hv⟩
      · exact applyOperations_respectsView operations hs _ g1 g2 hv
  | Serie.CustomSerieWrapper f operations cacheKey, hs, g1, g2, hv => by
    simp only [Serie.respectsView] at hs
    obtain ⟨hi, _, hc, _⟩ := (view_eq_iff g1 g2).1 hv
    obtain ⟨f1, f2⟩ := hs.1 g1 g2 hv
    have hr : (applyOperations operations (f g1).1 (f g1).2).1 =
          (applyOperations operations (f g2).1 (f g2).2).1 ∧
        (applyOperations operations (f g1).1 (f g1).2).2.view =
          (applyOperations operations (f g2).1 (f g2).2).2.view := by
      rw [f1]
      exact applyOperations_respectsView operations hs.2 (f g2).1 (f g1).2 (f g2).2 f2
    simp only [Serie.Get, GoQuant.BarIndex, GoQuant.BarFuncIndex, hi, hc]
    generalize applyOperations operations (f g1).1 (f g1).2 = r1 at hr
    generalize applyOperations operations (f g2).1 (f g2).2 = r2 at hr
    obtain ⟨a1, a2⟩ := hr
    obtain ⟨bi, bh, bc, bt, bb, bp, bl⟩ := (view_eq_iff _ _).1 a2
    split
    · exact ⟨rfl, hv⟩
    · split
      · refine ⟨a1, ?_⟩
        rw [view_eq_iff]
        exact ⟨bi, bh, by simp only [bc, a1], bt, bb, bp, bl⟩
      · exact ⟨a1, a2⟩
theorem applyOperations_respectsView : ∀ (operations : List (Nat × Value F)),
    operationsRespectView operations → ∀ (result : F) (g1 g2 : GoQuant F), g1.view = g2.view →
      (applyOperations operations result g1).1 = (applyOperations operations result g2).1 ∧
      (applyOperations operations result g1).2.view = (applyOperations operations result g2).2.view
  | [], _, _, _, _, hv => by simp [applyOperations, hv]
  | operation :: rest, hs, result, g1, g2, hv => by
    simp only [operationsRespectView] at hs
    simp only [applyOperations]
    obtain ⟨e1, e2⟩ := applyOperation_respectsView operation.2 hs.1 operation.1 result g1 g2 hv
    rw [e1]
    exact applyOperations_respectsView rest hs.2 _ _ _ e2
theorem applyOperation_respectsView : ∀ (value : Value F), Value.respectsView value →
    ∀ (opType : Nat) (result : F) (g1 g2 : GoQuant F), g1.view = g2.view →
      (applyOperation opType value result g1).1 = (applyOperation opType value result g2).1 ∧
      (applyOperation opType value result g1).2.view = (applyOperation opType value result g2).2.view
  | Value.float _, _, _, _, _, _, hv => by simp [applyOperation, hv]
  | Value.serie s, hs, opType, result, g1, g2, hv => by
    simp only [Value.respectsView] at hs
    obtain ⟨e1, e2⟩ := Serie.Get_respectsView s hs g1 g2 hv
    simp only [applyOperation]
    split
    · exact ⟨by rw [e1], e2⟩
    · exact ⟨rfl, hv⟩
  | Value.func _, _, _, _, _, _, hv => by
    simp only [applyOperation]
    split <;> exact ⟨rfl, hv⟩
  | Value.other, _, _, _, _, _, hv => by simp [applyOperation, hv]
end

theorem applyOperations_append (ops1 ops2 : List (Nat × Value F)) (result : F) (g : GoQuant F) :
    applyOperations (ops1 ++ ops2) result g =
      applyOperations ops2 (applyOperations ops1 result g).1 (applyOperations ops1 result g).2 := by
  induction ops1 generalizing result g with
  | nil => simp [applyOperations]
  | cons operation ops1 ih =>
    rw [List.cons_append]
    simp only [applyOperations]
    exact ih _ _

theorem applyOperations_foldl (operations : List (Nat × Value F)) (result : F) (g : GoQuant F) :
    applyOperations operations result g =
      operations.foldl (fun acc operation => applyOperation operation.1 operation.2 acc.1 acc.2)
        (result, g) := by
  induction operations generalizing result g with
  | nil => simp [applyOperations]
  | cons operation operations ih => simp only [applyOperations, List.foldl_cons, ih]

theorem B_Get (s : Serie F) (steps : Int) (g : GoQuant F) :
    (s.B steps).Get g =
      ((s.Get (g.IncreaseFuncIndex steps)).1,
       (s.Get (g.IncreaseFuncIndex steps)).2.DecreaseFuncIndex steps) := by
  simp [Serie.B, NewWrapper, Serie.Get, applyOperations]

theorem Decrease_Increase (g : GoQuant F) (steps : Int) :
    (g.IncreaseFuncIndex steps).DecreaseFuncIndex steps = g := by
  cases g
  simp [GoQuant.IncreaseFuncIndex, GoQuant.DecreaseFuncIndex]

theorem Serie.B_respectsView (s : Serie F) (hs : Serie.respectsView s) (steps : Int) :
    Serie.respectsView (s.B steps) := by
  simp only [Serie.B, NewWrapper, Serie.respectsView, operationsRespectView, and_true]
  intro g1 g2 hv
  have hv' : (g1.IncreaseFuncIndex steps).view = (g2.IncreaseFuncIndex steps).view := by
    rw [view_eq_iff] at hv ⊢
    obtain ⟨hi, hrest⟩ := hv
    refine ⟨?_, hrest⟩
    simp only [GoQuant.IncreaseFuncIndex]
    omega
  obtain ⟨e1, e2⟩ := Serie.Get_respectsView s hs _ _ hv'
  refine ⟨e1, ?_⟩
  rw [view_eq_iff] at e2 ⊢
  obtain ⟨hi, hrest⟩ := e2
  refine ⟨?_, hrest⟩
  simp only [GoQuant.DecreaseFuncIndex]
  omega

/-- C9. `SerieWrapper.Get` reads the slot at the effective index
`e = bar_index - func_offset - diff` of its buffer: it returns NaN (and leaves the engine
state alone) when `e < 0` or `e ≥ len(data)`, and otherwise the result of applying the
operations of the pipeline, in order, to `data[e]`. -/
theorem SerieWrapper_Get (data : Nat) (operations : List (Nat × Value F)) (diff : Int)
    (g : GoQuant F) :
    (g.loopIndex - g.loopFuncIndex - diff < 0 ∨
        g.loopIndex - g.loopFuncIndex - diff ≥ (g.heap.getD data []).length →
      (Serie.SerieWrapper data operations diff).Get g = (GoFloat.nan, g)) ∧
    (0 ≤ g.loopIndex - g.loopFuncIndex - diff →
        g.loopIndex - g.loopFuncIndex - diff < (g.heap.getD data []).length →
      ∃ slot, (g.heap.getD data []).get? (g.loopIndex - g.loopFuncIndex - diff).toNat = some slot ∧
        (Serie.SerieWrapper data operations diff).Get g =
          operations.foldl
            (fun acc operation => applyOperation operation.1 operation.2 acc.1 acc.2) (slot, g)) := by
  constructor
  · intro h
    simp only [Serie.Get, GoQuant.BarIndex, GoQuant.BarFuncIndex]
    rw [if_pos h]
  · intro h0 h1
    have hlt : (g.loopIndex - g.loopFuncIndex - diff).toNat < (g.heap.getD data []).length := by
      omega
    refine ⟨(g.heap.getD data []).get ⟨_, hlt⟩, List.get?_eq_get hlt, ?_⟩
    simp only [Serie.Get, GoQuant.BarIndex, GoQuant.BarFuncIndex]
    rw [if_neg (by omega), List.get?_eq_get hlt]
    exact applyOperations_foldl operations _ g

/-- C2 (the code at the failing input). The store holds one segment before
`RemoveDuplicatesFromStraightLines` and none after it. -/
theorem RemoveDuplicates_drops_segment :
    segmentEngine.lineStorage.map (fun l => l.Typ) = [Segment] ∧
    (RemoveDuplicatesFromStraightLines segmentEngine).map (fun g => g.lineStorage) = some [] := by
  decide!

/-- C4 (the code at the failing input). Two `hline(30)` emissions whose configs differ print
the same key, and only the first survives. -/
theorem RemoveDuplicates_key_collision :
    configA ≠ configB ∧
    formatLineConfig configA = formatLineConfig configB ∧
    collidingEngine.lineStorage.map (fun l => (l.Typ, l.Config)) =
      [(HorizontalStraightLine, configA), (HorizontalStraightLine, configB)] ∧
    (RemoveDuplicatesFromStraightLines collidingEngine).map
      (fun g => g.lineStorage.map (fun l => (l.Typ, l.Config))) =
      some [(HorizontalStraightLine, configA)] := by
  decide!

/-- Scenario 5 evaluated: of two `hline(30)` with identical config one survives, and the
`hline(30)` of another color survives as well. -/
theorem RemoveDuplicates_scenario5 :
    duplicateEngine.lineStorage.map (fun l => l.Config.Color) = ["red", "red", "blue"] ∧
    (RemoveDuplicatesFromStraightLines duplicateEngine).map
      (fun g => g.lineStorage.map (fun l => l.Config.Color)) = some ["red", "blue"] := by
  decide!

/-- C3 at the store of scenario 5. -/
theorem RemoveDuplicates_no_duplicates_witness :
    ∃ g', RemoveDuplicatesFromStraightLines duplicateEngine = some g' ∧
      List.Pairwise (fun a b => ∀ p q, a.Points.head? = some p → b.Points.head? = some q →
        (a.Typ = HorizontalStraightLine → b.Typ = HorizontalStraightLine →
          ¬ (a.Config = b.Config ∧ p.Y = q.Y)) ∧
        (a.Typ = VerticalStraightLine → b.Typ = VerticalStraightLine →
          ¬ (a.Config = b.Config ∧ p.X = q.X))) g'.lineStorage :=
  RemoveDuplicates_no_duplicates duplicateEngine (by unfold LinesHavePoint; decide!)

theorem NewWrapper_Get (f : GoQuant F → F × GoQuant F) (g : GoQuant F) :
    (NewWrapper f).Get g = f g := by
  simp [NewWrapper, Serie.Get, applyOperations]

theorem G_one (s : Serie F) (g : GoQuant F) : s.G 1 g = (s.B 1).Get g := by
  simp [Serie.G]

/-- C20. For every pair of series and every bar at which their four reads (`src1.Get()`,
`src2.Get()`, `src1.G(1)`, `src2.G(1)`) have the values `a1`, `a2`, `b1`, `b2` whatever the
order of the reads: `cross` is 1.0 when `(a1 > a2 and b1 <= b2)` or `(a1 < a2 and b1 >= b2)`
and 0.0 otherwise, `crossOver` and `crossUnder` are 1.0 exactly on the first and on the
second case, so that `cross` is 1.0 iff one of them is, and `crossOver` is 0.0 when the
previous value `b1` is NaN. -/
theorem cross_Get (src1 src2 : Serie F) (g : GoQuant F) (reached : GoQuant F → Prop)
    (a1 a2 b1 b2 : F) (hg : reached g)
    (h1 : ∀ g, reached g → (src1.Get g).1 = a1 ∧ reached (src1.Get g).2)
    (h2 : ∀ g, reached g → (src2.Get g).1 = a2 ∧ reached (src2.Get g).2)
    (h3 : ∀ g, reached g → ((src1.B 1).Get g).1 = b1 ∧ reached ((src1.B 1).Get g).2)
    (h4 : ∀ g, reached g → ((src2.B 1).Get g).1 = b2 ∧ reached ((src2.B 1).Get g).2) :
    ((cross src1 src2).Get g).1 =
      (if (GoFloat.lt a2 a1 && GoFloat.le b1 b2) || (GoFloat.lt a1 a2 && GoFloat.le b2 b1)
        then TrueValue else FalseValue) ∧
    ((crossOver src1 src2).Get g).1 =
      (if GoFloat.lt a2 a1 && GoFloat.le b1 b2 then TrueValue else FalseValue) ∧
    ((crossUnder src1 src2).Get g).1 =
      (if GoFloat.lt a1 a2 && GoFloat.le b2 b1 then TrueValue else FalseValue) ∧
    (((cross src1 src2).Get g).1 = TrueValue ↔
      ((crossOver src1 src2).Get g).1 = TrueValue ∨
        ((crossUnder src1 src2).Get g).1 = TrueValue) ∧
    (b1 = GoFloat.nan → ((crossOver src1 src2).Get g).1 = FalseValue) := by
  have hne : (TrueValue : F) ≠ FalseValue := GoFloat.one_ne_zero
  obtain ⟨v1, i1⟩ := h1 g hg
  obtain ⟨v2, i2⟩ := h2 _ i1
  obtain ⟨v3, i3⟩ := h3 _ i2
  obtain ⟨v4, _⟩ := h4 _ i3
  have hcross : ((cross src1 src2).Get g).1 =
      (if (GoFloat.lt a2 a1 && GoFloat.le b1 b2) || (GoFloat.lt a1 a2 && GoFloat.le b2 b1)
        then TrueValue else FalseValue) := by
    simp only [cross, NewWrapper_Get, G_one, v1, v2, v3, v4]
    cases GoFloat.lt a2 a1 <;> cases GoFloat.le b1 b2 <;> cases GoFloat.lt a1 a2 <;>
      cases GoFloat.le b2 b1 <;> simp
  have hover : ((crossOver src1 src2).Get g).1 =
      (if GoFloat.lt a2 a1 && GoFloat.le b1 b2 then TrueValue else FalseValue) := by
    simp only [crossOver, NewWrapper_Get, v1, v2]
    cases hlt : GoFloat.lt a2 a1
    · simp
    · simp only [if_true, v3, v4, Bool.true_and]
      cases GoFloat.le b1 b2 <;> simp
  have hunder : ((crossUnder src1 src2).Get g).1 =
      (if GoFloat.lt a1 a2 && GoFloat.le b2 b1 then TrueValue else FalseValue) := by
    simp only [crossUnder, NewWrapper_Get, v1, v2]
    cases hlt : GoFloat.lt a1 a2
    · simp
    · simp only [if_true, v3, v4, Bool.true_and]
      cases GoFloat.le b2 b1 <;> simp
  refine ⟨hcross, hover, hunder, ?_, ?_⟩
  · rw [hcross, hover, hunder]
    cases GoFloat.lt a2 a1 <;> cases GoFloat.le b1 b2 <;> cases GoFloat.lt a1 a2 <;>
      cases GoFloat.le b2 b1 <;> simp [hne, hne.symm]
  · intro hb
    rw [hover, hb, GoFloat.nan_le]
    simp

/-- C20 at two buffer series, whose reads leave the engine state alone: the closes 1, 2, 3
against the same series times 0, at bar 2 of `bufferEngine`. -/
theorem cross_Get_witness :
    ((cross (Serie.SerieWrapper 0 [] 0) ((Serie.SerieWrapper 0 [] 0).Mul
        (Value.float (XFloat.fin 0)))).Get bufferEngine).1 =
      (if (GoFloat.lt (XFloat.fin 0) (XFloat.fin 3) && GoFloat.le (XFloat.fin 2) (XFloat.fin 0))
          || (GoFloat.lt (XFloat.fin 3) (XFloat.fin 0) &&
            GoFloat.le (XFloat.fin 0) (XFloat.fin 2))
        then TrueValue else FalseValue) ∧
    ((crossOver (Serie.SerieWrapper 0 [] 0) ((Serie.SerieWrapper 0 [] 0).Mul
        (Value.float (XFloat.fin 0)))).Get bufferEngine).1 =
      (if GoFloat.lt (XFloat.fin 0) (XFloat.fin 3) && GoFloat.le (XFloat.fin 2) (XFloat.fin 0)
        then TrueValue else FalseValue) ∧
    ((crossUnder (Serie.SerieWrapper 0 [] 0) ((Serie.SerieWrapper 0 [] 0).Mul
        (Value.float (XFloat.fin 0)))).Get bufferEngine).1 =
      (if GoFloat.lt (XFloat.fin 3) (XFloat.fin 0) && GoFloat.le (XFloat.fin 0) (XFloat.fin 2)
        then TrueValue else FalseValue) ∧
    (((cross (Serie.SerieWrapper 0 [] 0) ((Serie.SerieWrapper 0 [] 0).Mul
        (Value.float (XFloat.fin 0)))).Get bufferEngine).1 = TrueValue ↔
      ((crossOver (Serie.SerieWrapper 0 [] 0) ((Serie.SerieWrapper 0 [] 0).Mul
        (Value.float (XFloat.fin 0)))).Get bufferEngine).1 = TrueValue ∨
      ((crossUnder (Serie.SerieWrapper 0 [] 0) ((Serie.SerieWrapper 0 [] 0).Mul
        (Value.float (XFloat.fin 0)))).Get bufferEngine).1 = TrueValue) ∧
    (XFloat.fin 2 = GoFloat.nan →
      ((crossOver (Serie.SerieWrapper 0 [] 0) ((Serie.SerieWrapper 0 [] 0).Mul
        (Value.float (XFloat.fin 0)))).Get bufferEngine).1 = FalseValue) :=
  cross_Get (Serie.SerieWrapper 0 [] 0)
    ((Serie.SerieWrapper 0 [] 0).Mul (Value.float (XFloat.fin 0))) bufferEngine
    (fun g => g = bufferEngine) (XFloat.fin 3) (XFloat.fin 0) (XFloat.fin 2) (XFloat.fin 0) rfl
    (fun g hg => by subst hg; exact ⟨by decide!, rfl⟩)
    (fun g hg => by subst hg; exact ⟨by decide!, rfl⟩)
    (fun g hg => by subst hg; exact ⟨by decide!, rfl⟩)
    (fun g hg => by subst hg; exact ⟨by decide!, rfl⟩)

/-- Scenario 3: with `src1 = [1, 2, 3, 4]` and `src2 = [3, 3, 3, 3]`, `crossOver` read at
every bar is 0, 0, 0, 1 (one crossover, at bar 3), and so is `cross`. -/
theorem crossOver_scenario :
    (engineOfCloses [1, 2, 3, 4]).map (fun g =>
      (readEachBar (fun g => crossOver (recorded g.close) (recorded g.low)) 4 g).1) =
      some [XFloat.fin 0, XFloat.fin 0, XFloat.fin 0, XFloat.fin 1] ∧
    (engineOfCloses [1, 2, 3, 4]).map (fun g =>
      (readEachBar (fun g => cross (recorded g.close) (recorded g.low)) 4 g).1) =
      some [XFloat.fin 0, XFloat.fin 0, XFloat.fin 0, XFloat.fin 1] := by
  decide!

/-- C11 (the code at the failing input). `p` has three operations in an array of capacity
four.  After `a := p.Add(10)`, `a.Get()` is `p.Get() + 10`; after `b := p.Sub(5)`, which
writes the same slot of the shared array, `a.Get()` is `p.Get() - 5`. -/
theorem addOperation_shares_array :
    (threeOps.1.operations.len, threeOps.1.operations.cap) = (3, 4) ∧
    siblingA.1.operations.array = threeOps.1.operations.array ∧
    siblingB.1.operations.array = threeOps.1.operations.array ∧
    ((threeOps.1.now threeOps.2).Get bufferEngine).1 = XFloat.fin 9 ∧
    ((siblingA.1.now siblingA.2).Get bufferEngine).1 = XFloat.fin 19 ∧
    ((siblingA.1.now siblingB.2).Get bufferEngine).1 = XFloat.fin 4 ∧
    ((siblingB.1.now siblingB.2).Get bufferEngine).1 = XFloat.fin 4 := by
  decide!

theorem mapGet_mapSet {K V : Type} [DecidableEq K] (m : List (K × V)) (k k' : K) (v : V) :
    mapGet (mapSet m k v) k' = if k = k' then some v else mapGet m k' := by
  induction m with
  | nil => simp [mapSet, mapGet]
  | cons e m ih =>
    simp only [mapSet]
    by_cases h : e.1 = k
    · rw [if_pos h]
      simp only [mapGet]
      by_cases h' : k = k'
      · simp [h']
      · have : ¬ e.1 = k' := fun h2 => h' (h ▸ h2)
        simp [h', this]
    · rw [if_neg h]
      simp only [mapGet, ih]
      by_cases h' : e.1 = k'
      · have : ¬ k = k' := fun h2 => h (h2 ▸ h')
        simp [h', this]
      · simp [h']

theorem cacheGet_cacheSet (cache : List (String × List (Int × F))) (key key' : String)
    (index index' : Int) (v : F) :
    cacheGet (cacheSet cache key index v) key' index' =
      if key = key' ∧ index = index' then some v else cacheGet cache key' index' := by
  unfold cacheSet
  cases hk : mapGet cache key with
  | none =>
    simp only [cacheGet, mapGet_mapSet]
    by_cases h : key = key'
    · subst h
      simp only [if_true, hk, true_and]
      by_cases hi : index = index'
      · simp [mapGet, hi]
      · simp [mapGet, hi]
    · simp [h]
  | some inner =>
    simp only [cacheGet, mapGet_mapSet]
    by_cases h : key = key'
    · subst h
      simp only [if_true, hk, true_and, mapGet_mapSet]
    · simp [h]

/-- The counting thunk read twice at bar 0 and once at bar 1: the reads are 1, 1, 2 and the
thunk has run twice. -/
theorem cached_Get_counter :
    (countingSerie.Get countingEngine).1 = XFloat.fin 1 ∧
    (countingSerie.Get (countingSerie.Get countingEngine).2).1 = XFloat.fin 1 ∧
    (countingSerie.Get
      { (countingSerie.Get (countingSerie.Get countingEngine).2).2 with loopIndex := 1 }).1 =
      XFloat.fin 2 ∧
    (countingSerie.Get
      { (countingSerie.Get (countingSerie.Get countingEngine).2).2 with loopIndex := 1 }).2.heap =
      [[XFloat.fin 2]] := by
  decide!

/-- C19 (as stated). With the entry 1 that `firstCached` left under the label `x`,
`VWMA(secondCached, 1).Get()` at bar 0 is 2, the thunk of `secondCached` being evaluated
afresh by the product series, while `src.G(0) * volume.G(0)` divided by `volume.G(0)` is 1
(with `n = 1` each SMA is its one term). -/
theorem vwma_Get_counterexample :
    cachedBarsEngine.map (fun g => ((vwma secondCached (XFloat.fin 1)).Get g).1) =
      some (XFloat.fin 2) ∧
    cachedBarsEngine.map (fun g =>
      ((XFloat.fin 0 + (secondCached.G 0 g).1 * ((recorded g.volume : Serie XFloat).G 0 g).1) /
          XFloat.fin 1) /
        ((XFloat.fin 0 + ((recorded g.volume : Serie XFloat).G 0 g).1) / XFloat.fin 1)) = some (XFloat.fin 1) := by
  decide!

theorem smaLoop_eq (src : Serie F) (n : Nat) (i : Int) (sum : F) (g : GoQuant F) :
    smaLoop src n i sum g =
      (List.range n).foldl
        (fun acc (k : Nat) => (acc.1 + (src.G (i + (k : Int)) acc.2).1, (src.G (i + (k : Int)) acc.2).2))
        (sum, g) := by
  induction n generalizing i sum g with
  | zero => simp [smaLoop]
  | succ n ih =>
    simp only [smaLoop, ih, List.range_succ_eq_map, List.foldl_cons, List.foldl_map,
      Nat.cast_zero, add_zero]
    congr 1
    funext acc k
    have : i + 1 + (k : Int) = i + ((k + 1 : Nat) : Int) := by push_cast; ring
    rw [this]

theorem SerieWrapper_G (data : Nat) (diff k : Int) (g : GoQuant F) :
    (Serie.SerieWrapper data [] diff : Serie F).G k g =
      (bufferAt (g.heap.getD data []) (g.loopIndex - (g.loopFuncIndex + k) - diff), g) := by
  have hget : ∀ g' : GoQuant F, (Serie.SerieWrapper data [] diff : Serie F).Get g' =
      (bufferAt (g'.heap.getD data []) (g'.loopIndex - g'.loopFuncIndex - diff), g') := by
    intro g'
    simp only [Serie.Get, bufferAt, GoQuant.BarIndex, GoQuant.BarFuncIndex]
    split
    · rfl
    · rename_i hin
      have hlt : (g'.loopIndex - g'.loopFuncIndex - diff).toNat < (g'.heap.getD data []).length := by
        omega
      rw [List.get?_eq_get hlt]
      simp only [applyOperations]
      rw [List.getD_eq_getElem _ _ hlt]
      rfl
  unfold Serie.G
  split
  · rename_i hk
    rw [hget, hk, add_zero]
  · rw [B_Get, hget, Decrease_Increase]
    rfl

theorem smaLoop_buffer (data : Nat) (n : Nat) (i : Int) (sum : F) (g : GoQuant F) :
    smaLoop (Serie.SerieWrapper data [] 0) n i sum g =
      (sumFrom sum ((List.range n).map (fun (k : Nat) =>
        bufferAt (g.heap.getD data []) (g.loopIndex - (g.loopFuncIndex + (i + (k : Int))) - 0))), g) := by
  induction n generalizing i sum with
  | zero => simp [smaLoop, sumFrom]
  | succ n ih =>
    simp only [smaLoop, SerieWrapper_G, ih, sumFrom, List.range_succ_eq_map, List.map_cons,
      List.foldl_cons, List.map_map, Nat.cast_zero, add_zero]
    congr 2
    apply List.map_congr_left
    intro k _
    simp only [Function.comp]
    have : i + 1 + (k : Int) = i + ((k + 1 : Nat) : Int) := by push_cast; ring
    rw [this]

theorem sumFrom_nan (values : List F) : sumFrom GoFloat.nan values = GoFloat.nan := by
  induction values with
  | nil => rfl
  | cons x values ih =>
    simp only [sumFrom, List.foldl_cons, GoFloat.nan_add] at ih ⊢
    exact ih

theorem sumFrom_mem_nan (sum : F) (values : List F) (h : GoFloat.nan ∈ values) :
    sumFrom sum values = GoFloat.nan := by
  induction values generalizing sum with
  | nil => simp at h
  | cons x values ih =>
    simp only [sumFrom, List.foldl_cons]
    rcases List.mem_cons.1 h with h1 | h1
    · rw [← h1, GoFloat.add_nan]
      exact sumFrom_nan values
    · exact ih _ h1

/-- C15. For every source series and length, `SMA(src, n).Get()` is the sum
`0 + src.G(0) + ... + src.G(n-1)`, read in this order, divided by the length; for a
materialized source without operations (over `buffer`, with `diff = 0`) and an integer
length `n ≥ 1` it is NaN at every bar `i < n - 1` and the sum of `buffer[i], ...,
buffer[i-n+1]` divided by `n` at every bar `i ≥ n - 1` of the buffer. -/
theorem sma_Get (src : Serie F) (length : F) (g : GoQuant F) :
    (sma src length).Get g =
      (((List.range (GoFloat.toInt length).toNat).foldl
          (fun acc (k : Nat) => (acc.1 + (src.G (k : Int) acc.2).1, (src.G (k : Int) acc.2).2))
          (GoFloat.ofInt 0, g)).1 / length,
       ((List.range (GoFloat.toInt length).toNat).foldl
          (fun acc (k : Nat) => (acc.1 + (src.G (k : Int) acc.2).1, (src.G (k : Int) acc.2).2))
          (GoFloat.ofInt 0, g)).2) ∧
    ∀ (data : Nat) (buffer : List F) (n : Nat), src = Serie.SerieWrapper data [] 0 →
      g.heap.getD data [] = buffer → g.loopFuncIndex = 0 → GoFloat.toInt length = n → 1 ≤ n →
      (g.loopIndex < (n : Int) - 1 → ((sma src length).Get g).1 = GoFloat.nan) ∧
      ((n : Int) - 1 ≤ g.loopIndex → g.loopIndex < buffer.length →
        ((sma src length).Get g).1 =
          sumFrom (GoFloat.ofInt 0)
            ((List.range n).map (fun (k : Nat) =>
              buffer.getD (g.loopIndex - (k : Int)).toNat GoFloat.nan)) / length) := by
  constructor
  · simp only [sma, NewWrapper_Get, smaLoop_eq, zero_add]
  · intro data buffer n hsrc hbuf hoff hlen hn
    subst hsrc
    simp only [sma, NewWrapper_Get, smaLoop_buffer, hbuf, hoff, hlen, Int.toNat_ofNat, zero_add,
      sub_zero]
    constructor
    · intro hlt
      rw [sumFrom_mem_nan, GoFloat.nan_div]
      rw [List.mem_map]
      refine ⟨(g.loopIndex + 1).toNat, List.mem_range.2 (by omega), ?_⟩
      unfold bufferAt
      rw [if_pos (Or.inl (by omega))]
    · intro hge hlt
      congr 2
      apply List.map_congr_left
      intro k hk
      rw [List.mem_range] at hk
      unfold bufferAt
      rw [if_neg (by omega)]

/-- Scenario 1: with `close = [1, 2, 3, 4, 5]`, `SMA(close, 3)` read at every bar is
NaN, NaN, 2, 3, 4. -/
theorem sma_scenario :
    (engineOfCloses [1, 2, 3, 4, 5]).map (fun g =>
      (readEachBar (fun g => sma (recorded g.close) (XFloat.fin 3)) 5 g).1) =
      some [XFloat.nan, XFloat.nan, XFloat.fin 2, XFloat.fin 3, XFloat.fin 4] := by
  decide!

theorem ema_eq (src : Serie F) (length : F) (lbl : String) :
    ema src length lbl =
      recursiveAverage src src (GoFloat.ofInt 2 / (length + GoFloat.ofInt 1)) lbl := rfl

theorem rma_eq (src : Serie F) (length : F) (lbl : String) :
    rma src length lbl =
      recursiveAverage (sma src length) src (GoFloat.ofInt 1 / length) lbl := rfl

theorem BUILT_IN_ne (lbl : String) : BUILT_IN ++ lbl ≠ "" := by
  intro h
  have := congrArg String.length h
  simp only [BUILT_IN, String.length_append] at this
  have h1 : ("_" : String).length = 1 := by decide
  rw [h1] at this
  simp at this

theorem getD_set_heap (heap : List (List F)) (h data : Nat) (x : List F) (hne : h ≠ data) :
    (heap.set h x).getD data [] = heap.getD data [] := by
  simp [List.getD_eq_getElem?_getD, List.getElem?_set_ne hne]

theorem getD_set_self (heap : List (List F)) (h : Nat) (x : List F) (hlt : h < heap.length) :
    (heap.set h x).getD h [] = x := by
  simp [List.getD_eq_getElem?_getD, List.getElem?_set_self, hlt]

theorem NA_nan : NA (GoFloat.nan : F) = true := by
  simp [NA, GoFloat.isNaN_nan]

theorem NZ_of_not_NA (v : F) (h : NA v = false) : NZ v [] = v := by
  simp [NZ, h]

theorem SetAssign_now (h : Nat) (v : F) (g : GoQuant F) (k : Nat) (h1 : g.loopIndex = k)
    (h2 : g.loopFuncIndex = 0) (hk : k < (g.heap.getD h []).length) :
    (Serie.SerieWrapper h [] 0 : Serie F).SetAssign 0 v g =
      { g with heap := g.heap.set h ((g.heap.getD h []).set k v) } := by
  simp only [Serie.SetAssign, GoQuant.BarIndex, GoQuant.BarFuncIndex, h1, h2, sub_zero]
  rw [if_neg (by omega), Int.toNat_ofNat, if_pos hk]

theorem get?_map_range {α : Type} (f : Nat → α) (n i : Nat) (h : i < n) :
    ((List.range n).map f).get? i = some (f i) := by
  simp [List.get?_eq_getElem?, h]

/-- Scenario 2: with `close = [10, 11, 12]`, `EMA(close, 2)` read at every bar is 10,
32/3 and 104/9 (10.666... and 11.555...). -/
theorem ema_scenario :
    (engineOfCloses [10, 11, 12]).map (fun g =>
      (readEachBar (fun g => ema (recorded g.close) (XFloat.fin 2) "L") 3 g).1) =
      some [XFloat.fin 10, XFloat.fin (32 / 3), XFloat.fin (104 / 9)] := by
  decide!

/-- `RMA(close, 3)` over the closes 1, 2, 3, 4, 5, read at every bar: NaN, NaN, the mean 2,
then `(1/3)*4 + (2/3)*2 = 8/3` and `(1/3)*5 + (2/3)*(8/3) = 31/9`. -/
theorem rma_scenario :
    (engineOfCloses [1, 2, 3, 4, 5]).map (fun g =>
      (readEachBar (fun g => rma (recorded g.close) (XFloat.fin 3) "L") 5 g).1) =
      some [XFloat.nan, XFloat.nan, XFloat.fin 2, XFloat.fin (8 / 3), XFloat.fin (31 / 9)] := by
  decide!

/-- C14 (the code at the failing input). At bar 2 of the closes 1, 2, 3 the thunk of
`divergence(1, close, 0, 1, 60, 5, "L")` first reads its pivot series, which stores the
RSI value 100 in the cache under `("_L", 2)`; when `divergence(...).Get()` returns, the
entry under `("_L", 2)` is the result 0 of the divergence, and a later read of the RSI
series at that bar returns 0. -/
theorem divergence_overwrites_cache :
    divergenceEngine.map (fun g => cacheGet g.cache "_L" 2) = some none ∧
    divergenceEngine.map (fun g =>
      cacheGet ((pivotLow g 1 0 [rsi (recorded g.close) (XFloat.fin 1) "L"]).Get g).2.cache
        "_L" 2) = some (some (XFloat.fin 100)) ∧
    divergenceEngine.map (fun g => cacheGet ((divergenceStrategy g).Get g).2.cache "_L" 2) =
      some (some (XFloat.fin 0)) ∧
    divergenceEngine.map (fun g =>
      ((rsi (recorded g.close) (XFloat.fin 1) "L").Get ((divergenceStrategy g).Get g).2).1) =
      some (XFloat.fin 0) := by
  decide!

/-- The nesting of `atr` is harmless on the same closes: the value that `rma` stores under
`("_L", i)` is the value that `atr` stores over it. -/
theorem atr_cache_scenario :
    (engineOfCloses [1, 2, 3]).map (fun g =>
      (cacheGet ((rma (atrTrueRange g).1 (XFloat.fin 1) "L").Get (atrTrueRange g).2).2.cache
        "_L" 0,
       cacheGet ((atr (XFloat.fin 1) "L").Get g).2.cache "_L" 0)) =
      some (some (XFloat.fin (-2)), some (XFloat.fin (-2))) := by
  decide!

/-- C18 (the code at the failing input). With a previous close of -5, a high of 10 and a
low of 9, the true range that `atr` builds reads 14 at bar 1, the largest of `high - low`
= 1, `high - |close.G(1)|` = 5 and `|low - close.G(1)|` = 14, while
`max(high - low, |high - close.G(1)|, |low - close.G(1)|)` is 15; `high.G(1)` is -4, not
NaN. -/
theorem atrTrueRange_gap :
    gapEngine.map (fun g => ((atrTrueRange g).1.Get (atrTrueRange g).2).1) =
      some (XFloat.fin 14) ∧
    gapEngine.map (fun g => ((recorded g.high : Serie XFloat).G 1 g).1) =
      some (XFloat.fin (-4)) ∧
    gapEngine.map (fun g =>
      GoFloat.max
        (GoFloat.max
          (((recorded g.high : Serie XFloat).Get g).1 - ((recorded g.low : Serie XFloat).Get g).1)
          (GoFloat.abs (((recorded g.high : Serie XFloat).Get g).1 -
            ((recorded g.close : Serie XFloat).G 1 g).1)))
        (GoFloat.abs (((recorded g.low : Serie XFloat).Get g).1 -
          ((recorded g.close : Serie XFloat).G 1 g).1))) = some (XFloat.fin 15) ∧
    gapEngine.map (fun g => (readEachBar (fun _ => atr (XFloat.fin 1) "L") 1 g).1) =
      some [XFloat.fin 14] := by
  decide!

/-- C15 at the buffer 1, 2, 3 read at bar 2 with `n = 3`: the window is inside the buffer
and the read is its sum divided by 3. -/
theorem sma_Get_witness :
    ¬ (bufferEngine.loopIndex < ((3 : Nat) : Int) - 1) ∧
    ((sma (Serie.SerieWrapper 0 [] 0) (XFloat.fin 3)).Get bufferEngine).1 =
      sumFrom (GoFloat.ofInt 0)
        ((List.range 3).map (fun (k : Nat) =>
          [XFloat.fin 1, XFloat.fin 2, XFloat.fin 3].getD
            (bufferEngine.loopIndex - (k : Int)).toNat GoFloat.nan)) / XFloat.fin 3 :=
  ⟨by decide,
    ((sma_Get (Serie.SerieWrapper 0 [] 0) (XFloat.fin 3) bufferEngine).2 0
      [XFloat.fin 1, XFloat.fin 2, XFloat.fin 3] 3 rfl rfl rfl (by decide!) (by decide)).2
      (by decide) (by decide)⟩

theorem barsSinceLoop_spec (f : GoQuant F → Bool × GoQuant F) (reached : GoQuant F → Prop)
    (c : Int → Bool)
    (hf : ∀ (g' : GoQuant F) (i : Int), reached g' →
      (f (g'.IncreaseFuncIndex i)).1 = c i ∧
      reached ((f (g'.IncreaseFuncIndex i)).2.DecreaseFuncIndex i)) :
    ∀ (n : Nat) (i : Int) (g : GoQuant F), reached g →
      ((∀ j : Nat, j < n → c (i + (j : Int)) = false) →
        (barsSinceLoop f n i g).1 = GoFloat.nan) ∧
      (∀ j : Nat, j < n → c (i + (j : Int)) = true →
        (∀ j' : Nat, j' < j → c (i + (j' : Int)) = false) →
        (barsSinceLoop f n i g).1 = GoFloat.ofInt (i + (j : Int))) := by
  intro n
  induction n with
  | zero =>
    intro i g _
    exact ⟨fun _ => rfl, fun j hj => absurd hj (Nat.not_lt_zero j)⟩
  | succ n ih =>
    intro i g hg
    obtain ⟨hv, hr⟩ := hf g i hg
    obtain ⟨ih1, ih2⟩ := ih (i + 1) _ hr
    simp only [barsSinceLoop, hv]
    constructor
    · intro hall
      have h0 : c i = false := by simpa using hall 0 (Nat.succ_pos n)
      rw [h0]
      simp only [Bool.false_eq_true, if_false]
      apply ih1
      intro j hj
      have := hall (j + 1) (by omega)
      rw [show i + 1 + (j : Int) = i + ((j + 1 : Nat) : Int) by push_cast; ring]
      exact this
    · intro j hj hc hbefore
      cases j with
      | zero =>
        have h0 : c i = true := by simpa using hc
        rw [h0]
        simp
      | succ j =>
        have h0 : c i = false := by simpa using hbefore 0 (Nat.succ_pos j)
        rw [h0]
        simp only [Bool.false_eq_true, if_false]
        rw [show i + ((j + 1 : Nat) : Int) = i + 1 + (j : Int) by push_cast; ring] at hc ⊢
        apply ih2 j (by omega) hc
        intro j' hj'
        have := hbefore (j' + 1) (by omega)
        rw [show i + 1 + (j' : Int) = i + ((j' + 1 : Nat) : Int) by push_cast; ring]
        exact this

/-- C21. For every condition whose result with `func_offset` raised by `i` is `c i` at
every state the scan reaches (a condition may write to the engine state as long as its
results stay these): `barssince(cond).Get()` is the smallest offset `i` in `[0,
bar_count)` with `c i`, as a float, and NaN when no offset of the range has `c i`. -/
theorem barsSince_Get (f : GoQuant F → Bool × GoQuant F) (g : GoQuant F)
    (reached : GoQuant F → Prop) (c : Int → Bool) (hg : reached g)
    (hf : ∀ (g' : GoQuant F) (i : Int), reached g' →
      (f (g'.IncreaseFuncIndex i)).1 = c i ∧
      reached ((f (g'.IncreaseFuncIndex i)).2.DecreaseFuncIndex i)) :
    (∀ i : Nat, i < g.bars.length → c i = true → (∀ j : Nat, j < i → c j = false) →
      ((barsSince f).Get g).1 = GoFloat.ofInt i) ∧
    ((∀ i : Nat, i < g.bars.length → c i = false) →
      ((barsSince f).Get g).1 = GoFloat.nan) := by
  obtain ⟨h1, h2⟩ := barsSinceLoop_spec f reached c hf g.bars.length 0 g hg
  simp only [barsSince, NewWrapper_Get]
  constructor
  · intro i hi hc hbefore
    have := h2 i hi (by simpa using hc) (fun j' hj' => by simpa using hbefore j' hj')
    simpa using this
  · intro hall
    exact h1 (fun j hj => by simpa using hall j hj)

/-- C21 at the last of three bars with the condition "the effective index is 0": it
holds at the offset 2 only, and the read is 2. -/
theorem barsSince_Get_witness :
    (∀ i : Nat, i < lastBarEngine.bars.length → decide ((2 : Int) - i = 0) = true →
      (∀ j : Nat, j < i → decide ((2 : Int) - j = 0) = false) →
      ((barsSince atFirstBar).Get lastBarEngine).1 = GoFloat.ofInt i) ∧
    ((∀ i : Nat, i < lastBarEngine.bars.length → decide ((2 : Int) - i = 0) = false) →
      ((barsSince atFirstBar).Get lastBarEngine).1 = GoFloat.nan) :=
  barsSince_Get atFirstBar lastBarEngine (fun g => g = lastBarEngine)
    (fun i => decide ((2 : Int) - i = 0)) rfl
    (fun g' i hg' => by
      subst hg'
      refine ⟨?_, Decrease_Increase _ _⟩
      simp only [atFirstBar, GoQuant.BarIndex, GoQuant.BarFuncIndex, GoQuant.IncreaseFuncIndex]
      have h1 : lastBarEngine.loopIndex = 2 := rfl
      have h2 : lastBarEngine.loopFuncIndex = 0 := rfl
      simp only [h1, h2, zero_add])

/-- The same read evaluated: 2 at the last of three bars, and NaN for a condition that
holds nowhere. -/
theorem barsSince_scenario :
    ((barsSince atFirstBar).Get lastBarEngine).1 = XFloat.fin 2 ∧
    ((barsSince (fun g => (false, g))).Get lastBarEngine).1 = XFloat.nan ∧
    ((barsSince always).Get lastBarEngine).1 = XFloat.fin 0 := by
  decide!

/-- C22 (the code at the failing input). At the last of the three bars with closes 10, 11,
12, `valueWhen(close, cond, 1)` with a condition that holds at every offset: the first
`Get()` of the series returns `close.G(1)` = 11, the close at the occurrence 1; the second
`Get()` of the same series returns `close.G(0)` = 12, the captured counter `times` being 1
when the scan starts. -/
theorem valueWhen_second_read :
    ((valueWhen lastBarEngine (recorded lastBarEngine.close) always 1).1.Get
      (valueWhen lastBarEngine (recorded lastBarEngine.close) always 1).2).1 = XFloat.fin 11 ∧
    ((valueWhen lastBarEngine (recorded lastBarEngine.close) always 1).1.Get
      ((valueWhen lastBarEngine (recorded lastBarEngine.close) always 1).1.Get
        (valueWhen lastBarEngine (recorded lastBarEngine.close) always 1).2).2).1 =
      XFloat.fin 12 ∧
    ((recorded lastBarEngine.close : Serie XFloat).G 1 lastBarEngine).1 = XFloat.fin 11 ∧
    ((valueWhen lastBarEngine (recorded lastBarEngine.close) always 1).1.Get
      (valueWhen lastBarEngine (recorded lastBarEngine.close) always 1).2).2.counters = [1] := by
  decide!

theorem pivotHigh_eq (g0 : GoQuant F) (leftBars righBars : Int) (src : Serie F)
    (rest : List (Serie F)) :
    pivotHigh g0 leftBars righBars (src :: rest) =
      pivotWith src leftBars righBars (fun centre x => GoFloat.le centre x) := rfl

theorem pivotLow_eq (g0 : GoQuant F) (leftBars righBars : Int) (src : Serie F)
    (rest : List (Serie F)) :
    pivotLow g0 leftBars righBars (src :: rest) =
      pivotWith src leftBars righBars (fun centre x => GoFloat.le x centre) := rfl

theorem pivotScan_spec (src : Serie F) (reached : GoQuant F → Prop) (v : Int → F)
    (hv : ∀ (g' : GoQuant F) (k : Int), reached g' →
      (src.G k g').1 = v k ∧ reached (src.G k g').2)
    (righBars step : Int) (rejects : F → Bool) :
    ∀ (n : Nat) (i : Int) (g : GoQuant F), reached g →
      ((pivotScan src righBars step rejects n i g).1 = true ↔
        ∃ j : Nat, j < n ∧ rejects (v (righBars + step * (i + (j : Int)))) = true) ∧
      reached (pivotScan src righBars step rejects n i g).2 := by
  intro n
  induction n with
  | zero =>
    intro i g hg
    simp [pivotScan, hg]
  | succ n ih =>
    intro i g hg
    obtain ⟨h1, h2⟩ := hv g (righBars + step * i) hg
    obtain ⟨ih1, ih2⟩ := ih (i + 1) _ h2
    simp only [pivotScan, h1]
    cases hb : rejects (v (righBars + step * i))
    · simp only [Bool.false_eq_true, if_false]
      refine ⟨?_, ih2⟩
      rw [ih1]
      constructor
      · rintro ⟨j, hj, hr⟩
        refine ⟨j + 1, by omega, ?_⟩
        rw [show i + ((j + 1 : Nat) : Int) = i + 1 + (j : Int) by push_cast; ring]
        exact hr
      · rintro ⟨j, hj, hr⟩
        cases j with
        | zero =>
          simp only [Nat.cast_zero, add_zero] at hr
          rw [hb] at hr
          exact absurd hr (by simp)
        | succ j =>
          refine ⟨j, by omega, ?_⟩
          rw [show i + 1 + (j : Int) = i + ((j + 1 : Nat) : Int) by push_cast; ring]
          exact hr
    · simp only [if_true]
      refine ⟨?_, h2⟩
      simp only [true_iff]
      exact ⟨0, Nat.succ_pos n, by simpa using hb⟩

theorem exists_window (p : Int → Prop) (bars : Int) :
    (∃ j : Nat, j < bars.toNat ∧ p (1 + (j : Int))) ↔ ∃ i : Int, 1 ≤ i ∧ i ≤ bars ∧ p i := by
  constructor
  · rintro ⟨j, hj, hp⟩
    exact ⟨1 + (j : Int), by omega, by omega, hp⟩
  · rintro ⟨i, h1, h2, hp⟩
    refine ⟨(i - 1).toNat, by omega, ?_⟩
    rw [show 1 + (((i - 1).toNat : Nat) : Int) = i by omega]
    exact hp

/-- The read of a pivot test: `True` when no neighbour of the window is rejected, `False`
when one is. -/
theorem pivotWith_Get (src : Serie F) (leftBars righBars : Int) (rejects : F → F → Bool)
    (g : GoQuant F) (reached : GoQuant F → Prop) (v : Int → F) (hg : reached g)
    (hv : ∀ (g' : GoQuant F) (k : Int), reached g' →
      (src.G k g').1 = v k ∧ reached (src.G k g').2) :
    (noneRejected (rejects (v righBars)) v leftBars righBars →
      ((pivotWith src leftBars righBars rejects).Get g).1 = TrueValue) ∧
    (¬ noneRejected (rejects (v righBars)) v leftBars righBars →
      ((pivotWith src leftBars righBars rejects).Get g).1 = FalseValue) := by
  obtain ⟨hc, hr⟩ := hv g righBars hg
  obtain ⟨hl1, hl2⟩ := pivotScan_spec src reached v hv righBars 1 (rejects (v righBars))
    leftBars.toNat 1 _ hr
  obtain ⟨hr1, _⟩ := pivotScan_spec src reached v hv righBars (-1) (rejects (v righBars))
    righBars.toNat 1 _ hl2
  have hleft : (∃ j : Nat, j < leftBars.toNat ∧
      rejects (v righBars) (v (righBars + 1 * (1 + (j : Int)))) = true) ↔
      ∃ i : Int, 1 ≤ i ∧ i ≤ leftBars ∧ rejects (v righBars) (v (righBars + i)) = true := by
    simp only [one_mul]
    exact exists_window (fun i => rejects (v righBars) (v (righBars + i)) = true) leftBars
  have hright : (∃ j : Nat, j < righBars.toNat ∧
      rejects (v righBars) (v (righBars + -1 * (1 + (j : Int)))) = true) ↔
      ∃ i : Int, 1 ≤ i ∧ i ≤ righBars ∧ rejects (v righBars) (v (righBars - i)) = true := by
    have := exists_window (fun i => rejects (v righBars) (v (righBars - i)) = true) righBars
    rw [← this]
    constructor
    · rintro ⟨j, hj, h⟩
      refine ⟨j, hj, ?_⟩
      rw [show righBars - (1 + (j : Int)) = righBars + -1 * (1 + (j : Int)) by ring]
      exact h
    · rintro ⟨j, hj, h⟩
      refine ⟨j, hj, ?_⟩
      rw [show righBars + -1 * (1 + (j : Int)) = righBars - (1 + (j : Int)) by ring]
      exact h
  rw [hleft] at hl1
  rw [hright] at hr1
  simp only [pivotWith, NewWrapper_Get, hc]
  constructor
  · rintro ⟨nl, nr⟩
    have e1 : (pivotScan src righBars 1 (rejects (v righBars)) leftBars.toNat 1
        (src.G righBars g).2).1 = false := by
      rw [Bool.eq_false_iff, Ne, hl1]
      rintro ⟨i, h1, h2, h3⟩
      rw [nl i h1 h2] at h3
      exact absurd h3 (by simp)
    have e2 : (pivotScan src righBars (-1) (rejects (v righBars)) righBars.toNat 1
        (pivotScan src righBars 1 (rejects (v righBars)) leftBars.toNat 1
          (src.G righBars g).2).2).1 = false := by
      rw [Bool.eq_false_iff, Ne, hr1]
      rintro ⟨i, h1, h2, h3⟩
      rw [nr i h1 h2] at h3
      exact absurd h3 (by simp)
    simp only [e1, e2, Bool.false_eq_true, if_false]
  · intro hnot
    cases e1 : (pivotScan src righBars 1 (rejects (v righBars)) leftBars.toNat 1
        (src.G righBars g).2).1
    · cases e2 : (pivotScan src righBars (-1) (rejects (v righBars)) righBars.toNat 1
          (pivotScan src righBars 1 (rejects (v righBars)) leftBars.toNat 1
            (src.G righBars g).2).2).1
      · exfalso
        apply hnot
        constructor
        · intro i h1 h2
          cases hb : rejects (v righBars) (v (righBars + i))
          · rfl
          · have := hl1.2 ⟨i, h1, h2, hb⟩
            rw [e1] at this
            exact absurd this (by simp)
        · intro i h1 h2
          cases hb : rejects (v righBars) (v (righBars - i))
          · rfl
          · have := hr1.2 ⟨i, h1, h2, hb⟩
            rw [e2] at this
            exact absurd this (by simp)
      · simp
    · simp

/-- C23 (as stated). At bar 0 of the closes 10, 11, 12 the centre `close.G(1)` and the
left neighbour `close.G(2)` are NaN, so `close.G(2) < centre` does not hold; yet
`pivothigh(1, 1, close).Get()` and `pivotlow(1, 1, close).Get()` are True. -/
theorem pivot_Get_counterexample :
    ((Serie.SerieWrapper 1 [] 0 : Serie XFloat).G 1 threeBarsEngine).1 = XFloat.nan ∧
    GoFloat.lt ((Serie.SerieWrapper 1 [] 0 : Serie XFloat).G 2 threeBarsEngine).1
      ((Serie.SerieWrapper 1 [] 0 : Serie XFloat).G 1 threeBarsEngine).1 = false ∧
    ((pivotHigh threeBarsEngine 1 1 [Serie.SerieWrapper 1 [] 0]).Get threeBarsEngine).1 =
      XFloat.fin 1 ∧
    ((pivotLow threeBarsEngine 1 1 [Serie.SerieWrapper 1 [] 0]).Get threeBarsEngine).1 =
      XFloat.fin 1 := by
  decide!

/-- C24 (amended). For every source series whose reads `src.G(k)` have the values `v k`
at the bar: when the centre `v R` is not NaN and some neighbour of the window has the
value of the centre, `pivothigh(L, R, src).Get()` and `pivotlow(L, R, src).Get()` are
False; a flat plateau is not a pivot. -/
theorem pivot_plateau (src : Serie F) (rest : List (Serie F)) (g0 : GoQuant F)
    (leftBars righBars : Int) (g : GoQuant F) (reached : GoQuant F → Prop) (v : Int → F)
    (hg : reached g)
    (hv : ∀ (g' : GoQuant F) (k : Int), reached g' →
      (src.G k g').1 = v k ∧ reached (src.G k g').2)
    (hcentre : GoFloat.isNaN (v righBars) = false) (hflat : plateau v leftBars righBars) :
    ((pivotHigh g0 leftBars righBars (src :: rest)).Get g).1 = FalseValue ∧
    ((pivotLow g0 leftBars righBars (src :: rest)).Get g).1 = FalseValue := by
  have hself := GoFloat.le_self (v righBars) hcentre
  rw [pivotHigh_eq, pivotLow_eq]
  constructor
  · apply (pivotWith_Get src leftBars righBars (fun centre x => GoFloat.le centre x) g
      reached v hg hv).2
    rintro ⟨nl, nr⟩
    rcases hflat with ⟨i, h1, h2, he⟩ | ⟨i, h1, h2, he⟩
    · have := nl i h1 h2
      simp only [he, hself] at this
      exact absurd this (by simp)
    · have := nr i h1 h2
      simp only [he, hself] at this
      exact absurd this (by simp)
  · apply (pivotWith_Get src leftBars righBars (fun centre x => GoFloat.le x centre) g
      reached v hg hv).2
    rintro ⟨nl, nr⟩
    rcases hflat with ⟨i, h1, h2, he⟩ | ⟨i, h1, h2, he⟩
    · have := nl i h1 h2
      simp only [he, hself] at this
      exact absurd this (by simp)
    · have := nr i h1 h2
      simp only [he, hself] at this
      exact absurd this (by simp)

/-- C24 (amended) at the buffer 1, 2, 2 read at bar 2 with `L = 2`, `R = 0`: the centre is
2 and the neighbour one bar back is 2 as well. -/
theorem pivot_plateau_witness :
    ((pivotHigh plateauEngine 2 0 [Serie.SerieWrapper 0 [] 0]).Get plateauEngine).1 =
      FalseValue ∧
    ((pivotLow plateauEngine 2 0 [Serie.SerieWrapper 0 [] 0]).Get plateauEngine).1 =
      FalseValue :=
  pivot_plateau (Serie.SerieWrapper 0 [] 0) [] plateauEngine 2 0 plateauEngine
    (fun g => g = plateauEngine)
    (fun k => bufferAt (plateauEngine.heap.getD 0 [])
      (plateauEngine.loopIndex - (plateauEngine.loopFuncIndex + k) - 0)) rfl
    (fun g' k hg' => by
      subst hg'
      rw [SerieWrapper_G]
      exact ⟨rfl, rfl⟩)
    (by decide!) (Or.inl ⟨1, by decide, by decide, by decide!⟩)

/-- C24 (as stated). At bar 2 the buffer 1, 2, 2 has the centre 2, one neighbour equal to
it and the other strictly lower, and `pivothigh(2, 0, s).Get()` is False; the buffer 3, 2,
2 has one neighbour equal to the centre and the other strictly higher, and
`pivotlow(2, 0, s).Get()` is False. -/
theorem pivot_plateau_counterexample :
    ((pivotHigh plateauEngine 2 0 [Serie.SerieWrapper 0 [] 0]).Get plateauEngine).1 =
      XFloat.fin 0 ∧
    ((pivotLow plateauEngine 2 0 [Serie.SerieWrapper 1 [] 0]).Get plateauEngine).1 =
      XFloat.fin 0 ∧
    [((Serie.SerieWrapper 0 [] 0 : Serie XFloat).G 0 plateauEngine).1,
     ((Serie.SerieWrapper 0 [] 0 : Serie XFloat).G 1 plateauEngine).1,
     ((Serie.SerieWrapper 0 [] 0 : Serie XFloat).G 2 plateauEngine).1] =
      [XFloat.fin 2, XFloat.fin 2, XFloat.fin 1] ∧
    [((Serie.SerieWrapper 1 [] 0 : Serie XFloat).G 0 plateauEngine).1,
     ((Serie.SerieWrapper 1 [] 0 : Serie XFloat).G 1 plateauEngine).1,
     ((Serie.SerieWrapper 1 [] 0 : Serie XFloat).G 2 plateauEngine).1] =
      [XFloat.fin 2, XFloat.fin 2, XFloat.fin 3] := by
  decide!

theorem applyOperations_keepsOffset (operations : List (Nat × Value F))
    (h : operandsKeepOffset operations) :
    ∀ (result : F) (g : GoQuant F),
      (applyOperations operations result g).2.loopFuncIndex = g.loopFuncIndex := by
  induction operations with
  | nil => intro result g; simp [applyOperations]
  | cons operation rest ih =>
    intro result g
    have hrest : operandsKeepOffset rest := fun o ho => h o (List.mem_cons_of_mem _ ho)
    simp only [applyOperations]
    rw [ih hrest]
    obtain ⟨opType, value⟩ := operation
    cases value with
    | float v => simp [applyOperation]
    | serie s =>
      simp only [applyOperation]
      split
      · exact h (opType, Value.serie s) (List.mem_cons_self _ _) s rfl g
      · rfl
    | func f =>
      simp only [applyOperation]
      split <;> rfl
    | other => simp [applyOperation]

theorem Serie.scoped_Get (s : Serie F) (hs : s.scoped) : KeepsOffset s.Get := by
  intro g
  cases s with
  | SerieWrapper data operations diff =>
    simp only [Serie.Get]
    split
    · rfl
    · split
      · rfl
      · exact applyOperations_keepsOffset operations hs _ _
  | CustomSerieWrapper f operations cacheKey =>
    obtain ⟨hf, hops⟩ := hs
    simp only [Serie.Get]
    split
    · rfl
    · split
      · show (applyOperations operations (f g).1 (f g).2).2.loopFuncIndex = g.loopFuncIndex
        rw [applyOperations_keepsOffset operations hops, hf]
      · rw [applyOperations_keepsOffset operations hops, hf]

theorem scoped_NewWrapper (f : GoQuant F → F × GoQuant F) (hf : KeepsOffset f) :
    (NewWrapper f).scoped :=
  ⟨hf, fun _ ho => absurd ho (List.not_mem_nil _)⟩

theorem KeepsOffset_NewWrapper (f : GoQuant F → F × GoQuant F) (hf : KeepsOffset f) :
    KeepsOffset (NewWrapper f).Get :=
  Serie.scoped_Get _ (scoped_NewWrapper f hf)

theorem Serie.scoped_B (s : Serie F) (hs : s.scoped) (steps : Int) : (s.B steps).scoped := by
  apply scoped_NewWrapper
  intro g
  show (s.Get (g.IncreaseFuncIndex steps)).2.loopFuncIndex - steps = g.loopFuncIndex
  rw [Serie.scoped_Get s hs]
  show g.loopFuncIndex + steps - steps = g.loopFuncIndex
  omega

theorem Serie.scoped_G (s : Serie F) (hs : s.scoped) (k : Int) (g : GoQuant F) :
    (s.G k g).2.loopFuncIndex = g.loopFuncIndex := by
  unfold Serie.G
  split
  · exact Serie.scoped_Get s hs g
  · exact Serie.scoped_Get _ (Serie.scoped_B s hs k) g

theorem operandsKeepOffset_append (operations : List (Nat × Value F)) (opType : Nat)
    (value : Value F) (h : operandsKeepOffset operations)
    (hv : ∀ s : Serie F, value = Value.serie s → KeepsOffset s.Get) :
    operandsKeepOffset (operations ++ [(opType, value)]) := by
  intro o ho s hs
  rcases List.mem_append.1 ho with h1 | h1
  · exact h o h1 s hs
  · rw [List.mem_singleton] at h1
    subst h1
    exact hv s hs

theorem Serie.scoped_addOperation (s : Serie F) (hs : s.scoped) (opType : Nat)
    (value : Value F) (hv : ∀ t : Serie F, value = Value.serie t → KeepsOffset t.Get) :
    (s.addOperation opType value).scoped := by
  cases s with
  | SerieWrapper data operations diff =>
    exact operandsKeepOffset_append operations opType value hs hv
  | CustomSerieWrapper f operations cacheKey =>
    exact ⟨hs.1, operandsKeepOffset_append operations opType value hs.2 hv⟩

theorem Serie.scoped_serie (s t : Serie F) (hs : s.scoped) (ht : t.scoped) (opType : Nat) :
    (s.addOperation opType (Value.serie t)).scoped :=
  Serie.scoped_addOperation s hs opType _ (fun t' h => by
    cases h
    exact Serie.scoped_Get t ht)

theorem Serie.scoped_Cache (s : Serie F) (hs : s.scoped) (lbl : String) :
    (s.Cache lbl).scoped := by
  cases s with
  | SerieWrapper data operations diff => exact hs
  | CustomSerieWrapper f operations cacheKey => exact hs

theorem scoped_recorded (record : Option (Nat × Int)) : (recorded record : Serie F).scoped := by
  cases record with
  | none => exact scoped_NewWrapper _ (fun _ => rfl)
  | some r => exact fun _ ho => absurd ho (List.not_mem_nil _)

theorem scoped_Max (s t : Serie F) (hs : s.scoped) (ht : t.scoped) : (Max s t).scoped := by
  apply scoped_NewWrapper
  intro g
  show (t.Get (s.Get g).2).2.loopFuncIndex = g.loopFuncIndex
  rw [Serie.scoped_Get t ht, Serie.scoped_Get s hs]

theorem scoped_cross (s t : Serie F) (hs : s.scoped) (ht : t.scoped) : (cross s t).scoped := by
  apply scoped_NewWrapper
  intro g
  simp only [cross]
  split
  · simp only [Serie.scoped_G t ht, Serie.scoped_G s hs, Serie.scoped_Get t ht g,
      Serie.scoped_Get s hs g, Serie.scoped_Get t ht (s.Get g).2]
  · split <;>
    simp only [Serie.scoped_G t ht, Serie.scoped_G s hs, Serie.scoped_Get t ht g,
      Serie.scoped_Get s hs g, Serie.scoped_Get t ht (s.Get g).2]

theorem scoped_crossOver (s t : Serie F) (hs : s.scoped) (ht : t.scoped) :
    (crossOver s t).scoped := by
  apply scoped_NewWrapper
  intro g
  have h1 := Serie.scoped_Get s hs
  have h2 := Serie.scoped_Get t ht
  have h3 := Serie.scoped_Get _ (Serie.scoped_B s hs 1)
  have h4 := Serie.scoped_Get _ (Serie.scoped_B t ht 1)
  simp only [crossOver]
  split
  · split <;> rw [h4, h3, h2, h1]
  · rw [h2, h1]

theorem scoped_crossUnder (s t : Serie F) (hs : s.scoped) (ht : t.scoped) :
    (crossUnder s t).scoped := by
  apply scoped_NewWrapper
  intro g
  have h1 := Serie.scoped_Get s hs
  have h2 := Serie.scoped_Get t ht
  have h3 := Serie.scoped_Get _ (Serie.scoped_B s hs 1)
  have h4 := Serie.scoped_Get _ (Serie.scoped_B t ht 1)
  simp only [crossUnder]
  split
  · split <;> rw [h4, h3, h2, h1]
  · rw [h2, h1]

theorem barsSinceLoop_keepsOffset (f : GoQuant F → Bool × GoQuant F) (hf : CondKeepsOffset f) :
    ∀ (n : Nat) (i : Int) (g : GoQuant F),
      (barsSinceLoop f n i g).2.loopFuncIndex = g.loopFuncIndex := by
  intro n
  induction n with
  | zero => intro i g; rfl
  | succ n ih =>
    intro i g
    have hstep : ((f (g.IncreaseFuncIndex i)).2.DecreaseFuncIndex i).loopFuncIndex =
        g.loopFuncIndex := by
      show (f (g.IncreaseFuncIndex i)).2.loopFuncIndex - i = g.loopFuncIndex
      rw [hf]
      show g.loopFuncIndex + i - i = g.loopFuncIndex
      omega
    simp only [barsSinceLoop]
    split
    · exact hstep
    · rw [ih, hstep]

theorem scoped_barsSince (f : GoQuant F → Bool × GoQuant F) (hf : CondKeepsOffset f) :
    (barsSince f).scoped :=
  scoped_NewWrapper _ (fun g => barsSinceLoop_keepsOffset f hf _ _ g)

theorem valueWhenLoop_keepsOffset (src : Serie F) (hs : src.scoped)
    (f : GoQuant F → Bool × GoQuant F) (hf : CondKeepsOffset f) (occurrence : Int)
    (cell : Nat) :
    ∀ (n : Nat) (i : Int) (g : GoQuant F),
      (valueWhenLoop src f occurrence cell n i g).2.loopFuncIndex = g.loopFuncIndex := by
  intro n
  induction n with
  | zero => intro i g; rfl
  | succ n ih =>
    intro i g
    have hstep : ((f (g.IncreaseFuncIndex i)).2.DecreaseFuncIndex i).loopFuncIndex =
        g.loopFuncIndex := by
      show (f (g.IncreaseFuncIndex i)).2.loopFuncIndex - i = g.loopFuncIndex
      rw [hf]
      show g.loopFuncIndex + i - i = g.loopFuncIndex
      omega
    simp only [valueWhenLoop]
    split
    · split
      · rw [Serie.scoped_G src hs, hstep]
      · rw [ih]
        exact hstep
    · rw [ih, hstep]

theorem scoped_valueWhen (g0 : GoQuant F) (src : Serie F) (hs : src.scoped)
    (f : GoQuant F → Bool × GoQuant F) (hf : CondKeepsOffset f) (occurrence : Int) :
    (valueWhen g0 src f occurrence).1.scoped :=
  scoped_NewWrapper _ (fun g => valueWhenLoop_keepsOffset src hs f hf occurrence _ _ _ g)

theorem pivotScan_keepsOffset (src : Serie F) (hs : src.scoped) (righBars step : Int)
    (rejects : F → Bool) :
    ∀ (n : Nat) (i : Int) (g : GoQuant F),
      (pivotScan src righBars step rejects n i g).2.loopFuncIndex = g.loopFuncIndex := by
  intro n
  induction n with
  | zero => intro i g; rfl
  | succ n ih =>
    intro i g
    simp only [pivotScan]
    split
    · exact Serie.scoped_G src hs _ g
    · rw [ih, Serie.scoped_G src hs]

theorem scoped_pivotWith (src : Serie F) (hs : src.scoped) (leftBars righBars : Int)
    (rejects : F → F → Bool) : (pivotWith src leftBars righBars rejects).scoped := by
  apply scoped_NewWrapper
  intro g
  simp only [pivotWith]
  split
  · rw [pivotScan_keepsOffset src hs, Serie.scoped_G src hs]
  · split <;>
    rw [pivotScan_keepsOffset src hs, pivotScan_keepsOffset src hs, Serie.scoped_G src hs]

theorem scoped_pivotHigh (g0 : GoQuant F) (leftBars righBars : Int) (source : List (Serie F))
    (hs : ∀ s, s ∈ source → s.scoped) : (pivotHigh g0 leftBars righBars source).scoped := by
  cases source with
  | nil =>
    exact scoped_pivotWith (recorded g0.high) (scoped_recorded _) leftBars righBars
      (fun centre x => GoFloat.le centre x)
  | cons s rest =>
    exact scoped_pivotWith s (hs s (List.mem_cons_self _ _)) leftBars righBars
      (fun centre x => GoFloat.le centre x)

theorem scoped_pivotLow (g0 : GoQuant F) (leftBars righBars : Int) (source : List (Serie F))
    (hs : ∀ s, s ∈ source → s.scoped) : (pivotLow g0 leftBars righBars source).scoped := by
  cases source with
  | nil =>
    exact scoped_pivotWith (recorded g0.low) (scoped_recorded _) leftBars righBars
      (fun centre x => GoFloat.le x centre)
  | cons s rest =>
    exact scoped_pivotWith s (hs s (List.mem_cons_self _ _)) leftBars righBars
      (fun centre x => GoFloat.le x centre)

theorem smaLoop_keepsOffset (src : Serie F) (hs : src.scoped) :
    ∀ (n : Nat) (i : Int) (sum : F) (g : GoQuant F),
      (smaLoop src n i sum g).2.loopFuncIndex = g.loopFuncIndex := by
  intro n
  induction n with
  | zero => intro i sum g; rfl
  | succ n ih =>
    intro i sum g
    simp only [smaLoop]
    rw [ih, Serie.scoped_G src hs]

theorem scoped_sma (src : Serie F) (hs : src.scoped) (length : F) : (sma src length).scoped :=
  scoped_NewWrapper _ (fun g => smaLoop_keepsOffset src hs _ _ _ g)

theorem scoped_vwma (src : Serie F) (hs : src.scoped) (length : F) :
    (vwma src length).scoped := by
  apply scoped_NewWrapper
  intro g
  exact Serie.scoped_Get _
    (Serie.scoped_serie _ _
      (scoped_sma _ (Serie.scoped_serie _ _ hs (scoped_recorded _) _) length)
      (scoped_sma _ (scoped_recorded _) length) _) g

theorem NewEmptyStorage_cases (g : GoQuant F) (lbl : String) :
    (∃ (buffer : Nat) (diff : Int), g.NewEmptyStorage lbl =
      (Serie.SerieWrapper buffer [] diff, g)) ∨
    g.NewEmptyStorage lbl =
      (Serie.SerieWrapper g.heap.length [] g.BarIndex,
        { g with
          heap := g.heap ++ [List.replicate g.bars.length (GoFloat.ofInt 0)],
          taStorage := mapSet g.taStorage lbl (g.heap.length, g.BarIndex) }) := by
  cases h : mapGet g.taStorage lbl with
  | some r =>
    left
    refine ⟨r.1, r.2, ?_⟩
    simp only [GoQuant.NewEmptyStorage, GoQuant.NewStorage, h]
  | none =>
    right
    have hnn : ¬ ((g.bars.length : Int) < 0) := by omega
    simp only [GoQuant.NewEmptyStorage, GoQuant.NewStorage, h, NewSerie, List.length_nil,
      if_true, hnn, if_false, Serie.record, Int.toNat_ofNat]

theorem NewEmptyStorage_offset (g : GoQuant F) (lbl : String) :
    (g.NewEmptyStorage lbl).2.loopFuncIndex = g.loopFuncIndex := by
  rcases NewEmptyStorage_cases g lbl with ⟨buffer, diff, h⟩ | h <;> rw [h]

theorem NewEmptyStorage_scoped (g : GoQuant F) (lbl : String) :
    (g.NewEmptyStorage lbl).1.scoped := by
  rcases NewEmptyStorage_cases g lbl with ⟨buffer, diff, h⟩ | h <;> rw [h] <;>
    exact fun _ ho => absurd ho (List.not_mem_nil _)

theorem SetAssign_offset (s : Serie F) (steps : Int) (value : F) (g : GoQuant F) :
    (s.SetAssign steps value g).loopFuncIndex = g.loopFuncIndex := by
  cases s with
  | SerieWrapper data operations diff =>
    simp only [Serie.SetAssign]
    split
    · rfl
    · split <;> rfl
  | CustomSerieWrapper f operations cacheKey => rfl

theorem scoped_recursiveAverage (seed src : Serie F) (hseed : seed.scoped) (hsrc : src.scoped)
    (alpha : F) (lbl : String) : (recursiveAverage seed src alpha lbl).scoped := by
  apply Serie.scoped_Cache
  apply scoped_NewWrapper
  intro g
  have hsum := Serie.scoped_G _ (NewEmptyStorage_scoped g lbl) 1 (g.NewEmptyStorage lbl).2
  dsimp only
  split
  · show (Serie.SetAssign _ _ _ _).loopFuncIndex = _
    rw [SetAssign_offset, Serie.scoped_Get seed hseed, hsum, NewEmptyStorage_offset]
  · show (Serie.SetAssign _ _ _ _).loopFuncIndex = _
    rw [SetAssign_offset, Serie.scoped_Get src hsrc, hsum, NewEmptyStorage_offset]

theorem scoped_ema (src : Serie F) (hs : src.scoped) (length : F) (lbl : String) :
    (ema src length lbl).scoped := by
  rw [ema_eq]
  exact scoped_recursiveAverage src src hs hs _ lbl

theorem scoped_rma (src : Serie F) (hs : src.scoped) (length : F) (lbl : String) :
    (rma src length lbl).scoped := by
  rw [rma_eq]
  exact scoped_recursiveAverage _ src (scoped_sma src hs length) hs _ lbl

theorem scoped_atrTrueRange (g : GoQuant F) :
    (atrTrueRange g).1.scoped ∧ (atrTrueRange g).2.loopFuncIndex = g.loopFuncIndex := by
  have hB : ((recorded g.close : Serie F).B 1).scoped := Serie.scoped_B _ (scoped_recorded _) 1
  simp only [atrTrueRange]
  split
  · exact ⟨Serie.scoped_serie _ _ (scoped_recorded _) (scoped_recorded _) _,
      Serie.scoped_G _ (scoped_recorded _) 1 g⟩
  · refine ⟨?_, Serie.scoped_G _ (scoped_recorded _) 1 g⟩
    apply scoped_Max
    · apply scoped_Max
      · exact Serie.scoped_serie _ _ (scoped_recorded _) (scoped_recorded _) _
      · exact Serie.scoped_serie _ _ (scoped_recorded _)
          (Serie.scoped_addOperation _ hB _ _ (fun t h => by cases h)) _
    · exact Serie.scoped_addOperation _
        (Serie.scoped_serie _ _ (scoped_recorded _) hB _) _ _ (fun t h => by cases h)

theorem scoped_atr (length : F) (lbl : String) : (atr length lbl).scoped := by
  apply Serie.scoped_Cache
  apply scoped_NewWrapper
  intro g
  show ((rma (atrTrueRange g).1 length lbl).Get (atrTrueRange g).2).2.loopFuncIndex = _
  rw [Serie.scoped_Get _ (scoped_rma _ (scoped_atrTrueRange g).1 length lbl),
    (scoped_atrTrueRange g).2]

theorem scoped_rsi (src : Serie F) (hs : src.scoped) (length : F) (lbl : String) :
    (rsi src length lbl).scoped := by
  apply Serie.scoped_Cache
  apply scoped_NewWrapper
  intro g
  have hB := Serie.scoped_B src hs 1
  have hzero := NewEmptyStorage_scoped g lbl
  have hu : (Max (src.Sub (Value.serie (src.B 1))) (g.NewEmptyStorage lbl).1).scoped :=
    scoped_Max _ _ (Serie.scoped_serie _ _ hs hB _) hzero
  have hd : (Max ((src.B 1).Sub (Value.serie src)) (g.NewEmptyStorage lbl).1).scoped :=
    scoped_Max _ _ (Serie.scoped_serie _ _ hB hs _) hzero
  have hrs := Serie.scoped_serie _ _ (scoped_rma _ hu length (lbl ++ "u"))
    (scoped_rma _ hd length (lbl ++ "d")) OpDiv
  show (Serie.Get _ (g.NewEmptyStorage lbl).2).2.loopFuncIndex = _
  rw [← NewEmptyStorage_offset g lbl]
  exact Serie.scoped_Get _ hrs _

theorem scoped_inRange (rangeUpper rangeLower : Int) (cond : GoQuant F → Bool × GoQuant F)
    (hc : CondKeepsOffset cond) : (inRange rangeUpper rangeLower cond).scoped := by
  apply scoped_NewWrapper
  intro g
  simp only [inRange]
  split <;> exact Serie.scoped_Get _ (scoped_barsSince cond hc) g

theorem valueWhen_offset (g0 : GoQuant F) (src : Serie F) (f : GoQuant F → Bool × GoQuant F)
    (occurrence : Int) : (valueWhen g0 src f occurrence).2.loopFuncIndex = g0.loopFuncIndex :=
  rfl

theorem scoped_divergence (rsiLen : Int) (src : Serie F) (hs : src.scoped)
    (lbR lbL rangeUpper rangeLower : Int) (lbl : String) :
    (divergence rsiLen src lbR lbL rangeUpper rangeLower lbl).scoped := by
  apply Serie.scoped_Cache
  apply scoped_NewWrapper
  intro g
  have hosc : (rsi src (GoFloat.ofInt rsiLen) lbl).scoped := scoped_rsi src hs _ lbl
  have hpl : ∀ g0 : GoQuant F,
      (pivotLow g0 lbL lbR [rsi src (GoFloat.ofInt rsiLen) lbl]).scoped :=
    fun g0 => scoped_pivotLow g0 lbL lbR _ (fun s hmem => by
      rw [List.mem_singleton] at hmem
      rw [hmem]
      exact hosc)
  have hplGet : ∀ g0 g' : GoQuant F,
      ((pivotLow g0 lbL lbR [rsi src (GoFloat.ofInt rsiLen) lbl]).Get g').2.loopFuncIndex =
        g'.loopFuncIndex := fun g0 => Serie.scoped_Get _ (hpl g0)
  have hrange : ∀ (cond : GoQuant F → Bool × GoQuant F), CondKeepsOffset cond →
      ∀ g' : GoQuant F, ((inRange rangeUpper rangeLower cond).Get g').2.loopFuncIndex =
        g'.loopFuncIndex :=
    fun cond hc => Serie.scoped_Get _ (scoped_inRange rangeUpper rangeLower cond hc)
  have hoscG : ∀ g' : GoQuant F,
      ((rsi src (GoFloat.ofInt rsiLen) lbl).G lbR g').2.loopFuncIndex = g'.loopFuncIndex :=
    Serie.scoped_G _ hosc lbR
  have hvw : ∀ (g0 : GoQuant F) (s : Serie F) (cond : GoQuant F → Bool × GoQuant F),
      s.scoped → CondKeepsOffset cond → ∀ g' : GoQuant F,
      ((valueWhen g0 (s.B lbR) cond 1).1.Get g').2.loopFuncIndex = g'.loopFuncIndex :=
    fun g0 s cond hsc hc => Serie.scoped_Get _
      (scoped_valueWhen g0 _ (Serie.scoped_B s hsc lbR) cond hc 1)
  have hlow : ∀ (r : Option (Nat × Int)) (g' : GoQuant F),
      (((recorded r : Serie F).B lbR).Get g').2.loopFuncIndex = g'.loopFuncIndex :=
    fun r => Serie.scoped_Get _ (Serie.scoped_B _ (scoped_recorded r) lbR)
  have hc1 : CondKeepsOffset (fun g1 : GoQuant F =>
      (GoFloat.eq ((pivotLow g lbL lbR [rsi src (GoFloat.ofInt rsiLen) lbl]).G 1 g1).1
        TrueValue, ((pivotLow g lbL lbR [rsi src (GoFloat.ofInt rsiLen) lbl]).G 1 g1).2)) :=
    fun g1 => Serie.scoped_G _ (hpl g) 1 g1
  have hc2 : CondKeepsOffset (fun g1 : GoQuant F =>
      (GoFloat.eq ((pivotLow g lbL lbR [rsi src (GoFloat.ofInt rsiLen) lbl]).Get g1).1
        TrueValue, ((pivotLow g lbL lbR [rsi src (GoFloat.ofInt rsiLen) lbl]).Get g1).2)) :=
    fun g1 => hplGet g g1
  dsimp only
  simp only [apply_ite Prod.snd, apply_ite GoQuant.loopFuncIndex, hplGet, hrange _ hc1, hoscG,
    hvw _ _ _ hosc hc2, hvw _ _ _ (scoped_recorded _) hc2, valueWhen_offset, hlow, ite_self]

theorem Built.scoped {s : Serie F} (hs : Built s) : s.scoped := by
  induction hs with
  | materialized data diff => exact fun _ ho => absurd ho (List.not_mem_nil _)
  | back s steps _ ih => exact Serie.scoped_B s ih steps
  | constant s opType c _ ih =>
    exact Serie.scoped_addOperation s ih opType _ (fun t h => by cases h)
  | operand s t opType _ _ ihs iht => exact Serie.scoped_serie s t ihs iht opType
  | custom s f _ ih => exact Serie.scoped_addOperation s ih _ _ (fun t h => by cases h)
  | cache s lbl _ ih => exact Serie.scoped_Cache s ih lbl
  | max s t _ _ ihs iht => exact scoped_Max s t ihs iht
  | cross s t _ _ ihs iht => exact scoped_cross s t ihs iht
  | crossOver s t _ _ ihs iht => exact scoped_crossOver s t ihs iht
  | crossUnder s t _ _ ihs iht => exact scoped_crossUnder s t ihs iht
  | barsSince cond hc => exact scoped_barsSince cond hc
  | valueWhen g0 s cond occurrence _ hc ih => exact scoped_valueWhen g0 s ih cond hc occurrence
  | pivotHigh g0 leftBars righBars source _ ih =>
    exact scoped_pivotHigh g0 leftBars righBars source ih
  | pivotLow g0 leftBars righBars source _ ih =>
    exact scoped_pivotLow g0 leftBars righBars source ih
  | sma s length _ ih => exact scoped_sma s ih length
  | vwma s length _ ih => exact scoped_vwma s ih length
  | ema s length lbl _ ih => exact scoped_ema s ih length lbl
  | rma s length lbl _ ih => exact scoped_rma s ih length lbl
  | atr length lbl => exact scoped_atr length lbl
  | rsi s length lbl _ ih => exact scoped_rsi s ih length lbl
  | divergence rsiLen s lbR lbL rangeUpper rangeLower lbl _ ih =>
    exact scoped_divergence rsiLen s ih lbR lbL rangeUpper rangeLower lbl

theorem readEachBar_offset (s : Serie F) (hs : s.scoped) :
    ∀ (n : Nat) (g : GoQuant F), g.loopFuncIndex = 0 →
      (readEachBar (fun _ => s) n g).2.loopFuncIndex = 0 := by
  intro n
  induction n with
  | zero => intro g h; exact h
  | succ n ih =>
    intro g h
    simp only [readEachBar]
    apply ih
    show (s.Get g).2.loopFuncIndex = 0
    rw [Serie.scoped_Get s hs, h]

/-- The cursor after a read of `divergence` two bars back, evaluated: `func_offset` is 0
as at entry. -/
theorem func_offset_scenario :
    (engineOfCloses [1, 2, 3]).map (fun g =>
      (((divergenceStrategy g).B 2).Get { g with loopIndex := 2 }).2.loopFuncIndex) =
      some 0 := by
  decide!

/-- C26 (the code at the failing input). With the closes 1, 2, 3 and
`divergence(1, close, 0, 1, 60, 5, "L")` read at the bars 0 and 1, the RSI of bar 1 is 100
(as a run that reads `rsi(close, 1, "L")` alone gives); at bar 2 the pivot test reads
`osc.G(0)` = 100 and then `osc.G(1)` = 0, the result of the divergence at bar 1 that
replaced the RSI under the shared key. -/
theorem divergence_reads_own_output :
    (engineOfCloses [1, 2, 3]).map (fun g => (readEachBar rsiStrategy 3 g).1) =
      some [XFloat.nan, XFloat.fin 100, XFloat.fin 100] ∧
    (engineOfCloses [1, 2, 3]).map (fun g => (readEachBar divergenceStrategy 2 g).1) =
      some [XFloat.fin 0, XFloat.fin 0] ∧
    divergenceEngine.map (fun g => (g.loopIndex, ((rsiStrategy g).G 0 g).1)) =
      some (2, XFloat.fin 100) ∧
    divergenceEngine.map (fun g => ((rsiStrategy g).G 1 ((rsiStrategy g).G 0 g).2).1) =
      some (XFloat.fin 0) := by
  decide!

theorem AddData_heap (data : Nat) (diff : Int) (xs : List F) (g : GoQuant F) (h : Nat) :
    ((Serie.SerieWrapper data [] diff : Serie F).AddData xs g).heap.getD h [] =
      if h = data ∧ data < g.heap.length then g.heap.getD data [] ++ xs
      else g.heap.getD h [] := by
  simp only [Serie.AddData]
  by_cases hd : h = data
  · subst hd
    by_cases hl : h < g.heap.length
    · rw [if_pos ⟨rfl, hl⟩, getD_set_self _ _ _ hl]
    · rw [if_neg (fun hc => hl hc.2)]
      have : g.heap.set h (g.heap.getD h [] ++ xs) = g.heap :=
        List.set_eq_of_length_le (by omega)
      rw [this]
  · rw [if_neg (fun hc => hd hc.1), getD_set_heap _ _ _ _ (fun hc => hd hc.symm)]

/-- The loop `for _, record := range g.taStorage { record.AddData(...) }` of `AddBars`:
every buffer of a record grows by the new slots, once, and every other buffer is left
alone. -/
theorem storageLoop_heap (xs : List F) :
    ∀ (records : List (String × Nat × Int)) (g : GoQuant F),
      (records.map (fun record => record.2.1)).Nodup →
      (∀ record ∈ records, record.2.1 < g.heap.length) →
      ∀ h : Nat,
        (records.foldl (fun g record =>
          (Serie.SerieWrapper record.2.1 [] record.2.2 : Serie F).AddData xs g) g).heap.getD h
            [] =
          (if h ∈ records.map (fun record => record.2.1) then g.heap.getD h [] ++ xs
           else g.heap.getD h []) ∧
        (records.foldl (fun g record =>
          (Serie.SerieWrapper record.2.1 [] record.2.2 : Serie F).AddData xs g) g).heap.length =
          g.heap.length := by
  intro records
  induction records with
  | nil => intro g _ _ h; simp
  | cons record rest ih =>
    intro g hnodup hlt h
    rw [List.map_cons, List.nodup_cons] at hnodup
    have hlen : ((Serie.SerieWrapper record.2.1 [] record.2.2 : Serie F).AddData xs g).heap.length
        = g.heap.length := by
      simp [Serie.AddData]
    have hlt' : ∀ r ∈ rest, r.2.1 <
        ((Serie.SerieWrapper record.2.1 [] record.2.2 : Serie F).AddData xs g).heap.length := by
      intro r hr
      rw [hlen]
      exact hlt r (List.mem_cons_of_mem _ hr)
    obtain ⟨ih1, ih2⟩ := ih _ hnodup.2 hlt' h
    have hrec : record.2.1 < g.heap.length := hlt record (List.mem_cons_self _ _)
    simp only [List.foldl_cons, List.map_cons, List.mem_cons]
    rw [ih1, ih2, hlen]
    refine ⟨?_, rfl⟩
    by_cases hh : h = record.2.1
    · subst hh
      simp only [if_neg hnodup.1, AddData_heap, hrec, and_self, if_true, true_or]
    · by_cases hm : h ∈ rest.map (fun record => record.2.1)
      · simp only [hm, if_true, AddData_heap, hh, false_and, if_false, or_true]
      · simp only [hm, if_false, AddData_heap, hh, false_and, false_or]

theorem storageLoop_fields (xs : List F) :
    ∀ (records : List (String × Nat × Int)) (g : GoQuant F),
      ((records.foldl (fun g record =>
        (Serie.SerieWrapper record.2.1 [] record.2.2 : Serie F).AddData xs g) g).taStorage,
       (records.foldl (fun g record =>
        (Serie.SerieWrapper record.2.1 [] record.2.2 : Serie F).AddData xs g) g).openSerie,
       (records.foldl (fun g record =>
        (Serie.SerieWrapper record.2.1 [] record.2.2 : Serie F).AddData xs g) g).close,
       (records.foldl (fun g record =>
        (Serie.SerieWrapper record.2.1 [] record.2.2 : Serie F).AddData xs g) g).high,
       (records.foldl (fun g record =>
        (Serie.SerieWrapper record.2.1 [] record.2.2 : Serie F).AddData xs g) g).low,
       (records.foldl (fun g record =>
        (Serie.SerieWrapper record.2.1 [] record.2.2 : Serie F).AddData xs g) g).time,
       (records.foldl (fun g record =>
        (Serie.SerieWrapper record.2.1 [] record.2.2 : Serie F).AddData xs g) g).volume,
       (records.foldl (fun g record =>
        (Serie.SerieWrapper record.2.1 [] record.2.2 : Serie F).AddData xs g) g).bars) =
      (g.taStorage, g.openSerie, g.close, g.high, g.low, g.time, g.volume, g.bars) := by
  intro records
  induction records with
  | nil => intro g; rfl
  | cons record rest ih =>
    intro g
    simp only [List.foldl_cons]
    rw [ih]
    rfl

theorem NewSerie_heap (g g' : GoQuant F) (data : List F) (length : List Int) (s : Serie F)
    (hnew : NewSerie g data length = some (s, g')) :
    (∀ h : Nat, h < g.heap.length → g'.heap.getD h [] = g.heap.getD h []) ∧
    g'.heap.length = g.heap.length + 1 ∧ g'.taStorage = g.taStorage := by
  simp only [NewSerie] at hnew
  split at hnew
  · cases hnew
  · cases hnew
    refine ⟨?_, by simp, rfl⟩
    intro h hh
    show (g.heap ++ [_]).getD h [] = g.heap.getD h []
    rw [List.getD_eq_getElem?_getD, List.getElem?_append_left hh, ← List.getD_eq_getElem?_getD]

theorem addPriceData_fields (record : Option (Nat × Int)) (xs : List F) (g g' : GoQuant F)
    (hadd : addPriceData record xs g = some g') :
    g'.taStorage = g.taStorage ∧ g'.openSerie = g.openSerie ∧ g'.close = g.close ∧
    g'.high = g.high ∧ g'.low = g.low ∧ g'.time = g.time ∧ g'.volume = g.volume := by
  cases record with
  | none => simp [addPriceData] at hadd
  | some p =>
    obtain ⟨buffer, diff⟩ := p
    simp only [addPriceData, Option.some.injEq] at hadd
    subst hadd
    exact ⟨rfl, rfl, rfl, rfl, rfl, rfl, rfl⟩

theorem addPriceData_heap (record : Option (Nat × Int)) (xs : List F) (g g' : GoQuant F)
    (hadd : addPriceData record xs g = some g') (h : Nat)
    (hne : ∀ p : Nat × Int, record = some p → p.1 ≠ h) :
    g'.heap.getD h [] = g.heap.getD h [] := by
  cases record with
  | none => simp [addPriceData] at hadd
  | some p =>
    obtain ⟨buffer, diff⟩ := p
    simp only [addPriceData, Option.some.injEq] at hadd
    subst hadd
    rw [AddData_heap, if_neg (fun hc => hne (buffer, diff) rfl hc.1.symm)]

/-- The heap of the engine that `AddBars` returns, at the buffer of a storage record. -/
theorem AddBars_heap (g g' : GoQuant F) (bars : List (Bar F)) (hsep : StorageSeparate g)
    (hadd : g.AddBars bars = some g') :
    g'.taStorage = g.taStorage ∧
    ∀ record ∈ g.taStorage,
      g'.heap.getD record.2.1 [] =
        g.heap.getD record.2.1 [] ++ List.replicate bars.length (GoFloat.ofInt 0) := by
  obtain ⟨hnodup, hlt, hprice⟩ := hsep
  unfold GoQuant.AddBars at hadd
  dsimp only at hadd
  obtain ⟨g2, hg2⟩ : ∃ g2 : GoQuant F, g2 = g.taStorage.foldl
      (fun g record => (Serie.SerieWrapper record.2.1 [] record.2.2 : Serie F).AddData
        (List.replicate bars.length (GoFloat.ofInt 0)) g)
      { g with bars := g.bars ++ bars } := ⟨_, rfl⟩
  rw [← hg2] at hadd
  have hloop := storageLoop_heap (List.replicate bars.length (GoFloat.ofInt 0 : F)) g.taStorage
    { g with bars := g.bars ++ bars } hnodup hlt
  have hfields := storageLoop_fields (List.replicate bars.length (GoFloat.ofInt 0 : F))
    g.taStorage { g with bars := g.bars ++ bars }
  rw [← hg2] at hloop hfields
  simp only [Prod.mk.injEq] at hfields
  obtain ⟨f1, f2, f3, f4, f5, f6, f7, _⟩ := hfields
  have hstore : ∀ record ∈ g.taStorage, g2.heap.getD record.2.1 [] =
      g.heap.getD record.2.1 [] ++ List.replicate bars.length (GoFloat.ofInt 0) := by
    intro record hr
    rw [(hloop record.2.1).1, if_pos (List.mem_map_of_mem _ hr)]
  have hlen : g2.heap.length = g.heap.length := (hloop 0).2
  split at hadd
  · split at hadd
    · cases hadd
    · rename_i _ o g3 h3
      split at hadd
      · cases hadd
      · rename_i _ c g4 h4
        split at hadd
        · cases hadd
        · rename_i _ hi g5 h5
          split at hadd
          · cases hadd
          · rename_i _ l g6 h6
            split at hadd
            · cases hadd
            · rename_i _ v g7 h7
              split at hadd
              · cases hadd
              · rename_i _ tm g8 h8
                cases hadd
                obtain ⟨a3, b3, c3⟩ := NewSerie_heap g2 g3 _ _ o h3
                obtain ⟨a4, b4, c4⟩ := NewSerie_heap g3 g4 _ _ c h4
                obtain ⟨a5, b5, c5⟩ := NewSerie_heap g4 g5 _ _ hi h5
                obtain ⟨a6, b6, c6⟩ := NewSerie_heap g5 g6 _ _ l h6
                obtain ⟨a7, b7, c7⟩ := NewSerie_heap g6 g7 _ _ v h7
                obtain ⟨a8, b8, c8⟩ := NewSerie_heap g7 g8 _ _ tm h8
                refine ⟨?_, ?_⟩
                · show g8.taStorage = g.taStorage
                  rw [c8, c7, c6, c5, c4, c3, f1]
                · intro record hr
                  have hr' := hlt record hr
                  show g8.heap.getD record.2.1 [] = _
                  rw [a8 _ (by omega), a7 _ (by omega), a6 _ (by omega), a5 _ (by omega),
                    a4 _ (by omega), a3 _ (by omega), hstore record hr]
  · rename_i p hopen
    split at hadd
    · cases hadd
    · rename_i _ g3 h3
      split at hadd
      · cases hadd
      · rename_i _ g4 h4
        split at hadd
        · cases hadd
        · rename_i _ g5 h5
          split at hadd
          · cases hadd
          · rename_i _ g6 h6
            split at hadd
            · cases hadd
            · rename_i _ g7 h7
              obtain ⟨t3, o3, c3, i3, l3, m3, v3⟩ := addPriceData_fields _ _ _ _ h3
              obtain ⟨t4, o4, c4, i4, l4, m4, v4⟩ := addPriceData_fields _ _ _ _ h4
              obtain ⟨t5, o5, c5, i5, l5, m5, v5⟩ := addPriceData_fields _ _ _ _ h5
              obtain ⟨t6, o6, c6, i6, l6, m6, v6⟩ := addPriceData_fields _ _ _ _ h6
              obtain ⟨t7, o7, c7, i7, l7, m7, v7⟩ := addPriceData_fields _ _ _ _ h7
              obtain ⟨t8, _, _, _, _, _, _⟩ := addPriceData_fields _ _ _ _ hadd
              refine ⟨by rw [t8, t7, t6, t5, t4, t3, f1], ?_⟩
              intro record hr
              have hne : ∀ (price : Option (Nat × Int)),
                  price ∈ [g.openSerie, g.close, g.high, g.low, g.time, g.volume] →
                  ∀ q : Nat × Int, price = some q → q.1 ≠ record.2.1 :=
                fun price hp q hq hc => hprice record hr price hp (by rw [hq, ← hc]; rfl)
              rw [addPriceData_heap _ _ _ _ hadd record.2.1
                  (by rw [v7, v6, v5, v4, v3, f7]; exact hne _ (by simp)),
                addPriceData_heap _ _ _ _ h7 record.2.1
                  (by rw [m6, m5, m4, m3, f6]; exact hne _ (by simp)),
                addPriceData_heap _ _ _ _ h6 record.2.1
                  (by rw [l5, l4, l3, f5]; exact hne _ (by simp)),
                addPriceData_heap _ _ _ _ h5 record.2.1
                  (by rw [i4, i3, f4]; exact hne _ (by simp)),
                addPriceData_heap _ _ _ _ h4 record.2.1
                  (by rw [c3, f3]; exact hne _ (by simp)),
                addPriceData_heap _ _ _ _ h3 record.2.1
                  (by rw [f2]; exact hne _ (by simp)),
                hstore record hr]

/-- C27 (amended). When `AddBars` extends the bar store by `m` bars, on an engine whose
storage buffers are separate, the storage records stay as they are and every storage
buffer grows by exactly `m` slots: the old slots keep their values and each new slot holds
0, the zero value of `make([]float64, m)`. -/
theorem AddBars_storage (g g' : GoQuant F) (bars : List (Bar F)) (hsep : StorageSeparate g)
    (hadd : g.AddBars bars = some g') :
    g'.taStorage = g.taStorage ∧
    ∀ record ∈ g.taStorage,
      (g'.heap.getD record.2.1 []).length =
        (g.heap.getD record.2.1 []).length + bars.length ∧
      (g'.heap.getD record.2.1 []).take (g.heap.getD record.2.1 []).length =
        g.heap.getD record.2.1 [] ∧
      ∀ j : Nat, j < bars.length →
        (g'.heap.getD record.2.1 []).get? ((g.heap.getD record.2.1 []).length + j) =
          some (GoFloat.ofInt 0) := by
  obtain ⟨hts, hheap⟩ := AddBars_heap g g' bars hsep hadd
  refine ⟨hts, ?_⟩
  intro record hr
  rw [hheap record hr]
  refine ⟨by simp, by simp, ?_⟩
  intro j hj
  rw [List.get?_eq_getElem?, List.getElem?_append_right (by omega)]
  simp [hj]

/-- C27 (amended) at the engine of three bars with the storage `L`, extended by one bar. -/
theorem AddBars_storage_witness :
    (afterAddBars storageEngine [fourthBar]).taStorage = storageEngine.taStorage ∧
    ∀ record ∈ storageEngine.taStorage,
      ((afterAddBars storageEngine [fourthBar]).heap.getD record.2.1 []).length =
        (storageEngine.heap.getD record.2.1 []).length + [fourthBar].length ∧
      ((afterAddBars storageEngine [fourthBar]).heap.getD record.2.1 []).take
        (storageEngine.heap.getD record.2.1 []).length =
        storageEngine.heap.getD record.2.1 [] ∧
      ∀ j : Nat, j < [fourthBar].length →
        ((afterAddBars storageEngine [fourthBar]).heap.getD record.2.1 []).get?
          ((storageEngine.heap.getD record.2.1 []).length + j) = some (GoFloat.ofInt 0) :=
  AddBars_storage storageEngine (afterAddBars storageEngine [fourthBar]) [fourthBar]
    (by unfold StorageSeparate; decide!) rfl

/-- C27 (as stated). The storage `L` made on three bars is the buffer 6 with three slots;
after `AddBars` of one bar it has the four slots 0, 0, 0, 0: the new slot holds 0, not NaN,
and the storage series reads 0 at the new bar, which `NA` does not recognise. -/
theorem AddBars_storage_counterexample :
    storageEngine.taStorage = [("L", 6, 0)] ∧
    storageEngine.heap.getD 6 [] = [XFloat.fin 0, XFloat.fin 0, XFloat.fin 0] ∧
    (storageEngine.AddBars [fourthBar]).map (fun g => g.heap.getD 6 []) =
      some [XFloat.fin 0, XFloat.fin 0, XFloat.fin 0, XFloat.fin 0] ∧
    (storageEngine.AddBars [fourthBar]).map (fun g =>
      ((recorded (mapGet g.taStorage "L") : Serie XFloat).Get { g with loopIndex := 3 }).1) =
      some (XFloat.fin 0) ∧
    NA (XFloat.fin 0) = false := by
  decide!

theorem SerieWrapper_Get_operations (data : Nat) (operations : List (Nat × Value F))
    (diff : Int) (g : GoQuant F) (x : F)
    (hx : bufferAt (g.heap.getD data []) (g.loopIndex - g.loopFuncIndex - diff) = x)
    (hnum : GoFloat.isNaN x = false) :
    (Serie.SerieWrapper data operations diff).Get g = applyOperations operations x g := by
  have hin : ¬ (g.loopIndex - g.loopFuncIndex - diff < 0 ∨
      g.loopIndex - g.loopFuncIndex - diff ≥ (g.heap.getD data []).length) := by
    intro hout
    unfold bufferAt at hx
    rw [if_pos hout] at hx
    rw [← hx, GoFloat.isNaN_nan] at hnum
    exact absurd hnum (by simp)
  unfold bufferAt at hx
  rw [if_neg hin] at hx
  have hlt : (g.loopIndex - g.loopFuncIndex - diff).toNat < (g.heap.getD data []).length := by
    omega
  simp only [Serie.Get, GoQuant.BarIndex, GoQuant.BarFuncIndex, if_neg hin]
  rw [List.get?_eq_get hlt]
  rw [List.getD_eq_getElem _ _ hlt] at hx
  simp only [List.get_eq_getElem, hx]

theorem SerieWrapper_Get_at (data : Nat) (diff : Int) (g : GoQuant F) :
    (Serie.SerieWrapper data [] diff : Serie F).Get g =
      (bufferAt (g.heap.getD data []) (g.loopIndex - g.loopFuncIndex - diff), g) := by
  have := SerieWrapper_G data diff 0 g
  simpa [Serie.G] using this

theorem Custom_B_Get (s : Serie F) (steps : Int) (u : F → F) (g : GoQuant F) :
    ((s.B steps).Custom u).Get g = (u ((s.B steps).Get g).1, ((s.B steps).Get g).2) := by
  simp [Serie.B, NewWrapper, Serie.Custom, Serie.addOperation, Serie.Get, applyOperations,
    applyOperation, OpCustom]

/-- The read of the true range that `atr` builds, on an engine whose price series are
buffers: with the current high `h` and low `l` (numbers), the previous close `c` and a
previous high that is not NA, it is `max(max(h - l, h - |c|), |l - c|)`. -/
theorem atrTrueRange_Get (g : GoQuant F) (dh dl dc : Nat) (fh fl fc : Int) (h l c : F)
    (hhigh : g.high = some (dh, fh)) (hlow : g.low = some (dl, fl))
    (hclose : g.close = some (dc, fc))
    (vh : bufferAt (g.heap.getD dh []) (g.loopIndex - g.loopFuncIndex - fh) = h)
    (vl : bufferAt (g.heap.getD dl []) (g.loopIndex - g.loopFuncIndex - fl) = l)
    (vc : bufferAt (g.heap.getD dc []) (g.loopIndex - (g.loopFuncIndex + 1) - fc) = c)
    (nh : GoFloat.isNaN h = false) (nl : GoFloat.isNaN l = false)
    (hprev : NA (bufferAt (g.heap.getD dh []) (g.loopIndex - (g.loopFuncIndex + 1) - fh)) =
      false) :
    ((atrTrueRange g).1.Get (atrTrueRange g).2).1 =
      GoFloat.max (GoFloat.max (h - l) (h - GoFloat.abs c)) (GoFloat.abs (l - c)) := by
  have hc1 : ((Serie.SerieWrapper dc [] fc : Serie F).B 1).Get g = (c, g) := by
    have := SerieWrapper_G dc fc 1 g
    simp only [Serie.G, one_ne_zero, if_false, vc] at this
    exact this
  have hl0 := SerieWrapper_Get_at dl fl g
  rw [vl] at hl0
  have r1 : ((Serie.SerieWrapper dh [] fh : Serie F).Sub
      (Value.serie (Serie.SerieWrapper dl [] fl))).Get g = (h - l, g) := by
    simp only [Serie.Sub, Serie.addOperation, List.nil_append,
      SerieWrapper_Get_operations dh _ fh g h vh nh, applyOperations, applyOperation, OpSub,
      arith, hl0]
    simp
  have r2 : ((Serie.SerieWrapper dh [] fh : Serie F).Sub
      (Value.serie (((Serie.SerieWrapper dc [] fc : Serie F).B 1).Custom GoFloat.abs))).Get g =
      (h - GoFloat.abs c, g) := by
    simp only [Serie.Sub, Serie.addOperation, List.nil_append,
      SerieWrapper_Get_operations dh _ fh g h vh nh, applyOperations, applyOperation, OpSub,
      arith, Custom_B_Get, hc1]
    simp
  have r3 : (((Serie.SerieWrapper dl [] fl : Serie F).Sub
      (Value.serie ((Serie.SerieWrapper dc [] fc : Serie F).B 1))).Custom GoFloat.abs).Get g =
      (GoFloat.abs (l - c), g) := by
    simp only [Serie.Sub, Serie.Custom, Serie.addOperation, List.nil_append,
      SerieWrapper_Get_operations dl _ fl g l vl nl, applyOperations_append, applyOperations,
      applyOperation, OpSub, OpCustom, arith, hc1]
    simp
  simp only [atrTrueRange, hhigh, hlow, hclose, recorded, SerieWrapper_G, hprev,
    Bool.false_eq_true, if_false]
  simp only [Max, NewWrapper_Get, r1, r2, r3]

theorem XFloat_trueRange (h l c : ℚ) (hlh : l ≤ h) (hc : 0 ≤ c) :
    GoFloat.max (GoFloat.max (XFloat.fin h - XFloat.fin l)
        (XFloat.fin h - GoFloat.abs (XFloat.fin c))) (GoFloat.abs (XFloat.fin l - XFloat.fin c)) =
      GoFloat.max (GoFloat.max (XFloat.fin h - XFloat.fin l)
        (GoFloat.abs (XFloat.fin h - XFloat.fin c))) (GoFloat.abs (XFloat.fin l - XFloat.fin c)) := by
  show XFloat.max (XFloat.max (XFloat.add (XFloat.fin h) (XFloat.neg (XFloat.fin l)))
      (XFloat.add (XFloat.fin h) (XFloat.neg (XFloat.abs (XFloat.fin c)))))
      (XFloat.abs (XFloat.add (XFloat.fin l) (XFloat.neg (XFloat.fin c)))) =
    XFloat.max (XFloat.max (XFloat.add (XFloat.fin h) (XFloat.neg (XFloat.fin l)))
      (XFloat.abs (XFloat.add (XFloat.fin h) (XFloat.neg (XFloat.fin c)))))
      (XFloat.abs (XFloat.add (XFloat.fin l) (XFloat.neg (XFloat.fin c))))
  simp only [XFloat.add, XFloat.neg, XFloat.abs, XFloat.max, XFloat.fin.injEq]
  split_ifs <;> linarith

/-- C28. On an engine whose price series are buffers, at a bar with the finite high `h` and
low `l`, `l ≤ h`, the finite previous close `c ≥ 0` and a previous high that is not NA:
the read of the true range that `atr` builds is the standard true range
`max(max(h - l, |h - c|), |l - c|)`, and so is the formula of the code,
`max(max(h - l, h - |c|), |l - c|)`. -/
theorem atrTrueRange_standard (g : GoQuant XFloat) (dh dl dc : Nat) (fh fl fc : Int)
    (h l c : ℚ) (hhigh : g.high = some (dh, fh)) (hlow : g.low = some (dl, fl))
    (hclose : g.close = some (dc, fc))
    (vh : bufferAt (g.heap.getD dh []) (g.loopIndex - g.loopFuncIndex - fh) = XFloat.fin h)
    (vl : bufferAt (g.heap.getD dl []) (g.loopIndex - g.loopFuncIndex - fl) = XFloat.fin l)
    (vc : bufferAt (g.heap.getD dc []) (g.loopIndex - (g.loopFuncIndex + 1) - fc) =
      XFloat.fin c)
    (hprev : NA (bufferAt (g.heap.getD dh []) (g.loopIndex - (g.loopFuncIndex + 1) - fh)) =
      false)
    (hlh : l ≤ h) (hc : 0 ≤ c) :
    ((atrTrueRange g).1.Get (atrTrueRange g).2).1 =
      GoFloat.max (GoFloat.max (XFloat.fin h - XFloat.fin l)
        (GoFloat.abs (XFloat.fin h - XFloat.fin c))) (GoFloat.abs (XFloat.fin l - XFloat.fin c)) ∧
    GoFloat.max (GoFloat.max (XFloat.fin h - XFloat.fin l)
        (XFloat.fin h - GoFloat.abs (XFloat.fin c))) (GoFloat.abs (XFloat.fin l - XFloat.fin c)) =
      GoFloat.max (GoFloat.max (XFloat.fin h - XFloat.fin l)
        (GoFloat.abs (XFloat.fin h - XFloat.fin c))) (GoFloat.abs (XFloat.fin l - XFloat.fin c)) := by
  refine ⟨?_, XFloat_trueRange h l c hlh hc⟩
  rw [atrTrueRange_Get g dh dl dc fh fl fc (XFloat.fin h) (XFloat.fin l) (XFloat.fin c) hhigh
    hlow hclose vh vl vc rfl rfl hprev]
  exact XFloat_trueRange h l c hlh hc

/-- C28 at bar 1 of the closes 10, 11, 12: high 11, low 3, previous close 10. -/
theorem atrTrueRange_standard_witness :
    ((atrTrueRange secondBarEngine).1.Get (atrTrueRange secondBarEngine).2).1 =
      GoFloat.max (GoFloat.max (XFloat.fin 11 - XFloat.fin 3)
        (GoFloat.abs (XFloat.fin 11 - XFloat.fin 10)))
        (GoFloat.abs (XFloat.fin 3 - XFloat.fin 10)) ∧
    GoFloat.max (GoFloat.max (XFloat.fin 11 - XFloat.fin 3)
        (XFloat.fin 11 - GoFloat.abs (XFloat.fin 10)))
        (GoFloat.abs (XFloat.fin 3 - XFloat.fin 10)) =
      GoFloat.max (GoFloat.max (XFloat.fin 11 - XFloat.fin 3)
        (GoFloat.abs (XFloat.fin 11 - XFloat.fin 10)))
        (GoFloat.abs (XFloat.fin 3 - XFloat.fin 10)) :=
  atrTrueRange_standard secondBarEngine 2 3 1 0 0 0 11 3 10 rfl rfl rfl (by decide!)
    (by decide!) (by decide!) (by decide!) (by norm_num) (by norm_num)

/-- The true range at bar 1 of the closes 10, 11, 12, evaluated: 8. -/
theorem atrTrueRange_scenario :
    ((atrTrueRange secondBarEngine).1.Get (atrTrueRange secondBarEngine).2).1 =
      XFloat.fin 8 := by
  decide!

/-- C29 (the code at the failing input). `IsLastBar()` compares the cursor with
`len(g.bars)`, so it is false at every bar of the loop of `Logic`: a strategy that plots
it on four bars plots 0 four times, the bar 3 included; it is true only for the cursor 4,
past the last bar.  `IsFirstBar()` is true at bar 0. -/
theorem IsLastBar_during_Logic :
    (∀ g : GoQuant XFloat, g.loopIndex < (g.bars.length : Int) → g.IsLastBar = false) ∧
    exampleBars.length = 4 ∧
    (Logic (New exampleBars) lastBarStrategy).map
      (fun g' => (mapGet g'.plotStorage "last").map
        (fun pd => pd.Data.map (fun p => (p.Index, p.Value)))) =
      some (some [(0, some (XFloat.fin 0)), (1, some (XFloat.fin 0)),
        (2, some (XFloat.fin 0)), (3, some (XFloat.fin 0))]) ∧
    (Logic (New exampleBars) firstBarStrategy).map
      (fun g' => (mapGet g'.plotStorage "first").map
        (fun pd => pd.Data.map (fun p => (p.Index, p.Value)))) =
      some (some [(0, some (XFloat.fin 1)), (1, some (XFloat.fin 0)),
        (2, some (XFloat.fin 0)), (3, some (XFloat.fin 0))]) ∧
    ({ New exampleBars with loopIndex := 3 } : GoQuant XFloat).IsLastBar = false ∧
    ({ New exampleBars with loopIndex := 4 } : GoQuant XFloat).IsLastBar = true := by
  refine ⟨?_, by decide!, by decide!, by decide!, by decide!, by decide!⟩
  intro g hlt
  simp only [GoQuant.IsLastBar, decide_eq_false_iff_not]
  omega

theorem nilPoints_mem (bars : List (Bar F)) (lo : Int) (n : Nat) (i : Int) (hlo : lo ≤ i)
    (hhi : i < lo + n) :
    ({ Value := none, Index := i, Time := barTime bars i } : PlotPoint F) ∈ nilPoints bars lo n := by
  simp only [nilPoints, List.mem_map, List.mem_range]
  refine ⟨(i - lo).toNat, by omega, ?_⟩
  have e : lo + ((i - lo).toNat : Int) = i := by omega
  rw [e]

/-- C7. For a plot label whose emitted list has strictly ascending indices in
`[0, bar_count)`, `FillTheGaps` (the body run for that label) returns a list that keeps
every emitted point, unchanged and in the same order; when the emitted list is not empty the
result has one point per bar, at the indices `0, 1, ..., bar_count - 1` in this order, the
point `{absent, i, bars[i].time}` is in it for every `i` in `[0, first)` and in
`(last, bar_count)`, and every point of the result at an index below the first emitted index
or above the last one has an absent value and the time of the bar at its index; a label whose
emitted list is empty is left untouched. -/
theorem fillPlotData_keeps_emitted (bars : List (Bar F)) (plotData : PlotData F)
    (hrange : ∀ pt ∈ plotData.Data, 0 ≤ pt.Index ∧ pt.Index < bars.length)
    (hasc : List.Pairwise (fun a b => a.Index < b.Index) plotData.Data) :
    ∃ filled, fillPlotData bars plotData = some filled ∧
      filled.Config = plotData.Config ∧
      List.Sublist plotData.Data filled.Data ∧
      (plotData.Data = [] → filled = plotData) ∧
      ∀ first last, plotData.Data.head? = some first → plotData.Data.getLast? = some last →
        filled.Data.map (fun pt => pt.Index) = intRange 0 bars.length ∧
        (∀ i : Int, (0 ≤ i ∧ i < first.Index) ∨ (last.Index < i ∧ i < bars.length) →
          ∃ bar, barAt bars i = some bar ∧
            { Value := none, Index := i, Time := GoFloat.toInt bar.Time } ∈ filled.Data) ∧
        ∀ pt ∈ filled.Data, pt.Index < first.Index ∨ last.Index < pt.Index →
          pt.Value = none ∧
          ∃ bar, barAt bars pt.Index = some bar ∧ pt.Time = GoFloat.toInt bar.Time := by
  obtain ⟨data, config⟩ := plotData
  simp only at hrange hasc ⊢
  cases data with
  | nil => exact ⟨_, rfl, rfl, List.Sublist.refl _, fun _ => rfl, by simp⟩
  | cons first rest =>
    have hf := hrange first (List.mem_cons_self _ _)
    have hl := hrange _ (List.getLast_mem (List.cons_ne_nil first rest))
    have hfl := Ascending.head_le_last first rest hasc
    refine ⟨_, fillPlotData_eq bars first rest config (by omega) (by omega) (by omega), rfl,
      ?_, by simp, ?_⟩
    · simp only [filledPoints]
      exact List.Sublist.trans
        (List.Sublist.trans (List.Sublist.cons₂ first (sublist_gapBody first rest))
          (List.sublist_append_right _ _))
        (List.sublist_append_left _ _)
    · intro first' last' hfirst hlast
      simp only [List.head?_cons, Option.some.injEq] at hfirst
      rw [List.getLast?_eq_getLast _ (List.cons_ne_nil first rest)] at hlast
      simp only [Option.some.injEq] at hlast
      subst hfirst
      rw [← hlast]
      refine ⟨filledPoints_index bars first rest hasc hf.1 hl.2, ?_, ?_⟩
      · intro i hi
        obtain ⟨bar, hbar⟩ : ∃ bar, barAt bars i = some bar :=
          barAt_isSome bars i (by omega) (by omega)
        refine ⟨bar, hbar, ?_⟩
        have ht : GoFloat.toInt bar.Time = barTime bars i := by simp [barTime, hbar]
        rw [ht]
        simp only [filledPoints, List.mem_append, List.mem_cons]
        rcases hi with hi | hi
        · exact Or.inl (Or.inl (nilPoints_mem bars 0 _ i hi.1 (by omega)))
        · exact Or.inr (nilPoints_mem bars _ _ i (by omega) (by omega))
      · intro pt hpt hout
        simp only [filledPoints, List.mem_append, List.mem_cons] at hpt
        rcases hpt with (h1 | h1 | h1) | h1
        · exact mem_nilPoints bars 0 _ pt h1 (le_refl 0) (by omega)
        · subst h1; omega
        · have hmem : pt.Index ∈ (gapBody first rest).map (fun (p : PlotPoint F) => p.Index) :=
            List.mem_map_of_mem _ h1
          rw [gapBody_index first rest hasc] at hmem
          have := mem_intRange _ _ _ hmem
          omega
        · exact mem_nilPoints bars _ _ pt h1 (by omega) (by omega)

/-- C7 at a plot with points at the bars 1 and 2 of four bars (a point is added at bar 0 and
at bar 3) and at a label without points. -/
theorem fillPlotData_keeps_emitted_witness :
    (∃ filled, fillPlotData exampleBars innerScenario = some filled ∧
      filled.Config = innerScenario.Config ∧
      List.Sublist innerScenario.Data filled.Data ∧
      (innerScenario.Data = [] → filled = innerScenario) ∧
      ∀ first last, innerScenario.Data.head? = some first →
        innerScenario.Data.getLast? = some last →
        filled.Data.map (fun pt => pt.Index) = intRange 0 exampleBars.length ∧
        (∀ i : Int, (0 ≤ i ∧ i < first.Index) ∨ (last.Index < i ∧ i < exampleBars.length) →
          ∃ bar, barAt exampleBars i = some bar ∧
            { Value := none, Index := i, Time := GoFloat.toInt bar.Time } ∈ filled.Data) ∧
        ∀ pt ∈ filled.Data, pt.Index < first.Index ∨ last.Index < pt.Index →
          pt.Value = none ∧
          ∃ bar, barAt exampleBars pt.Index = some bar ∧ pt.Time = GoFloat.toInt bar.Time) ∧
    (∃ filled, fillPlotData exampleBars emptyScenario = some filled ∧
      filled.Config = emptyScenario.Config ∧
      List.Sublist emptyScenario.Data filled.Data ∧
      (emptyScenario.Data = [] → filled = emptyScenario) ∧
      ∀ first last, emptyScenario.Data.head? = some first →
        emptyScenario.Data.getLast? = some last →
        filled.Data.map (fun pt => pt.Index) = intRange 0 exampleBars.length ∧
        (∀ i : Int, (0 ≤ i ∧ i < first.Index) ∨ (last.Index < i ∧ i < exampleBars.length) →
          ∃ bar, barAt exampleBars i = some bar ∧
            { Value := none, Index := i, Time := GoFloat.toInt bar.Time } ∈ filled.Data) ∧
        ∀ pt ∈ filled.Data, pt.Index < first.Index ∨ last.Index < pt.Index →
          pt.Value = none ∧
          ∃ bar, barAt exampleBars pt.Index = some bar ∧ pt.Time = GoFloat.toInt bar.Time) ∧
    (fillPlotData exampleBars innerScenario).map (fun filled => filled.Data) =
      some [{ Value := none, Index := 0, Time := 100 },
            { Value := some (XFloat.fin 20), Index := 1, Time := 200 },
            { Value := some (XFloat.fin 30), Index := 2, Time := 300 },
            { Value := none, Index := 3, Time := 400 }] ∧
    fillPlotData exampleBars emptyScenario = some emptyScenario :=
  ⟨fillPlotData_keeps_emitted exampleBars innerScenario (by decide) (by decide),
    fillPlotData_keeps_emitted exampleBars emptyScenario (by decide) (by decide),
    by decide!, rfl⟩

theorem noneRejected_iff_strict (v : Int → F) (leftBars righBars : Int)
    (hw : windowNumbers v leftBars righBars) :
    (noneRejected (fun x => GoFloat.le (v righBars) x) v leftBars righBars ↔
      allNeighbours (fun centre x => GoFloat.lt x centre) v leftBars righBars) ∧
    (noneRejected (fun x => GoFloat.le x (v righBars)) v leftBars righBars ↔
      allNeighbours (fun centre x => GoFloat.lt centre x) v leftBars righBars) := by
  obtain ⟨hc, hl, hr⟩ := hw
  simp only [noneRejected, allNeighbours]
  constructor
  · constructor
    · rintro ⟨h1, h2⟩
      exact ⟨fun i a b => (GoFloat.not_le_iff_lt _ _ hc (hl i a b)).1 (h1 i a b),
        fun i a b => (GoFloat.not_le_iff_lt _ _ hc (hr i a b)).1 (h2 i a b)⟩
    · rintro ⟨h1, h2⟩
      exact ⟨fun i a b => (GoFloat.not_le_iff_lt _ _ hc (hl i a b)).2 (h1 i a b),
        fun i a b => (GoFloat.not_le_iff_lt _ _ hc (hr i a b)).2 (h2 i a b)⟩
  · constructor
    · rintro ⟨h1, h2⟩
      exact ⟨fun i a b => (GoFloat.not_le_iff_lt _ _ (hl i a b) hc).1 (h1 i a b),
        fun i a b => (GoFloat.not_le_iff_lt _ _ (hr i a b) hc).1 (h2 i a b)⟩
    · rintro ⟨h1, h2⟩
      exact ⟨fun i a b => (GoFloat.not_le_iff_lt _ _ (hl i a b) hc).2 (h1 i a b),
        fun i a b => (GoFloat.not_le_iff_lt _ _ (hr i a b) hc).2 (h2 i a b)⟩

/-- C23 (amended). For every source series whose reads `src.G(k)` have the values `v k` at
the bar, and every `L`, `R`: `pivothigh(L, R, src).Get()` is True when no neighbour of the
window (`v (R+i)`, `1 ≤ i ≤ L`, and `v (R-i)`, `1 ≤ i ≤ R`) satisfies `neighbour >= centre`
with `centre = v R`, and False otherwise; `pivotlow` likewise with `<=`.  When no value of
the window is NaN (the centre and these `L + R` neighbours; values outside the window may
be NaN) `pivothigh` is True when `neighbour < centre` holds of every neighbour of the
window and False otherwise, and `pivotlow` is True when `neighbour > centre` holds of every
neighbour and False otherwise; when the centre is NaN no comparison holds and both are
True. -/
theorem pivot_Get (src : Serie F) (rest : List (Serie F)) (g0 : GoQuant F)
    (leftBars righBars : Int) (g : GoQuant F) (reached : GoQuant F → Prop) (v : Int → F)
    (hg : reached g)
    (hv : ∀ (g' : GoQuant F) (k : Int), reached g' →
      (src.G k g').1 = v k ∧ reached (src.G k g').2) :
    (noneRejected (fun x => GoFloat.le (v righBars) x) v leftBars righBars →
      ((pivotHigh g0 leftBars righBars (src :: rest)).Get g).1 = TrueValue) ∧
    (¬ noneRejected (fun x => GoFloat.le (v righBars) x) v leftBars righBars →
      ((pivotHigh g0 leftBars righBars (src :: rest)).Get g).1 = FalseValue) ∧
    (noneRejected (fun x => GoFloat.le x (v righBars)) v leftBars righBars →
      ((pivotLow g0 leftBars righBars (src :: rest)).Get g).1 = TrueValue) ∧
    (¬ noneRejected (fun x => GoFloat.le x (v righBars)) v leftBars righBars →
      ((pivotLow g0 leftBars righBars (src :: rest)).Get g).1 = FalseValue) ∧
    (windowNumbers v leftBars righBars →
      (allNeighbours (fun centre x => GoFloat.lt x centre) v leftBars righBars →
        ((pivotHigh g0 leftBars righBars (src :: rest)).Get g).1 = TrueValue) ∧
      (¬ allNeighbours (fun centre x => GoFloat.lt x centre) v leftBars righBars →
        ((pivotHigh g0 leftBars righBars (src :: rest)).Get g).1 = FalseValue) ∧
      (allNeighbours (fun centre x => GoFloat.lt centre x) v leftBars righBars →
        ((pivotLow g0 leftBars righBars (src :: rest)).Get g).1 = TrueValue) ∧
      (¬ allNeighbours (fun centre x => GoFloat.lt centre x) v leftBars righBars →
        ((pivotLow g0 leftBars righBars (src :: rest)).Get g).1 = FalseValue)) ∧
    (v righBars = GoFloat.nan →
      ((pivotHigh g0 leftBars righBars (src :: rest)).Get g).1 = TrueValue ∧
      ((pivotLow g0 leftBars righBars (src :: rest)).Get g).1 = TrueValue) := by
  have hhigh := pivotWith_Get src leftBars righBars (fun centre x => GoFloat.le centre x) g
    reached v hg hv
  have hlow := pivotWith_Get src leftBars righBars (fun centre x => GoFloat.le x centre) g
    reached v hg hv
  rw [pivotHigh_eq, pivotLow_eq]
  refine ⟨hhigh.1, hhigh.2, hlow.1, hlow.2, ?_, ?_⟩
  · intro hw
    obtain ⟨e1, e2⟩ := noneRejected_iff_strict v leftBars righBars hw
    exact ⟨fun h => hhigh.1 (e1.2 h), fun h => hhigh.2 (fun h' => h (e1.1 h')),
      fun h => hlow.1 (e2.2 h), fun h => hlow.2 (fun h' => h (e2.1 h'))⟩
  · intro hnan
    constructor
    · apply hhigh.1
      rw [hnan]
      exact ⟨fun _ _ _ => GoFloat.nan_le _, fun _ _ _ => GoFloat.nan_le _⟩
    · apply hlow.1
      rw [hnan]
      exact ⟨fun _ _ _ => GoFloat.le_nan _, fun _ _ _ => GoFloat.le_nan _⟩

theorem peakValue_window (i : Int) (h1 : 1 ≤ i) (h2 : i ≤ 1) :
    peakValue (1 + i) = XFloat.fin 1 ∧ peakValue (1 - i) = XFloat.fin 2 ∧
      peakValue 1 = XFloat.fin 3 := by
  have : i = 1 := by omega
  subst this
  decide!

/-- C23 (amended) at the closes 1, 3, 2 read at bar 2 with `L = R = 1`: the centre is 3,
the neighbours are 1 and 2, no value of the window is NaN, every neighbour is below the
centre and none above it, so `pivothigh` is True and `pivotlow` is False. -/
theorem pivot_Get_witness :
    windowNumbers peakValue 1 1 ∧
    allNeighbours (fun centre x => GoFloat.lt x centre) peakValue 1 1 ∧
    ¬ allNeighbours (fun centre x => GoFloat.lt centre x) peakValue 1 1 ∧
    ((pivotHigh peakEngine 1 1 [Serie.SerieWrapper 1 [] 0]).Get peakEngine).1 = TrueValue ∧
    ((pivotLow peakEngine 1 1 [Serie.SerieWrapper 1 [] 0]).Get peakEngine).1 = FalseValue ∧
    (peakValue 1 = GoFloat.nan →
      ((pivotHigh peakEngine 1 1 [Serie.SerieWrapper 1 [] 0]).Get peakEngine).1 = TrueValue ∧
      ((pivotLow peakEngine 1 1 [Serie.SerieWrapper 1 [] 0]).Get peakEngine).1 = TrueValue) :=
  have hw : windowNumbers peakValue 1 1 :=
    ⟨by decide!, fun i h1 h2 => by rw [(peakValue_window i h1 h2).1]; rfl,
      fun i h1 h2 => by rw [(peakValue_window i h1 h2).2.1]; rfl⟩
  have hhigh : allNeighbours (fun centre x => GoFloat.lt x centre) peakValue 1 1 :=
    ⟨fun i h1 h2 => by
        rw [(peakValue_window i h1 h2).1, (peakValue_window i h1 h2).2.2]; decide!,
      fun i h1 h2 => by
        rw [(peakValue_window i h1 h2).2.1, (peakValue_window i h1 h2).2.2]; decide!⟩
  have hlow : ¬ allNeighbours (fun centre x => GoFloat.lt centre x) peakValue 1 1 :=
    fun h => by
      have := h.1 1 (le_refl 1) (le_refl 1)
      revert this
      decide!
  have h := pivot_Get (Serie.SerieWrapper 1 [] 0) [] peakEngine 1 1 peakEngine
    (fun g => g = peakEngine) peakValue rfl
    (fun g' k hg' => by
      subst hg'
      rw [SerieWrapper_G]
      exact ⟨rfl, rfl⟩)
  ⟨hw, hhigh, hlow, (h.2.2.2.2.1 hw).1 hhigh, (h.2.2.2.2.1 hw).2.2.2 hlow, h.2.2.2.2.2⟩

/-- C25. For every series `s` built from materialized series, `B`, arithmetic derivation
and the library indicators, every `k` and every engine state: when `s.Get()`, `s.G(k)` or
`s.B(k).Get()` returns normally (no panic is recorded in the state it leaves), the value of
`func_offset` is its value at entry; so it is after `barssince(cond).Get()` and
`valuewhen(s, cond, n).Get()` for every condition that restores it (as a comparison of
reads of such series does); and a bar loop that reads `s` at every bar, entered with
`func_offset = 0`, ends with `func_offset = 0` when it ends normally. -/
theorem func_offset_restored (s : Serie F) (hs : Built s) (k : Int) (bars : Nat)
    (g : GoQuant F) :
    ((s.Get g).2.panicked = false → (s.Get g).2.loopFuncIndex = g.loopFuncIndex) ∧
    ((s.G k g).2.panicked = false → (s.G k g).2.loopFuncIndex = g.loopFuncIndex) ∧
    (((s.B k).Get g).2.panicked = false → ((s.B k).Get g).2.loopFuncIndex = g.loopFuncIndex) ∧
    (∀ cond : GoQuant F → Bool × GoQuant F, CondKeepsOffset cond →
      (((barsSince cond).Get g).2.panicked = false →
        ((barsSince cond).Get g).2.loopFuncIndex = g.loopFuncIndex) ∧
      ∀ (g0 : GoQuant F) (n : Int),
        ((valueWhen g0 s cond n).1.Get g).2.panicked = false →
        ((valueWhen g0 s cond n).1.Get g).2.loopFuncIndex = g.loopFuncIndex) ∧
    CondKeepsOffset (fun g' => (GoFloat.eq (s.G k g').1 TrueValue, (s.G k g').2)) ∧
    (g.loopFuncIndex = 0 → (readEachBar (fun _ => s) bars g).2.panicked = false →
      (readEachBar (fun _ => s) bars g).2.loopFuncIndex = 0) := by
  have h := hs.scoped
  refine ⟨fun _ => Serie.scoped_Get s h g, fun _ => Serie.scoped_G s h k g,
    fun _ => Serie.scoped_Get _ (Serie.scoped_B s h k) g, ?_,
    fun g' => Serie.scoped_G s h k g', fun h0 _ => readEachBar_offset s h bars g h0⟩
  intro cond hc
  exact ⟨fun _ => Serie.scoped_Get _ (scoped_barsSince cond hc) g,
    fun g0 n _ => Serie.scoped_Get _ (scoped_valueWhen g0 s h cond hc n) g⟩

/-- C25 at the RSI of length 2 of the close series over the closes 10, 11, 12: read at bar
2 directly and one bar back, under `barssince` and `valuewhen` with the condition
`rsi.G(1) == True`, and read at each of the three bars from bar 0 on; every read returns
normally and leaves `func_offset` at 0. -/
theorem func_offset_restored_witness :
    (rsiTwo.Get lastBarEngine).2.panicked = false ∧
    (rsiTwo.Get lastBarEngine).2.loopFuncIndex = lastBarEngine.loopFuncIndex ∧
    (rsiTwo.G 1 lastBarEngine).2.panicked = false ∧
    (rsiTwo.G 1 lastBarEngine).2.loopFuncIndex = lastBarEngine.loopFuncIndex ∧
    ((rsiTwo.B 1).Get lastBarEngine).2.panicked = false ∧
    ((rsiTwo.B 1).Get lastBarEngine).2.loopFuncIndex = lastBarEngine.loopFuncIndex ∧
    ((barsSince rsiWasTrue).Get lastBarEngine).2.panicked = false ∧
    ((barsSince rsiWasTrue).Get lastBarEngine).2.loopFuncIndex = lastBarEngine.loopFuncIndex ∧
    ((valueWhen lastBarEngine rsiTwo rsiWasTrue 0).1.Get
      (valueWhen lastBarEngine rsiTwo rsiWasTrue 0).2).2.panicked = false ∧
    ((valueWhen lastBarEngine rsiTwo rsiWasTrue 0).1.Get
      (valueWhen lastBarEngine rsiTwo rsiWasTrue 0).2).2.loopFuncIndex =
      (valueWhen lastBarEngine rsiTwo rsiWasTrue 0).2.loopFuncIndex ∧
    (readEachBar (fun _ => rsiTwo) 3 threeBarsEngine).2.panicked = false ∧
    (readEachBar (fun _ => rsiTwo) 3 threeBarsEngine).2.loopFuncIndex = 0 :=
  have h := func_offset_restored rsiTwo (Built.rsi _ _ _ (Built.materialized 1 0)) 1 3
    lastBarEngine
  have hw := func_offset_restored rsiTwo (Built.rsi _ _ _ (Built.materialized 1 0)) 1 3
    (valueWhen lastBarEngine rsiTwo rsiWasTrue 0).2
  have h0 := func_offset_restored rsiTwo (Built.rsi _ _ _ (Built.materialized 1 0)) 1 3
    threeBarsEngine
  have p1 : (rsiTwo.Get lastBarEngine).2.panicked = false := by decide!
  have p2 : (rsiTwo.G 1 lastBarEngine).2.panicked = false := by decide!
  have p3 : ((rsiTwo.B 1).Get lastBarEngine).2.panicked = false := by decide!
  have p4 : ((barsSince rsiWasTrue).Get lastBarEngine).2.panicked = false := by decide!
  have p5 : ((valueWhen lastBarEngine rsiTwo rsiWasTrue 0).1.Get
      (valueWhen lastBarEngine rsiTwo rsiWasTrue 0).2).2.panicked = false := by decide!
  have p6 : (readEachBar (fun _ => rsiTwo) 3 threeBarsEngine).2.panicked = false := by decide!
  ⟨p1, h.1 p1, p2, h.2.1 p2, p3, h.2.2.1 p3, p4, (h.2.2.2.1 rsiWasTrue h.2.2.2.2.1).1 p4, p5,
    (hw.2.2.2.1 rsiWasTrue hw.2.2.2.2.1).2 lastBarEngine 0 p5, p6, h0.2.2.2.2.2 rfl p6⟩

theorem filterMap_id_take_set {α : Type} (l : List (Option α)) (n : Nat) (x : α)
    (h : n < l.length) :
    ((l.set n (some x)).take (n + 1)).filterMap id = (l.take n).filterMap id ++ [x] := by
  induction l generalizing n with
  | nil => simp at h
  | cons a l ih =>
    cases n with
    | zero => simp
    | succ n =>
      simp only [List.set_cons_succ, List.take_succ_cons, List.filterMap_cons]
      have := ih n (by simpa using h)
      cases a with
      | none => simpa using this
      | some a => simp only [id, this, List.cons_append]

theorem take_set_self {α : Type} (l : List α) (n : Nat) (x : α) :
    (l.set n x).take n = l.take n := by
  induction l generalizing n with
  | nil => simp
  | cons a l ih =>
    cases n with
    | zero => simp
    | succ n => simp [ih]

theorem goAppend_valid (arrays : List (List (Option (Nat × Value F)))) (s : OpSlice)
    (operation : Nat × Value F) (h : s.valid arrays) :
    readSlice (goAppend arrays s operation).2 (goAppend arrays s operation).1 =
      readSlice arrays s ++ [operation] ∧
    readSlice (goAppend arrays s operation).2 s = readSlice arrays s ∧
    (goAppend arrays s operation).1.valid (goAppend arrays s operation).2 ∧
    (goAppend arrays s operation).1.len = s.len + 1 := by
  obtain ⟨h1, h2, h3⟩ := h
  unfold goAppend
  by_cases hlt : s.len < s.cap
  · have harr : s.array < arrays.length := by
      by_contra hge
      rw [List.getD_eq_default _ _ (by omega)] at h2
      simp at h2
      omega
    have hself : (arrays.set s.array ((arrays.getD s.array []).set s.len (some operation))).getD
        s.array [] = (arrays.getD s.array []).set s.len (some operation) := by
      simp [List.getD_eq_getElem?_getD, List.getElem?_set_self, harr]
    simp only [if_pos hlt, readSlice, hself, OpSlice.valid]
    refine ⟨filterMap_id_take_set _ _ _ (by omega), by rw [take_set_self],
      ⟨by omega, ?_, ?_⟩, trivial⟩
    · rw [List.length_set]; exact h2
    · intro slot hslot
      rw [List.take_succ, List.mem_append] at hslot
      rcases hslot with hs | hs
      · rw [take_set_self] at hs
        exact h3 slot hs
      · rw [List.getElem?_set_self (by omega)] at hs
        simp only [Option.toList, List.mem_singleton] at hs
        rw [hs]
        rfl
  · have hlen : s.len = s.cap := by omega
    have htake : ((arrays.getD s.array []).take s.len).length = s.len := by
      rw [List.length_take]; omega
    simp only [if_neg hlt, readSlice, OpSlice.valid]
    have hnew : (arrays ++ [(arrays.getD s.array []).take s.len ++
        some operation :: List.replicate ((if s.cap = 0 then 1 else 2 * s.cap) - s.len - 1) none]).getD
        arrays.length [] = (arrays.getD s.array []).take s.len ++
        some operation :: List.replicate ((if s.cap = 0 then 1 else 2 * s.cap) - s.len - 1) none := by
      simp [List.getD_eq_getElem?_getD]
    refine ⟨?_, ?_, ⟨?_, ?_, ?_⟩, trivial⟩
    · rw [hnew, List.take_append_eq_append_take, htake,
        List.take_of_length_le
          (by omega : (List.take s.len (arrays.getD s.array [])).length ≤ s.len + 1)]
      have : s.len + 1 - s.len = 1 := by omega
      rw [this]
      simp [List.filterMap_append]
    · by_cases harr : s.array < arrays.length
      · simp [List.getD_eq_getElem?_getD, List.getElem?_append_left harr]
      · have h0 : s.len = 0 := by
          rw [List.getD_eq_default _ _ (by omega)] at h2
          simp at h2
          omega
        simp [h0]
    · split <;> omega
    · rw [hnew]
      simp only [List.length_append, htake, List.length_cons, List.length_replicate]
      split <;> omega
    · rw [hnew, List.take_append_eq_append_take, htake,
        List.take_of_length_le
          (by omega : (List.take s.len (arrays.getD s.array [])).length ≤ s.len + 1)]
      intro slot hslot
      rw [List.mem_append] at hslot
      rcases hslot with hs | hs
      · exact h3 slot hs
      · have : s.len + 1 - s.len = 1 := by omega
        rw [this] at hs
        simp at hs
        rw [hs]
        rfl

theorem take_set_of_le {α : Type} (l : List α) (n m : Nat) (x : α) (h : n ≤ m) :
    (l.set m x).take n = l.take n := by
  induction l generalizing n m with
  | nil => simp
  | cons a l ih =>
    cases n with
    | zero => simp
    | succ n =>
      cases m with
      | zero => omega
      | succ m => simp [ih n m (by omega)]

/-- An `append` to the slice `t` leaves the elements of every valid slice `u` that is not
longer than `t` as they were (whether or not `u` shares the backing array of `t`), and `u`
stays valid. -/
theorem goAppend_other (arrays : List (List (Option (Nat × Value F)))) (t u : OpSlice)
    (operation : Nat × Value F) (ht : t.valid arrays) (hlen : u.len ≤ t.len)
    (hu : u.valid arrays) :
    readSlice (goAppend arrays t operation).2 u = readSlice arrays u ∧
    u.valid (goAppend arrays t operation).2 := by
  obtain ⟨h1, h2, h3⟩ := ht
  obtain ⟨u1, u2, u3⟩ := hu
  have hkeep : ((goAppend arrays t operation).2.getD u.array []).take u.len =
      (arrays.getD u.array []).take u.len ∧
      (arrays.getD u.array []).length ≤ ((goAppend arrays t operation).2.getD u.array []).length := by
    unfold goAppend
    by_cases hlt : t.len < t.cap
    · simp only [if_pos hlt]
      by_cases harr : t.array = u.array
      · have hin : t.array < arrays.length := by
          by_contra hge
          rw [List.getD_eq_default _ _ (by omega)] at h2
          simp at h2
          omega
        have hself : (arrays.set t.array ((arrays.getD t.array []).set t.len (some operation))).getD
            u.array [] = (arrays.getD u.array []).set t.len (some operation) := by
          rw [← harr]
          simp [List.getD_eq_getElem?_getD, List.getElem?_set_self, hin]
        rw [hself, take_set_of_le _ _ _ _ hlen, List.length_set]
        exact ⟨rfl, le_refl _⟩
      · have hother : (arrays.set t.array ((arrays.getD t.array []).set t.len (some operation))).getD
            u.array [] = arrays.getD u.array [] := by
          simp [List.getD_eq_getElem?_getD, List.getElem?_set_ne harr]
        rw [hother]
        exact ⟨rfl, le_refl _⟩
    · simp only [if_neg hlt]
      by_cases harr : u.array < arrays.length
      · have hother : ∀ x : List (Option (Nat × Value F)),
            (arrays ++ [x]).getD u.array [] = arrays.getD u.array [] := by
          intro x
          simp [List.getD_eq_getElem?_getD, List.getElem?_append_left harr]
        rw [hother]
        exact ⟨rfl, le_refl _⟩
      · have hnil : arrays.getD u.array [] = [] := List.getD_eq_default _ _ (by omega)
        have h0 : u.len = 0 := by
          rw [hnil] at u2
          simp at u2
          omega
        rw [h0, hnil]
        simp
  refine ⟨?_, u1, ?_, ?_⟩
  · simp only [readSlice, hkeep.1]
  · exact le_trans u2 hkeep.2
  · rw [hkeep.1]
    exact u3

/-- The list model of `addOperation` is what a read sees of the series that the method on
slices returns, as long as no other series is derived from the same receiver afterwards;
the receiver is read as before, and the slice of the result is valid again, one element
longer than that of the receiver. -/
theorem SlicedSerie.addOperation_now (arrays : List (List (Option (Nat × Value F))))
    (s : SlicedSerie F) (opType : Nat) (value : Value F) (h : s.operations.valid arrays) :
    (s.addOperation arrays opType value).1.now (s.addOperation arrays opType value).2 =
      (s.now arrays).addOperation opType value ∧
    s.now (s.addOperation arrays opType value).2 = s.now arrays ∧
    (s.addOperation arrays opType value).1.operations.valid
      (s.addOperation arrays opType value).2 ∧
    (s.addOperation arrays opType value).1.operations.len = s.operations.len + 1 := by
  cases s with
  | SerieWrapper data operations diff =>
    obtain ⟨e1, e2, e3, e4⟩ := goAppend_valid arrays operations (opType, value) h
    simp only [SlicedSerie.addOperation, SlicedSerie.now, Serie.addOperation,
      SlicedSerie.operations, e1, e2]
    exact ⟨trivial, trivial, e3, e4⟩
  | CustomSerieWrapper f operations cacheKey =>
    obtain ⟨e1, e2, e3, e4⟩ := goAppend_valid arrays operations (opType, value) h
    simp only [SlicedSerie.addOperation, SlicedSerie.now, Serie.addOperation,
      SlicedSerie.operations, e1, e2]
    exact ⟨trivial, trivial, e3, e4⟩

/-- A derivation from the series `t` leaves every series `u` whose operation slice is valid
and not longer than that of `t` as it was read before. -/
theorem SlicedSerie.addOperation_other (arrays : List (List (Option (Nat × Value F))))
    (t u : SlicedSerie F) (opType : Nat) (value : Value F) (ht : t.operations.valid arrays)
    (hlen : u.operations.len ≤ t.operations.len) (hu : u.operations.valid arrays) :
    u.now (t.addOperation arrays opType value).2 = u.now arrays ∧
    u.operations.valid (t.addOperation arrays opType value).2 := by
  have key : ∀ x : OpSlice, x = t.operations →
      (t.addOperation arrays opType value).2 = (goAppend arrays x (opType, value)).2 := by
    intro x hx
    subst hx
    cases t <;> rfl
  rw [key _ rfl]
  obtain ⟨e1, e2⟩ := goAppend_other arrays t.operations u.operations (opType, value) ht hlen hu
  refine ⟨?_, e2⟩
  cases u with
  | SerieWrapper data operations diff =>
    simp only [SlicedSerie.now, SlicedSerie.operations] at e1 ⊢
    rw [e1]
  | CustomSerieWrapper f operations cacheKey =>
    simp only [SlicedSerie.now, SlicedSerie.operations] at e1 ⊢
    rw [e1]

theorem Serie.Get_of_agrees (s : Serie F) (g : GoQuant F) (h : s.cacheAgrees g) :
    (s.Get g).1 = (s.evaluate g).1 := by
  cases s with
  | SerieWrapper data operations diff => rfl
  | CustomSerieWrapper f operations cacheKey =>
    simp only [Serie.cacheAgrees] at h
    simp only [Serie.Get, Serie.evaluate]
    by_cases hk : cacheKey = ""
    · simp [hk]
    · cases hc : cacheGet g.cache cacheKey (g.BarIndex - g.BarFuncIndex) with
      | none => simp [hk, hc]
      | some v => simp [hk, hc, h hk v hc]

/-- A read of a derived series: NaN where the receiver is a materialized series read out of
range, and otherwise the new operation applied to the receiver read past its cache. -/
theorem Serie.addOperation_Get (s : Serie F) (opType : Nat) (value : Value F) (g : GoQuant F) :
    (s.outOfRange g → (s.addOperation opType value).Get g = (GoFloat.nan, g) ∧
      s.Get g = (GoFloat.nan, g)) ∧
    (¬ s.outOfRange g → (s.addOperation opType value).Get g =
      applyOperation opType value (s.evaluate g).1 (s.evaluate g).2) := by
  cases s with
  | SerieWrapper data operations diff =>
    simp only [Serie.outOfRange, Serie.addOperation, Serie.Get, Serie.evaluate]
    constructor
    · intro hout
      simp only [if_pos hout]
      exact ⟨trivial, trivial⟩
    · intro hin
      simp only [if_neg hin]
      cases hget : (g.heap.getD data []).get? (g.BarIndex - g.BarFuncIndex - diff).toNat with
      | none =>
        exfalso
        rw [List.get?_eq_none] at hget
        apply hin
        right
        omega
      | some result => simp only [applyOperations_append, applyOperations]
  | CustomSerieWrapper f operations cacheKey =>
    simp only [Serie.outOfRange, Serie.addOperation, Serie.Get, Serie.evaluate]
    simp [applyOperations_append, applyOperations]

theorem Serie.addOperation_evaluate (s : Serie F) (opType : Nat) (value : Value F)
    (g : GoQuant F) :
    (s.addOperation opType value).evaluate g = (s.addOperation opType value).Get g ∧
    ((s.addOperation opType value).outOfRange g ↔ s.outOfRange g) := by
  cases s with
  | SerieWrapper data operations diff => exact ⟨rfl, Iff.rfl⟩
  | CustomSerieWrapper f operations cacheKey =>
    simp [Serie.addOperation, Serie.evaluate, Serie.Get, Serie.outOfRange]

theorem Serie.Mul_Add_agrees (s : Serie F) (a b : F) (g : GoQuant F) (h : s.cacheAgrees g) :
    (((s.Mul (Value.float a)).Add (Value.float b)).Get g).1 = a * (s.Get g).1 + b := by
  obtain ⟨hout, hin⟩ := Serie.addOperation_Get s OpMul (Value.float a) g
  obtain ⟨hout', hin'⟩ := Serie.addOperation_Get (s.addOperation OpMul (Value.float a)) OpAdd
    (Value.float b) g
  obtain ⟨hev, hor⟩ := Serie.addOperation_evaluate s OpMul (Value.float a) g
  simp only [Serie.Mul, Serie.Add]
  by_cases ho : s.outOfRange g
  · rw [(hout' (hor.2 ho)).1, (hout ho).2, GoFloat.mul_comm', GoFloat.nan_mul, GoFloat.nan_add]
  · rw [hin' (fun h' => ho (hor.1 h')), hev, hin ho, Serie.Get_of_agrees s g h]
    simp only [applyOperation, arith, OpMul, OpAdd]
    rw [GoFloat.mul_comm']

/-- C10 (amended). For every series `s` whose operation slice is valid, constants `a`, `b`
and engine state in which the cache does not disagree with `s` (a materialized series, a
wrapper without cache label, a cached wrapper with no entry at the current label and
effective index, or with the entry its own thunk and pipeline give there):
`s.Mul(a).Add(b).Get()`, read once the series is derived, equals `a * s.Get() + b`; and
the two `append` calls of the derivation leave the operations that `s` and `s.Mul(a)` are
read with as they were, so `s.Get()` returns after the derivation what it returned before
it. -/
theorem Mul_Add_Get (arrays : List (List (Option (Nat × Value F)))) (s : SlicedSerie F)
    (a b : F) (g : GoQuant F) (hvalid : s.operations.valid arrays)
    (hagree : (s.now arrays).cacheAgrees g) :
    (((s.MulAdd arrays a b).1.now (s.MulAdd arrays a b).2).Get g).1 =
      a * ((s.now arrays).Get g).1 + b ∧
    s.now (s.MulAdd arrays a b).2 = s.now arrays ∧
    (s.now (s.MulAdd arrays a b).2).Get g = (s.now arrays).Get g ∧
    (s.Mul arrays (Value.float a)).1.now (s.MulAdd arrays a b).2 =
      (s.now arrays).Mul (Value.float a) := by
  obtain ⟨e1, e2, e3, e4⟩ := SlicedSerie.addOperation_now arrays s OpMul (Value.float a) hvalid
  obtain ⟨f1, f2, _⟩ := SlicedSerie.addOperation_now (s.addOperation arrays OpMul (Value.float a)).2
    (s.addOperation arrays OpMul (Value.float a)).1 OpAdd (Value.float b) e3
  have hs : s.now (s.MulAdd arrays a b).2 = s.now arrays := by
    have hread := SlicedSerie.addOperation_other arrays s s OpMul (Value.float a) hvalid
      (le_refl _) hvalid
    have hread2 := SlicedSerie.addOperation_other (s.addOperation arrays OpMul (Value.float a)).2
      (s.addOperation arrays OpMul (Value.float a)).1 s OpAdd (Value.float b) e3
      (by rw [e4]; omega) hread.2
    simp only [SlicedSerie.MulAdd, SlicedSerie.Mul, SlicedSerie.Add]
    rw [hread2.1, hread.1]
  refine ⟨?_, hs, by rw [hs], ?_⟩
  · simp only [SlicedSerie.MulAdd, SlicedSerie.Mul, SlicedSerie.Add]
    rw [f1, e1]
    exact Serie.Mul_Add_agrees (s.now arrays) a b g hagree
  · simp only [SlicedSerie.MulAdd, SlicedSerie.Mul, SlicedSerie.Add]
    rw [f2, e1]
    rfl
theorem firstCached_agrees (operations : List (Nat × Value XFloat)) (h : operations = []) :
    (Serie.CustomSerieWrapper (fun g => (XFloat.fin 1, g)) operations "x").cacheAgrees
      cachedEngine := by
  subst h
  intro _ v hv
  have hc : cacheGet cachedEngine.cache "x" (cachedEngine.BarIndex - cachedEngine.BarFuncIndex) =
      some (XFloat.fin 1) := by decide!
  rw [hc] at hv
  exact (Option.some.inj hv).symm

/-- C10 (amended) at the wrapper `firstCached` read where the cache holds the entry of its
own earlier read (a cache hit), and at a buffer series with two operations. -/
theorem Mul_Add_Get_witness :
    ((((firstCachedSliced.MulAdd [] (XFloat.fin 3) (XFloat.fin 1)).1.now
        (firstCachedSliced.MulAdd [] (XFloat.fin 3) (XFloat.fin 1)).2).Get cachedEngine).1 =
      XFloat.fin 3 * ((firstCachedSliced.now []).Get cachedEngine).1 + XFloat.fin 1 ∧
    firstCachedSliced.now (firstCachedSliced.MulAdd [] (XFloat.fin 3) (XFloat.fin 1)).2 =
      firstCachedSliced.now [] ∧
    (firstCachedSliced.now
        (firstCachedSliced.MulAdd [] (XFloat.fin 3) (XFloat.fin 1)).2).Get cachedEngine =
      (firstCachedSliced.now []).Get cachedEngine ∧
    (firstCachedSliced.Mul [] (Value.float (XFloat.fin 3))).1.now
        (firstCachedSliced.MulAdd [] (XFloat.fin 3) (XFloat.fin 1)).2 =
      (firstCachedSliced.now []).Mul (Value.float (XFloat.fin 3))) ∧
    (firstCached.cacheHit cachedEngine ∧
      ((firstCachedSliced.now []).Get cachedEngine).1 = XFloat.fin 1 ∧
      (((firstCachedSliced.MulAdd [] (XFloat.fin 3) (XFloat.fin 1)).1.now
        (firstCachedSliced.MulAdd [] (XFloat.fin 3) (XFloat.fin 1)).2).Get cachedEngine).1 =
        XFloat.fin 4) ∧
    ((((twoOps.1.MulAdd twoOps.2 (XFloat.fin 3) (XFloat.fin 1)).1.now
        (twoOps.1.MulAdd twoOps.2 (XFloat.fin 3) (XFloat.fin 1)).2).Get bufferEngine).1 =
      XFloat.fin 3 * ((twoOps.1.now twoOps.2).Get bufferEngine).1 + XFloat.fin 1 ∧
    twoOps.1.now (twoOps.1.MulAdd twoOps.2 (XFloat.fin 3) (XFloat.fin 1)).2 =
      twoOps.1.now twoOps.2 ∧
    (twoOps.1.now (twoOps.1.MulAdd twoOps.2 (XFloat.fin 3) (XFloat.fin 1)).2).Get bufferEngine =
      (twoOps.1.now twoOps.2).Get bufferEngine ∧
    (twoOps.1.Mul twoOps.2 (Value.float (XFloat.fin 3))).1.now
        (twoOps.1.MulAdd twoOps.2 (XFloat.fin 3) (XFloat.fin 1)).2 =
      (twoOps.1.now twoOps.2).Mul (Value.float (XFloat.fin 3))) :=
  ⟨Mul_Add_Get [] firstCachedSliced (XFloat.fin 3) (XFloat.fin 1) cachedEngine
      (by unfold OpSlice.valid; decide!) (firstCached_agrees _ rfl),
    ⟨(by
      show "x" ≠ "" ∧ cacheGet cachedEngine.cache "x"
        (cachedEngine.BarIndex - cachedEngine.BarFuncIndex) ≠ none
      decide!), by decide!, by decide!⟩,
    Mul_Add_Get twoOps.2 twoOps.1 (XFloat.fin 3) (XFloat.fin 1) bufferEngine
      (by unfold OpSlice.valid; decide!) trivial⟩

/-- C10 (as stated). With the cache entry that `firstCached` left under the label `x`,
`secondCached.Get()` is the cached 1 while `secondCached.Mul(3).Add(1).Get()` evaluates the
thunk afresh: it is 7, not `3 * 1 + 1`.  And with `m := s.Mul(3)` in an array of spare
capacity (`s` is a buffer series with two operations, read as 6 at the buffer slot 3),
`d := m.Add(1)` reads 19 until `e := m.Sub(5)` is derived from the same `m`; from then on
`d.Get()` is `3 * 6 - 5 = 13`. -/
theorem Mul_Add_Get_counterexample :
    ((secondCached.Get cachedEngine).1 = XFloat.fin 1 ∧
    (((secondCached.Mul (Value.float (XFloat.fin 3))).Add
        (Value.float (XFloat.fin 1))).Get cachedEngine).1 = XFloat.fin 7 ∧
    (((secondCached.Mul (Value.float (XFloat.fin 3))).Add
        (Value.float (XFloat.fin 1))).Get cachedEngine).1 ≠
      XFloat.fin 3 * (secondCached.Get cachedEngine).1 + XFloat.fin 1) ∧
    (((twoOps.1.now twoOps.2).Get bufferEngine).1 = XFloat.fin 6 ∧
    ((addOfMul.1.now addOfMul.2).Get bufferEngine).1 = XFloat.fin 19 ∧
    ((addOfMul.1.now subOfMul.2).Get bufferEngine).1 = XFloat.fin 13 ∧
    ((addOfMul.1.now subOfMul.2).Get bufferEngine).1 ≠
      XFloat.fin 3 * ((twoOps.1.now subOfMul.2).Get bufferEngine).1 + XFloat.fin 1) := by
  decide!

/-- C12 (amended). For every series `s` whose operation slice is valid, unary function `f`
and cursor position at which the cache does not disagree with `s`: `s.Custom(f).Get()`,
read once the series is derived, equals `f(s.Get())` unless `s` is a materialized series
read out of range; there `s.Get()` and `s.Custom(f).Get()` are both NaN, the pipeline not
being applied.  The derivation leaves `s` as it was read before. -/
theorem Custom_Get (arrays : List (List (Option (Nat × Value F)))) (s : SlicedSerie F)
    (f : F → F) (g : GoQuant F) (hvalid : s.operations.valid arrays)
    (hagree : (s.now arrays).cacheAgrees g) :
    (¬ (s.now arrays).outOfRange g →
      (((s.Custom arrays f).1.now (s.Custom arrays f).2).Get g).1 =
        f ((s.now arrays).Get g).1) ∧
    ((s.now arrays).outOfRange g →
      (((s.Custom arrays f).1.now (s.Custom arrays f).2).Get g).1 = GoFloat.nan ∧
      ((s.now arrays).Get g).1 = GoFloat.nan) ∧
    s.now (s.Custom arrays f).2 = s.now arrays := by
  obtain ⟨e1, e2, _, _⟩ := SlicedSerie.addOperation_now arrays s OpCustom (Value.func f) hvalid
  obtain ⟨hout, hin⟩ := Serie.addOperation_Get (s.now arrays) OpCustom (Value.func f) g
  simp only [SlicedSerie.Custom]
  rw [e1]
  refine ⟨?_, ?_, e2⟩
  · intro ho
    rw [hin ho, Serie.Get_of_agrees _ g hagree]
    simp [applyOperation, OpCustom]
  · intro ho
    rw [(hout ho).1, (hout ho).2]
    exact ⟨rfl, rfl⟩

/-- C12 (amended) at the wrapper `firstCached` read where the cache holds the entry of its
own earlier read (a cache hit), and at a buffer series read in range of its buffer. -/
theorem Custom_Get_witness :
    (((firstCachedSliced.Custom [] (fun x => x + x)).1.now
        (firstCachedSliced.Custom [] (fun x => x + x)).2).Get cachedEngine).1 =
      (fun x => x + x) ((firstCachedSliced.now []).Get cachedEngine).1 ∧
    (((firstCachedSliced.Custom [] (fun x => x + x)).1.now
        (firstCachedSliced.Custom [] (fun x => x + x)).2).Get cachedEngine).1 = XFloat.fin 2 ∧
    firstCached.cacheHit cachedEngine ∧
    (((twoOps.1.Custom twoOps.2 GoFloat.abs).1.now
        (twoOps.1.Custom twoOps.2 GoFloat.abs).2).Get bufferEngine).1 =
      GoFloat.abs ((twoOps.1.now twoOps.2).Get bufferEngine).1 ∧
    twoOps.1.now (twoOps.1.Custom twoOps.2 GoFloat.abs).2 = twoOps.1.now twoOps.2 :=
  ⟨(Custom_Get [] firstCachedSliced (fun x => x + x) cachedEngine
      (by unfold OpSlice.valid; decide!) (firstCached_agrees _ rfl)).1 (fun h => h),
    by decide!, (by
      show "x" ≠ "" ∧ cacheGet cachedEngine.cache "x"
        (cachedEngine.BarIndex - cachedEngine.BarFuncIndex) ≠ none
      decide!),
    (Custom_Get twoOps.2 twoOps.1 GoFloat.abs bufferEngine
      (by unfold OpSlice.valid; decide!) trivial).1 (by
        show ¬ (bufferEngine.BarIndex - bufferEngine.BarFuncIndex - 0 < 0 ∨
          bufferEngine.BarIndex - bufferEngine.BarFuncIndex - 0 ≥
            ((bufferEngine.heap.getD 0 []).length : Int))
        decide!),
    (Custom_Get twoOps.2 twoOps.1 GoFloat.abs bufferEngine
      (by unfold OpSlice.valid; decide!) trivial).2.2⟩

/-- C12 (as stated). At bar 0 with `func_offset = 1` the read of a buffer series is out of
range: `s.Get()` is NaN, and with `f` the constant 0 `s.Custom(f).Get()` is NaN too, not
`f(NaN) = 0`.  And with the cache entry 1 that `firstCached` left under the label `x`,
`secondCached.Get()` is 1 while `secondCached.Custom(f).Get()` with `f(x) = x + x`
evaluates the thunk afresh: it is `f(2) = 4`, not `f(1) = 2`. -/
theorem Custom_Get_counterexample :
    (((Serie.SerieWrapper 0 [] 0 : Serie XFloat).Get offsetEngine).1 = XFloat.nan ∧
    (((Serie.SerieWrapper 0 [] 0 : Serie XFloat).Custom (fun _ => XFloat.fin 0)).Get
      offsetEngine).1 = XFloat.nan ∧
    (((Serie.SerieWrapper 0 [] 0 : Serie XFloat).Custom (fun _ => XFloat.fin 0)).Get
      offsetEngine).1 ≠
      (fun _ => XFloat.fin 0) ((Serie.SerieWrapper 0 [] 0 : Serie XFloat).Get offsetEngine).1) ∧
    ((secondCached.Get cachedEngine).1 = XFloat.fin 1 ∧
    ((secondCached.Custom (fun x => x + x)).Get cachedEngine).1 = XFloat.fin 4 ∧
    ((secondCached.Custom (fun x => x + x)).Get cachedEngine).1 ≠
      (fun x => x + x) (secondCached.Get cachedEngine).1) := by
  decide!

/-- The loop of `sma` over a source whose reads `src.G(k)` at the state `g` have the values
`v k` and leave the state as it is. -/
theorem smaLoop_pure (src : Serie F) (v : Int → F) (g : GoQuant F)
    (hv : ∀ k : Int, src.G k g = (v k, g)) (n : Nat) (i : Int) (sum : F) :
    smaLoop src n i sum g =
      (sumFrom sum ((List.range n).map (fun (k : Nat) => v (i + (k : Int)))), g) := by
  induction n generalizing i sum with
  | zero => simp [smaLoop, sumFrom]
  | succ n ih =>
    simp only [smaLoop, hv, ih, sumFrom, List.range_succ_eq_map, List.map_cons,
      List.foldl_cons, List.map_map, Nat.cast_zero, add_zero]
    congr 2
    apply List.map_congr_left
    intro k _
    simp only [Function.comp]
    have : i + 1 + (k : Int) = i + ((k + 1 : Nat) : Int) := by push_cast; ring
    rw [this]

theorem sma_pure (src : Serie F) (v : Int → F) (g : GoQuant F)
    (hv : ∀ k : Int, src.G k g = (v k, g)) (length : F) :
    (sma src length).Get g =
      (sumFrom (GoFloat.ofInt 0)
        ((List.range (GoFloat.toInt length).toNat).map (fun (k : Nat) => v (k : Int))) / length,
        g) := by
  simp only [sma, NewWrapper_Get, smaLoop_pure src v g hv, zero_add]

/-- The read `src.Mul(volume).G(k)` of the product of two materialized series: the product
of the two slots at the same effective index, NaN where the source is out of range. -/
theorem product_G (data vol : Nat) (diff vdiff k : Int) (g : GoQuant F) :
    ((Serie.SerieWrapper data [] diff : Serie F).Mul
        (Value.serie (Serie.SerieWrapper vol [] vdiff))).G k g =
      (bufferAt (g.heap.getD data []) (g.loopIndex - (g.loopFuncIndex + k) - diff) *
        bufferAt (g.heap.getD vol []) (g.loopIndex - (g.loopFuncIndex + k) - vdiff), g) := by
  have hget : ∀ g' : GoQuant F, ((Serie.SerieWrapper data [] diff : Serie F).Mul
        (Value.serie (Serie.SerieWrapper vol [] vdiff))).Get g' =
      (bufferAt (g'.heap.getD data []) (g'.loopIndex - g'.loopFuncIndex - diff) *
        bufferAt (g'.heap.getD vol []) (g'.loopIndex - g'.loopFuncIndex - vdiff), g') := by
    intro g'
    obtain ⟨hout, hin⟩ := Serie.addOperation_Get (Serie.SerieWrapper data [] diff : Serie F)
      OpMul (Value.serie (Serie.SerieWrapper vol [] vdiff)) g'
    simp only [Serie.Mul]
    by_cases ho : (Serie.SerieWrapper data [] diff : Serie F).outOfRange g'
    · rw [(hout ho).1]
      have : bufferAt (g'.heap.getD data []) (g'.loopIndex - g'.loopFuncIndex - diff) =
          GoFloat.nan := by
        unfold bufferAt
        exact if_pos ho
      rw [this, GoFloat.nan_mul]
    · rw [hin ho]
      simp only [Serie.evaluate, SerieWrapper_Get_at, applyOperation, OpMul, arith]
      simp
  unfold Serie.G
  split
  · rename_i hk
    rw [hget, hk, add_zero]
  · rw [B_Get, hget, Decrease_Increase]
    rfl

/-- C19 (amended). `VWMA(src, n).Get()` is `SMA(src.Mul(volume), n).Get()` divided by
`SMA(volume, n).Get()`, read in this order.  At every cursor at which the cache does not
disagree with `src`, the product series `src.Mul(volume)` reads as `src.Get()` times
`volume.Get()`, the volume being read at the same cursor, in the state that the evaluation
of `src` leaves.  For a materialized source without operations the read is the closed form:
the sum over `k < n` of `src[e-k] * volume[e-k]` divided by the length, divided by the sum
of `volume[e-k]` divided by the length, `e` being the effective index, and a slot outside a
buffer being NaN. -/
theorem vwma_Get (src : Serie F) (length : F) (g : GoQuant F) :
    (vwma src length).Get g =
      (((sma (src.Mul (Value.serie (recorded g.volume))) length).Get g).1 /
        ((sma (recorded g.volume) length).Get
          ((sma (src.Mul (Value.serie (recorded g.volume))) length).Get g).2).1,
       ((sma (recorded g.volume) length).Get
          ((sma (src.Mul (Value.serie (recorded g.volume))) length).Get g).2).2) ∧
    (∀ (volume : Option (Nat × Int)) (g' : GoQuant F), src.cacheAgrees g' →
      ((src.Mul (Value.serie (recorded volume))).Get g').1 =
        (src.Get g').1 * ((recorded volume : Serie F).Get (src.evaluate g').2).1) ∧
    ∀ (data vol : Nat) (diff vdiff : Int), src = Serie.SerieWrapper data [] diff →
      g.volume = some (vol, vdiff) →
      (vwma src length).Get g =
        (sumFrom (GoFloat.ofInt 0) ((List.range (GoFloat.toInt length).toNat).map
            (fun (k : Nat) =>
              bufferAt (g.heap.getD data []) (g.loopIndex - g.loopFuncIndex - (k : Int) - diff) *
              bufferAt (g.heap.getD vol []) (g.loopIndex - g.loopFuncIndex - (k : Int) - vdiff)))
            / length /
          (sumFrom (GoFloat.ofInt 0) ((List.range (GoFloat.toInt length).toNat).map
            (fun (k : Nat) =>
              bufferAt (g.heap.getD vol []) (g.loopIndex - g.loopFuncIndex - (k : Int) - vdiff)))
            / length), g) := by
  have hfirst : (vwma src length).Get g =
      (((sma (src.Mul (Value.serie (recorded g.volume))) length).Get g).1 /
        ((sma (recorded g.volume) length).Get
          ((sma (src.Mul (Value.serie (recorded g.volume))) length).Get g).2).1,
       ((sma (recorded g.volume) length).Get
          ((sma (src.Mul (Value.serie (recorded g.volume))) length).Get g).2).2) := by
    simp only [vwma, NewWrapper_Get]
    simp only [sma, NewWrapper, Serie.Div, Serie.addOperation, List.nil_append, Serie.Get,
      applyOperations, applyOperation, arith, OpDiv]
    simp
  refine ⟨hfirst, ?_, ?_⟩
  · intro volume g' hagree
    obtain ⟨hout, hin⟩ := Serie.addOperation_Get src OpMul (Value.serie (recorded volume)) g'
    simp only [Serie.Mul]
    by_cases ho : src.outOfRange g'
    · rw [(hout ho).1, (hout ho).2, GoFloat.nan_mul]
    · rw [hin ho, Serie.Get_of_agrees src g' hagree]
      simp [applyOperation, OpMul, arith]
  · intro data vol diff vdiff hsrc hvol
    subst hsrc
    rw [hfirst, hvol]
    simp only [recorded]
    rw [sma_pure _ _ g (fun k => product_G data vol diff vdiff k g) length]
    simp only []
    rw [sma_pure _ _ g (fun k => SerieWrapper_G vol vdiff k g) length]
    simp only [sub_sub]

/-- C19 (amended) at the wrapper `firstCached` read where the cache holds the entry of its
own earlier read (a cache hit), and at the close series of three bars with the closes 10,
11, 12 and the volumes 1, read at bar 2 with `n = 2`. -/
theorem vwma_Get_witness :
    firstCached.cacheHit cachedEngine ∧
    ((firstCached.Mul (Value.serie (recorded (some (0, 0))))).Get cachedEngine).1 =
      (firstCached.Get cachedEngine).1 *
        ((recorded (some (0, 0)) : Serie XFloat).Get (firstCached.evaluate cachedEngine).2).1 ∧
    (vwma (Serie.SerieWrapper 1 [] 0) (XFloat.fin 2)).Get lastBarEngine =
      (sumFrom (GoFloat.ofInt 0) ((List.range (GoFloat.toInt (XFloat.fin 2)).toNat).map
          (fun (k : Nat) =>
            bufferAt (lastBarEngine.heap.getD 1 [])
              (lastBarEngine.loopIndex - lastBarEngine.loopFuncIndex - (k : Int) - 0) *
            bufferAt (lastBarEngine.heap.getD 4 [])
              (lastBarEngine.loopIndex - lastBarEngine.loopFuncIndex - (k : Int) - 0)))
          / XFloat.fin 2 /
        (sumFrom (GoFloat.ofInt 0) ((List.range (GoFloat.toInt (XFloat.fin 2)).toNat).map
          (fun (k : Nat) =>
            bufferAt (lastBarEngine.heap.getD 4 [])
              (lastBarEngine.loopIndex - lastBarEngine.loopFuncIndex - (k : Int) - 0)))
          / XFloat.fin 2), lastBarEngine) ∧
    ((vwma (Serie.SerieWrapper 1 [] 0) (XFloat.fin 2)).Get lastBarEngine).1 =
      XFloat.fin (23 / 2) :=
  ⟨(by
      show "x" ≠ "" ∧ cacheGet cachedEngine.cache "x"
        (cachedEngine.BarIndex - cachedEngine.BarFuncIndex) ≠ none
      decide!),
    (vwma_Get firstCached (XFloat.fin 2) cachedEngine).2.1 (some (0, 0)) cachedEngine
      (firstCached_agrees _ rfl),
    (vwma_Get (Serie.SerieWrapper 1 [] 0) (XFloat.fin 2) lastBarEngine).2.2 1 4 0 0 rfl
      (by decide!),
    by decide!⟩

theorem getD_take {α : Type} (l : List (List α)) (n data : Nat) (h : data < n) :
    (l.take n).getD data [] = l.getD data [] := by
  simp [List.getD_eq_getElem?_getD, List.getElem?_take, h]

/-- A materialized series without operations whose buffer is one of `heap0` is a source
read from `heap0`, with the value `buffer[e - diff]` at the effective index `e`. -/
theorem materialized_pure (data : Nat) (diff : Int) (heap0 : List (List F))
    (h : data < heap0.length) :
    PureSource (Serie.SerieWrapper data [] diff : Serie F)
      (fun e => bufferAt (heap0.getD data []) (e - diff)) heap0 := by
  intro g' hg'
  rw [SerieWrapper_Get_at, ← getD_take g'.heap heap0.length data h, hg']

theorem PureSource.G {src : Serie F} {srcAt : Int → F} {heap0 : List (List F)}
    (h : PureSource src srcAt heap0) (k : Int) (g' : GoQuant F)
    (hg' : g'.heap.take heap0.length = heap0) :
    src.G k g' = (srcAt (g'.loopIndex - g'.loopFuncIndex - k), g') := by
  unfold Serie.G
  split
  · rename_i hk
    rw [h g' hg', hk, sub_zero]
  · rw [B_Get, h (g'.IncreaseFuncIndex k) hg', Decrease_Increase]
    show (srcAt (g'.loopIndex - (g'.loopFuncIndex + k)), g') = _
    rw [sub_sub]

theorem PureSource.sma {src : Serie F} {srcAt : Int → F} {heap0 : List (List F)}
    (h : PureSource src srcAt heap0) (length : F) (m : Nat)
    (hlen : GoFloat.toInt length = m) :
    PureSource (sma src length) (smaAt srcAt length m) heap0 := by
  intro g' hg'
  rw [sma_pure src _ g' (fun k => h.G k g' hg') length, hlen, Int.toNat_ofNat]
  rfl

/-- One read of a recursive average between two bars: the value and the state it leaves. -/
theorem recursiveAverage_step (seed src : Serie F) (alpha : F) (lbl : String)
    (heap0 : List (List F)) (N k : Nat) (prev : F) (g : GoQuant F) (seedAt srcAt : Int → F)
    (hk : 1 ≤ k) (hkN : k < N) (hinv : RecInv lbl heap0 N k prev g)
    (hseed : PureSource seed seedAt heap0) (hsrc : PureSource src srcAt heap0) :
    ((recursiveAverage seed src alpha lbl).Get g).1 =
      (if NA prev then seedAt k else alpha * srcAt k + (GoFloat.ofInt 1 - alpha) * prev) ∧
    RecInv lbl heap0 N (k + 1)
      (if NA prev then seedAt k else alpha * srcAt k + (GoFloat.ofInt 1 - alpha) * prev)
      { ((recursiveAverage seed src alpha lbl).Get g).2 with
        loopIndex := ((recursiveAverage seed src alpha lbl).Get g).2.loopIndex + 1 } := by
  obtain ⟨h1, h2, hp, h3, h5, h6, h7, h8, h9⟩ := hinv
  have hmiss : cacheGet g.cache (BUILT_IN ++ lbl) (g.BarIndex - g.BarFuncIndex) = none := by
    apply h9
    simp [GoQuant.BarIndex, GoQuant.BarFuncIndex, h1, h2]
  have hprev : bufferAt (g.heap.getD heap0.length [])
      (g.loopIndex - (g.loopFuncIndex + 1) - 0) = prev := by
    unfold bufferAt
    rw [if_neg (by omega)]
    have e : (g.loopIndex - (g.loopFuncIndex + 1) - 0).toNat = k - 1 := by omega
    rw [e, List.getD_eq_getElem?_getD, ← List.get?_eq_getElem?, h8]
    rfl
  have hidx : g.loopIndex - g.loopFuncIndex = (k : Int) := by rw [h1, h2, sub_zero]
  have hs1 := hseed g h5
  have hs2 := hsrc g h5
  rw [hidx] at hs1 hs2
  have hget : (recursiveAverage seed src alpha lbl).Get g =
      ((if NA prev then seedAt k else alpha * srcAt k + (GoFloat.ofInt 1 - alpha) * prev),
        { g with
          heap := g.heap.set heap0.length ((g.heap.getD heap0.length []).set k
            (if NA prev then seedAt k else alpha * srcAt k + (GoFloat.ofInt 1 - alpha) * prev)),
          cache := cacheSet g.cache (BUILT_IN ++ lbl) k
            (if NA prev then seedAt k else alpha * srcAt k + (GoFloat.ofInt 1 - alpha) * prev) }) := by
    simp only [recursiveAverage, NewWrapper, Serie.Cache, Serie.Get, BUILT_IN_ne, ne_eq,
      not_false_eq_true, if_true, hmiss, GoQuant.NewEmptyStorage, GoQuant.NewStorage, h3,
      SerieWrapper_G, hprev, applyOperations]
    have hidx' : g.BarIndex - g.BarFuncIndex = (k : Int) := hidx
    cases hna : NA prev
    · simp only [Bool.false_eq_true, if_false, hs2, NZ_of_not_NA prev hna,
        SetAssign_now heap0.length _ g k h1 h2 (by rw [h7]; exact hkN), hidx']
    · simp only [if_true, hs1,
        SetAssign_now heap0.length _ g k h1 h2 (by rw [h7]; exact hkN), hidx']
  rw [hget]
  refine ⟨rfl, ?_, h2, hp, h3, ?_, ?_, ?_, ?_, ?_⟩
  · show g.loopIndex + 1 = ((k + 1 : Nat) : Int)
    rw [h1]; push_cast; rfl
  · show (g.heap.set heap0.length _).take heap0.length = heap0
    rw [take_set_self, h5]
  · show heap0.length < (g.heap.set heap0.length _).length
    rw [List.length_set]; exact h6
  · show ((g.heap.set heap0.length _).getD heap0.length []).length = N
    rw [getD_set_self _ _ _ h6, List.length_set, h7]
  · show ((g.heap.set heap0.length _).getD heap0.length []).get? (k + 1 - 1) = some _
    rw [getD_set_self _ _ _ h6, Nat.add_sub_cancel, List.get?_eq_getElem?,
      List.getElem?_set_self (by rw [h7]; exact hkN)]
  · intro j hj
    show cacheGet (cacheSet g.cache (BUILT_IN ++ lbl) k _) (BUILT_IN ++ lbl) j = none
    rw [cacheGet_cacheSet, if_neg (by push_cast at hj; omega)]
    apply h9
    push_cast at hj; omega

/-- The first read of a recursive average, at bar 0 with a fresh label and cache: the
storage is made, its slot -1 reads NaN, and the seed is stored. -/
theorem recursiveAverage_first (seed src : Serie F) (alpha : F) (lbl : String)
    (g : GoQuant F) (seedAt : Int → F)
    (h0 : g.loopIndex = 0) (hf : g.loopFuncIndex = 0) (hp : g.panicked = false)
    (hlabel : mapGet g.taStorage lbl = none)
    (hcache : mapGet g.cache (BUILT_IN ++ lbl) = none) (hN : 0 < g.bars.length)
    (hseed : PureSource seed seedAt g.heap) :
    ((recursiveAverage seed src alpha lbl).Get g).1 = seedAt 0 ∧
    RecInv lbl g.heap g.bars.length 1 (seedAt 0)
      { ((recursiveAverage seed src alpha lbl).Get g).2 with
        loopIndex := ((recursiveAverage seed src alpha lbl).Get g).2.loopIndex + 1 } := by
  have hmiss : cacheGet g.cache (BUILT_IN ++ lbl) (g.BarIndex - g.BarFuncIndex) = none := by
    simp [cacheGet, hcache]
  have hself : (g.heap ++ [List.replicate g.bars.length (GoFloat.ofInt 0 : F)]).getD
      g.heap.length [] = List.replicate g.bars.length (GoFloat.ofInt 0) := by
    rw [List.getD_eq_getElem?_getD, List.getElem?_append_right (le_refl _)]
    simp
  have hget : (recursiveAverage seed src alpha lbl).Get g =
      (seedAt 0,
        { g with
          heap := (g.heap ++ [List.replicate g.bars.length (GoFloat.ofInt 0)]).set g.heap.length
            ((List.replicate g.bars.length (GoFloat.ofInt 0)).set 0 (seedAt 0)),
          taStorage := mapSet g.taStorage lbl (g.heap.length, 0),
          cache := cacheSet g.cache (BUILT_IN ++ lbl) 0 (seedAt 0) }) := by
    have hnn : ¬ ((g.bars.length : Int) < 0) := by omega
    obtain ⟨g1, hg1⟩ : ∃ g1 : GoQuant F, g1 = { g with
        heap := g.heap ++ [List.replicate g.bars.length (GoFloat.ofInt 0)],
        taStorage := mapSet g.taStorage lbl (g.heap.length, 0) } := ⟨_, rfl⟩
    have hstore : g.NewEmptyStorage lbl = (Serie.SerieWrapper g.heap.length [] 0, g1) := by
      rw [hg1]
      simp only [GoQuant.NewEmptyStorage, GoQuant.NewStorage, hlabel, NewSerie, List.length_nil,
        if_true, hnn, if_false, Serie.record, GoQuant.BarIndex, h0, Int.toNat_ofNat]
    have e0 : g1.loopIndex = ((0 : Nat) : Int) := by rw [hg1]; exact h0
    have ef : g1.loopFuncIndex = 0 := by rw [hg1]; exact hf
    have eself : g1.heap.getD g.heap.length [] =
        List.replicate g.bars.length (GoFloat.ofInt 0) := by rw [hg1]; exact hself
    have eapp : g1.heap.take g.heap.length = g.heap := by rw [hg1]; simp
    have hG : (Serie.SerieWrapper g.heap.length [] 0 : Serie F).G 1 g1 = (GoFloat.nan, g1) := by
      rw [SerieWrapper_G, e0, ef, eself]
      unfold bufferAt
      rw [if_pos (Or.inl (by omega))]
    have hs := hseed g1 eapp
    rw [e0, ef] at hs
    simp only [Nat.cast_zero, sub_zero] at hs
    have hset := SetAssign_now g.heap.length (seedAt 0) g1 0 e0 ef
      (by rw [eself, List.length_replicate]; exact hN)
    simp only [recursiveAverage, NewWrapper, Serie.Cache, Serie.Get, BUILT_IN_ne, ne_eq,
      not_false_eq_true, if_true, hmiss, hstore, hG, NA_nan, hs, applyOperations, hset, eself]
    subst hg1
    simp only [GoQuant.BarIndex, GoQuant.BarFuncIndex, h0, hf, sub_zero]
  rw [hget]
  refine ⟨rfl, ?_, hf, hp, ?_, ?_, ?_, ?_, ?_, ?_⟩
  · show g.loopIndex + 1 = ((1 : Nat) : Int)
    rw [h0]; rfl
  · show mapGet (mapSet g.taStorage lbl (g.heap.length, 0)) lbl = some (g.heap.length, 0)
    rw [mapGet_mapSet, if_pos rfl]
  · show ((g.heap ++ [_]).set g.heap.length _).take g.heap.length = g.heap
    rw [take_set_self]
    simp
  · show g.heap.length < ((g.heap ++ [_]).set g.heap.length _).length
    simp
  · show (((g.heap ++ [_]).set g.heap.length _).getD g.heap.length []).length = g.bars.length
    rw [getD_set_self _ _ _ (by simp)]
    simp
  · show (((g.heap ++ [_]).set g.heap.length _).getD g.heap.length []).get? (1 - 1) = some _
    rw [getD_set_self _ _ _ (by simp), List.get?_eq_getElem?,
      List.getElem?_set_self (by simpa using hN)]
  · intro j hj
    show cacheGet (cacheSet g.cache (BUILT_IN ++ lbl) 0 _) (BUILT_IN ++ lbl) j = none
    rw [cacheGet_cacheSet, if_neg (by push_cast at hj; omega)]
    simp [cacheGet, hcache]

/-- The reads of a recursive average from bar `k ≥ 1` on are the values `recAt`, and the
run ends without a panic. -/
theorem recursiveAverage_reads_from (seed src : Serie F) (alpha : F) (lbl : String)
    (heap0 : List (List F)) (N : Nat) (seedAt srcAt : Int → F)
    (hseed : PureSource seed seedAt heap0) (hsrc : PureSource src srcAt heap0)
    (n : Nat) : ∀ (k : Nat) (g : GoQuant F), k + 1 + n ≤ N →
      RecInv lbl heap0 N (k + 1) (recAt alpha seedAt srcAt k) g →
      (readEachBar (fun _ => recursiveAverage seed src alpha lbl) n g).1 =
        (List.range n).map (fun t => recAt alpha seedAt srcAt (k + 1 + t)) ∧
      (readEachBar (fun _ => recursiveAverage seed src alpha lbl) n g).2.panicked = false := by
  induction n with
  | zero => intro k g _ hinv; exact ⟨rfl, hinv.2.2.1⟩
  | succ n ih =>
    intro k g hk hinv
    obtain ⟨hv, hnext⟩ := recursiveAverage_step seed src alpha lbl heap0 N (k + 1)
      (recAt alpha seedAt srcAt k) g seedAt srcAt (by omega) (by omega) hinv hseed hsrc
    have hrec : (if NA (recAt alpha seedAt srcAt k) then seedAt ((k + 1 : Nat) : Int)
        else alpha * srcAt ((k + 1 : Nat) : Int) +
          (GoFloat.ofInt 1 - alpha) * recAt alpha seedAt srcAt k) =
        recAt alpha seedAt srcAt (k + 1) := by
      simp only [recAt, Nat.cast_add, Nat.cast_one]
    rw [hrec] at hv hnext
    obtain ⟨ih1, ih2⟩ := ih (k + 1) _ (by omega) hnext
    refine ⟨?_, ih2⟩
    simp only [readEachBar, List.range_succ_eq_map, List.map_cons, List.map_map, hv,
      ih1, Nat.add_zero]
    congr 1
    apply List.map_congr_left
    intro t _
    simp only [Function.comp]
    congr 1
    omega

/-- The reads of a recursive average at the bars `0, ..., n-1`, from a fresh label and
cache, are the values `recAt`, and the run ends without a panic. -/
theorem recursiveAverage_reads (seed src : Serie F) (alpha : F) (lbl : String)
    (g : GoQuant F) (seedAt srcAt : Int → F) (n : Nat)
    (h0 : g.loopIndex = 0) (hf : g.loopFuncIndex = 0) (hp : g.panicked = false)
    (hlabel : mapGet g.taStorage lbl = none)
    (hcache : mapGet g.cache (BUILT_IN ++ lbl) = none) (hn : n ≤ g.bars.length)
    (hseed : PureSource seed seedAt g.heap) (hsrc : PureSource src srcAt g.heap) :
    (readEachBar (fun _ => recursiveAverage seed src alpha lbl) n g).1 =
      (List.range n).map (recAt alpha seedAt srcAt) ∧
    (readEachBar (fun _ => recursiveAverage seed src alpha lbl) n g).2.panicked = false := by
  cases n with
  | zero => exact ⟨rfl, hp⟩
  | succ n =>
    obtain ⟨hv, hnext⟩ := recursiveAverage_first seed src alpha lbl g seedAt h0 hf hp
      hlabel hcache (by omega) hseed
    obtain ⟨r1, r2⟩ := recursiveAverage_reads_from seed src alpha lbl g.heap g.bars.length
      seedAt srcAt hseed hsrc n 0 _ (by omega) hnext
    refine ⟨?_, r2⟩
    simp only [readEachBar, List.range_succ_eq_map, List.map_cons, List.map_map, hv, r1]
    congr 1
    apply List.map_congr_left
    intro t _
    simp only [Function.comp]
    congr 1
    omega

theorem recAt_mem_from (alpha : F) (seedAt srcAt : Int → F) (P : F → Prop) (n start : Nat)
    (hna : ∀ x, P x → NA x = false) (hstart : P (recAt alpha seedAt srcAt start))
    (hsrc : ∀ i : Nat, i < n → P (srcAt i))
    (hstep : ∀ x y, P x → P y → P (alpha * x + (GoFloat.ofInt 1 - alpha) * y)) :
    ∀ d : Nat, start + d < n → P (recAt alpha seedAt srcAt (start + d)) := by
  intro d
  induction d with
  | zero => intro _; exact hstart
  | succ d ih =>
    intro hi
    have hprev := ih (by omega)
    rw [← Nat.add_assoc]
    simp only [recAt, hna _ hprev, Bool.false_eq_true, if_false]
    have := hstep _ _ (hsrc (start + d + 1) hi) hprev
    push_cast at this
    push_cast
    exact this

theorem XFloat_weighted (a : ℚ) (x y : XFloat) (hx : NA x = false) (hy : NA y = false) :
    NA (XFloat.fin a * x + (GoFloat.ofInt 1 - XFloat.fin a) * y) = false := by
  cases x <;> cases y <;> first | rfl | exact absurd hx (by decide) | exact absurd hy (by decide)

theorem closeAt_number (i : Nat) (h : i < 3) : NA (closeAt i) = false := by
  interval_cases i <;> decide!

theorem closeAt_nan (j : Int) (h : j < 0) : closeAt j = GoFloat.nan := by
  unfold closeAt bufferAt
  rw [if_pos (Or.inl (by omega))]

theorem smaAt_nan (srcAt : Int → F) (length : F) (m i : Nat)
    (hneg : ∀ j : Int, j < 0 → srcAt j = GoFloat.nan) (h : i + 1 < m) :
    smaAt srcAt length m (i : Int) = GoFloat.nan := by
  unfold smaAt
  rw [sumFrom_mem_nan, GoFloat.nan_div]
  rw [List.mem_map]
  exact ⟨i + 1, List.mem_range.2 h, hneg _ (by push_cast; omega)⟩

theorem recAt_sma_nan (length alpha : F) (srcAt : Int → F) (m : Nat)
    (hneg : ∀ j : Int, j < 0 → srcAt j = GoFloat.nan) :
    ∀ i : Nat, i + 1 < m → recAt alpha (smaAt srcAt length m) srcAt i = GoFloat.nan := by
  intro i
  induction i with
  | zero =>
    intro h
    simp only [recAt]
    exact smaAt_nan srcAt length m 0 hneg h
  | succ i ih =>
    intro h
    simp only [recAt, ih (by omega), NA_nan, if_true]
    have := smaAt_nan srcAt length m (i + 1) hneg h
    push_cast at this
    exact this

theorem recAt_sma_seed (length alpha : F) (srcAt : Int → F) (m : Nat)
    (hneg : ∀ j : Int, j < 0 → srcAt j = GoFloat.nan) (hm : 1 ≤ m) :
    recAt alpha (smaAt srcAt length m) srcAt (m - 1) =
      smaAt srcAt length m ((m : Int) - 1) := by
  cases m with
  | zero => omega
  | succ m =>
    cases m with
    | zero => simp [recAt]
    | succ m =>
      have hnan := recAt_sma_nan length alpha srcAt (m + 1 + 1) hneg m (by omega)
      simp only [Nat.add_sub_cancel, recAt, hnan, NA_nan, if_true]
      congr 1
      push_cast
      ring

/-- C17 (amended). When `RMA(src, m, L).Get()` is read once at every bar from bar 0 on,
with a fresh label `L` (no storage and no cache entry), over a source that is read from the
buffers of the engine (as a materialized series is) with the values `src[i]`, NaN before
bar 0, and an integer length `m ≥ 1`, every read returns normally and the reads
`R[0], R[1], ...` are NaN at every bar `i < m-1`, the value of `SMA(src, m)` at bar `m-1`
(the sum of `src[m-1], ..., src[0]` divided by the length), and, at every bar `i + 1 ≥ m`:
`(1/m)*src[i+1] + (1 - 1/m)*R[i]` after a value `R[i]` that is a number, and the value of
`SMA(src, m)` at bar `i + 1` after a value `R[i]` that is NaN or infinite.  Whenever the
source values and the first mean lie in a set of numbers that is closed under
`(x, y) ↦ (1/m)*x + (1 - 1/m)*y` (no overflow), every read from bar `m-1` on lies in it and
the recurrence holds at every bar `i + 1 ≥ m`. -/
theorem rma_reads (src : Serie F) (srcAt : Int → F) (length : F) (lbl : String)
    (g : GoQuant F) (n m : Nat)
    (h0 : g.loopIndex = 0) (hf : g.loopFuncIndex = 0) (hp : g.panicked = false)
    (hlabel : mapGet g.taStorage lbl = none)
    (hcache : mapGet g.cache (BUILT_IN ++ lbl) = none) (hn : n ≤ g.bars.length)
    (hlen : GoFloat.toInt length = m) (hm : 1 ≤ m)
    (hsrc : PureSource src srcAt g.heap) (hneg : ∀ j : Int, j < 0 → srcAt j = GoFloat.nan) :
    (readEachBar (fun _ => rma src length lbl) n g).1.length = n ∧
    (readEachBar (fun _ => rma src length lbl) n g).2.panicked = false ∧
    (∀ i : Nat, i < n → i + 1 < m →
      (readEachBar (fun _ => rma src length lbl) n g).1.get? i = some GoFloat.nan) ∧
    (m ≤ n →
      (readEachBar (fun _ => rma src length lbl) n g).1.get? (m - 1) =
        some (sumFrom (GoFloat.ofInt 0) ((List.range m).map (fun (k : Nat) =>
          srcAt ((m : Int) - 1 - (k : Int)))) / length)) ∧
    (∀ (i : Nat) (prev : F), m ≤ i + 1 → i + 1 < n →
      (readEachBar (fun _ => rma src length lbl) n g).1.get? i = some prev →
      (NA prev = false →
        (readEachBar (fun _ => rma src length lbl) n g).1.get? (i + 1) =
          some (GoFloat.ofInt 1 / length * srcAt ((i : Int) + 1) +
            (GoFloat.ofInt 1 - GoFloat.ofInt 1 / length) * prev)) ∧
      (NA prev = true →
        (readEachBar (fun _ => rma src length lbl) n g).1.get? (i + 1) =
          some (smaAt srcAt length m ((i : Int) + 1)))) ∧
    ∀ P : F → Prop, (∀ x, P x → NA x = false) → (∀ i : Nat, i < n → P (srcAt i)) →
      P (smaAt srcAt length m ((m : Int) - 1)) →
      (∀ x y, P x → P y → P (GoFloat.ofInt 1 / length * x +
        (GoFloat.ofInt 1 - GoFloat.ofInt 1 / length) * y)) →
      (∀ (i : Nat) (e : F), m ≤ i + 1 →
        (readEachBar (fun _ => rma src length lbl) n g).1.get? i = some e → P e) ∧
      ∀ (i : Nat) (prev : F), m ≤ i + 1 → i + 1 < n →
        (readEachBar (fun _ => rma src length lbl) n g).1.get? i = some prev →
        (readEachBar (fun _ => rma src length lbl) n g).1.get? (i + 1) =
          some (GoFloat.ofInt 1 / length * srcAt ((i : Int) + 1) +
            (GoFloat.ofInt 1 - GoFloat.ofInt 1 / length) * prev) := by
  obtain ⟨hreads, hnopanic⟩ := recursiveAverage_reads (sma src length) src
    (GoFloat.ofInt 1 / length) lbl g (smaAt srcAt length m) srcAt n h0 hf hp hlabel hcache hn
    (hsrc.sma length m hlen) hsrc
  rw [rma_eq, hreads]
  have hmem : ∀ P : F → Prop, (∀ x, P x → NA x = false) → (∀ i : Nat, i < n → P (srcAt i)) →
      P (smaAt srcAt length m ((m : Int) - 1)) →
      (∀ x y, P x → P y → P (GoFloat.ofInt 1 / length * x +
        (GoFloat.ofInt 1 - GoFloat.ofInt 1 / length) * y)) →
      ∀ i : Nat, m ≤ i + 1 → i < n →
        P (recAt (GoFloat.ofInt 1 / length) (smaAt srcAt length m) srcAt i) := by
    intro P hna hsrcP hseedP hstep i hmi hi
    have hstart : P (recAt (GoFloat.ofInt 1 / length) (smaAt srcAt length m) srcAt (m - 1)) := by
      rw [recAt_sma_seed length _ srcAt m hneg hm]
      exact hseedP
    have := recAt_mem_from (GoFloat.ofInt 1 / length) (smaAt srcAt length m) srcAt P n (m - 1)
      hna hstart hsrcP hstep (i + 1 - m) (by omega)
    have e : m - 1 + (i + 1 - m) = i := by omega
    rw [e] at this
    exact this
  refine ⟨by simp, hnopanic, ?_, ?_, ?_, ?_⟩
  · intro i hi him
    rw [get?_map_range _ _ _ hi, recAt_sma_nan _ _ _ m hneg i him]
  · intro hmn
    rw [get?_map_range _ _ _ (by omega), recAt_sma_seed _ _ _ m hneg hm]
    rfl
  · intro i prev _ hi hprev
    rw [get?_map_range _ _ _ (by omega)] at hprev
    rw [get?_map_range _ _ _ hi]
    have hq := Option.some.inj hprev
    constructor
    · intro hna
      simp only [recAt, hq, hna, Bool.false_eq_true, if_false]
    · intro hna
      simp only [recAt, hq, hna, if_true]
  · intro P hna hsrcP hseedP hstep
    constructor
    · intro i e hmi he
      have hi : i < n := by
        by_contra hge
        rw [List.get?_eq_none.2 (by simp; omega)] at he
        exact absurd he (by simp)
      rw [get?_map_range _ _ _ hi] at he
      rw [← Option.some.inj he]
      exact hmem P hna hsrcP hseedP hstep i hmi hi
    · intro i prev hmi hi hprev
      rw [get?_map_range _ _ _ (by omega)] at hprev
      rw [get?_map_range _ _ _ hi]
      have hq := Option.some.inj hprev
      have hPprev : P prev := by
        rw [← hq]
        exact hmem P hna hsrcP hseedP hstep i hmi (by omega)
      simp only [recAt, hq, hna _ hPprev, Bool.false_eq_true, if_false]

/-- C17 (amended) at the closes 10, 11, 12 read for three bars with `m = 2` and the label
`L`: the read at bar 0 is NaN, the read at bar 1 is the mean of the first two closes, and
the read at bar 2 is a number that satisfies the recurrence. -/
theorem rma_reads_witness :
    (readEachBar (fun _ => rma (Serie.SerieWrapper 1 [] 0) (XFloat.fin 2) "L") 3
      threeBarsEngine).1.length = 3 ∧
    (readEachBar (fun _ => rma (Serie.SerieWrapper 1 [] 0) (XFloat.fin 2) "L") 3
      threeBarsEngine).2.panicked = false ∧
    (∀ i : Nat, i < 3 → i + 1 < 2 →
      (readEachBar (fun _ => rma (Serie.SerieWrapper 1 [] 0) (XFloat.fin 2) "L") 3
        threeBarsEngine).1.get? i = some GoFloat.nan) ∧
    (readEachBar (fun _ => rma (Serie.SerieWrapper 1 [] 0) (XFloat.fin 2) "L") 3
      threeBarsEngine).1.get? (2 - 1) =
      some (sumFrom (GoFloat.ofInt 0) ((List.range 2).map (fun (k : Nat) =>
        closeAt (((2 : Nat) : Int) - 1 - (k : Int)))) / XFloat.fin 2) ∧
    (∀ (i : Nat) (e : XFloat), 2 ≤ i + 1 →
      (readEachBar (fun _ => rma (Serie.SerieWrapper 1 [] 0) (XFloat.fin 2) "L") 3
        threeBarsEngine).1.get? i = some e → NA e = false) ∧
    ∀ (i : Nat) (prev : XFloat), 2 ≤ i + 1 → i + 1 < 3 →
      (readEachBar (fun _ => rma (Serie.SerieWrapper 1 [] 0) (XFloat.fin 2) "L") 3
        threeBarsEngine).1.get? i = some prev →
      (readEachBar (fun _ => rma (Serie.SerieWrapper 1 [] 0) (XFloat.fin 2) "L") 3
        threeBarsEngine).1.get? (i + 1) =
        some (GoFloat.ofInt 1 / XFloat.fin 2 * closeAt ((i : Int) + 1) +
          (GoFloat.ofInt 1 - GoFloat.ofInt 1 / XFloat.fin 2) * prev) :=
  have h := rma_reads (Serie.SerieWrapper 1 [] 0) closeAt (XFloat.fin 2) "L"
    threeBarsEngine 3 2 rfl rfl rfl rfl rfl (by decide!) (by decide!) (by decide)
    (materialized_pure 1 0 _ (by decide!)) closeAt_nan
  have hP := h.2.2.2.2.2 (fun x => NA x = false) (fun _ hx => hx)
    (fun i hi => closeAt_number i hi) (by decide!) (fun x y hx hy => by
      have ha : (GoFloat.ofInt 1 / XFloat.fin 2 : XFloat) = XFloat.fin (1 / 2) := by decide!
      show NA _ = false
      rw [ha]
      exact XFloat_weighted (1 / 2) x y hx hy)
  ⟨h.1, h.2.1, h.2.2.1, h.2.2.2.1 (by decide), hP.1, hP.2⟩

/-- C17 (as stated). On `float64` with its rounding, the closes `1e308`, `1e308`, 1 are
finite, and `RMA(close, 2)` read at every bar is NaN, then `+Inf` (the sum of the first mean
overflows), then the mean of the next window, `1e308/2` (the code seeds again after an
infinite value), where the claimed `(1/2)*src[2] + (1/2)*R[1]` is `+Inf`. -/
theorem rma_reads_counterexample :
    ((roundedEngine [10 ^ 308, 10 ^ 308, 1]).heap.getD 1 []).map (fun x => NA x) =
      [false, false, false] ∧
    (readEachBar (fun _ => rma (Serie.SerieWrapper 1 [] 0) ⟨XFloat.fin 2⟩ "L") 3
      (roundedEngine [10 ^ 308, 10 ^ 308, 1])).1 =
      [⟨XFloat.nan⟩, ⟨XFloat.pinf⟩, ⟨XFloat.rounded (XFloat.div (XFloat.round64 (10 ^ 308))
        (XFloat.fin 2))⟩] ∧
    (GoFloat.ofInt 1 / (⟨XFloat.fin 2⟩ : RFloat) * ⟨XFloat.fin 1⟩ +
      (GoFloat.ofInt 1 - GoFloat.ofInt 1 / (⟨XFloat.fin 2⟩ : RFloat)) * ⟨XFloat.pinf⟩ : RFloat) =
      ⟨XFloat.pinf⟩ ∧
    (⟨XFloat.pinf⟩ : RFloat) ≠
      ⟨XFloat.rounded (XFloat.div (XFloat.round64 (10 ^ 308)) (XFloat.fin 2))⟩ := by
  decide!

/-- The rounding to `float64` at 2/3, at a tie, at a subnormal value and at the overflow
threshold. -/
theorem round64_scenario :
    XFloat.round64 (2 / 3) = XFloat.fin (6004799503160661 / 9007199254740992) ∧
    XFloat.round64 (9007199254740993) = XFloat.fin 9007199254740992 ∧
    XFloat.round64 (9007199254740995) = XFloat.fin 9007199254740996 ∧
    XFloat.round64 (3 / 2 ^ 1075) = XFloat.fin (2 / 2 ^ 1074) ∧
    XFloat.round64 (1 / 2 ^ 1075) = XFloat.fin 0 ∧
    XFloat.round64 (2 ^ 1024 - 2 ^ 970) = XFloat.pinf ∧
    XFloat.round64 (2 ^ 1024 - 2 ^ 970 - 1) = XFloat.fin (2 ^ 1024 - 2 ^ 971) ∧
    XFloat.round64 (-(10 ^ 400)) = XFloat.ninf := by
  decide!

/-- Scenario 2 on `float64` with its rounding: with `close = [10, 11, 12]`, `EMA(close, 2)`
read at every bar is 10, 10.666666666666668 and 11.555555555555557. -/
theorem ema_scenario_float64 :
    (readEachBar (fun _ => ema (Serie.SerieWrapper 1 [] 0) ⟨XFloat.fin 2⟩ "L") 3
      (roundedEngine [10, 11, 12])).1 =
      [⟨XFloat.fin 10⟩, ⟨XFloat.fin (3002399751580331 / 281474976710656)⟩,
        ⟨XFloat.fin (813149932719673 / 70368744177664)⟩] := by
  decide!

/-- `RMA(close, 3)` over the closes 1, 2, 3, 4, 5 on `float64` with its rounding: NaN, NaN,
2, 2.666666666666667 and 3.4444444444444446. -/
theorem rma_scenario_float64 :
    (readEachBar (fun _ => rma (Serie.SerieWrapper 1 [] 0) ⟨XFloat.fin 3⟩ "L") 5
      (roundedEngine [1, 2, 3, 4, 5])).1 =
      [⟨XFloat.nan⟩, ⟨XFloat.nan⟩, ⟨XFloat.fin 2⟩,
        ⟨XFloat.fin (3002399751580331 / 1125899906842624)⟩,
        ⟨XFloat.fin (1939049839562297 / 562949953421312)⟩] := by
  decide!

theorem view_Increase (g1 g2 : GoQuant F) (steps : Int) (hv : g1.view = g2.view) :
    (g1.IncreaseFuncIndex steps).view = (g2.IncreaseFuncIndex steps).view := by
  rw [view_eq_iff] at hv ⊢
  obtain ⟨hi, hrest⟩ := hv
  refine ⟨?_, hrest⟩
  simp only [GoQuant.IncreaseFuncIndex]
  omega

theorem view_Decrease (g1 g2 : GoQuant F) (steps : Int) (hv : g1.view = g2.view) :
    (g1.DecreaseFuncIndex steps).view = (g2.DecreaseFuncIndex steps).view := by
  rw [view_eq_iff] at hv ⊢
  obtain ⟨hi, hrest⟩ := hv
  refine ⟨?_, hrest⟩
  simp only [GoQuant.DecreaseFuncIndex]
  omega

theorem respectsView_NewWrapper (f : GoQuant F → F × GoQuant F) (hf : ThunkRespectsView f) :
    Serie.respectsView (NewWrapper f) := by
  simp only [NewWrapper, Serie.respectsView, operationsRespectView, and_true]
  exact hf

theorem Serie.G_respectsView (s : Serie F) (hs : Serie.respectsView s) (k : Int) :
    ThunkRespectsView (s.G k) := by
  intro g1 g2 hv
  unfold Serie.G
  split
  · exact Serie.Get_respectsView s hs g1 g2 hv
  · exact Serie.Get_respectsView _ (Serie.B_respectsView s hs k) g1 g2 hv

theorem operationsRespectView_append (operations : List (Nat × Value F)) (opType : Nat)
    (value : Value F) (h : operationsRespectView operations) (hv : Value.respectsView value) :
    operationsRespectView (operations ++ [(opType, value)]) := by
  induction operations with
  | nil => simp only [List.nil_append, operationsRespectView]; exact ⟨hv, trivial⟩
  | cons operation rest ih =>
    simp only [operationsRespectView] at h
    simp only [List.cons_append, operationsRespectView]
    exact ⟨h.1, ih h.2⟩

theorem respectsView_addOperation (s : Serie F) (hs : Serie.respectsView s) (opType : Nat)
    (value : Value F) (hv : Value.respectsView value) :
    Serie.respectsView (s.addOperation opType value) := by
  cases s with
  | SerieWrapper data operations diff =>
    simp only [Serie.respectsView] at hs
    simp only [Serie.addOperation, Serie.respectsView]
    exact operationsRespectView_append operations opType value hs hv
  | CustomSerieWrapper f operations cacheKey =>
    simp only [Serie.respectsView] at hs
    simp only [Serie.addOperation, Serie.respectsView]
    exact ⟨hs.1, operationsRespectView_append operations opType value hs.2 hv⟩

theorem respectsView_Cache (s : Serie F) (hs : Serie.respectsView s) (lbl : String) :
    Serie.respectsView (s.Cache lbl) := by
  cases s with
  | SerieWrapper data operations diff => exact hs
  | CustomSerieWrapper f operations cacheKey =>
    simp only [Serie.respectsView] at hs
    simp only [Serie.Cache, Serie.respectsView]
    exact hs

theorem respectsView_recorded (record : Option (Nat × Int)) :
    Serie.respectsView (recorded record : Serie F) := by
  cases record with
  | none =>
    apply respectsView_NewWrapper
    intro g1 g2 hv
    refine ⟨rfl, ?_⟩
    rw [view_eq_iff] at hv ⊢
    obtain ⟨h1, h2, h3, h4, h5, h6, h7, h8, h9, _⟩ := hv
    exact ⟨h1, h2, h3, h4, h5, h6, h7, h8, h9, rfl⟩
  | some r =>
    simp only [recorded, Serie.respectsView, operationsRespectView]

theorem respectsView_Max (s t : Serie F) (hs : Serie.respectsView s)
    (ht : Serie.respectsView t) : Serie.respectsView (Max s t) := by
  apply respectsView_NewWrapper
  intro g1 g2 hv
  obtain ⟨a1, a2⟩ := Serie.Get_respectsView s hs g1 g2 hv
  obtain ⟨b1, b2⟩ := Serie.Get_respectsView t ht _ _ a2
  exact ⟨by show GoFloat.max _ _ = GoFloat.max _ _; rw [a1, b1], b2⟩

theorem respectsView_cross (s t : Serie F) (hs : Serie.respectsView s)
    (ht : Serie.respectsView t) : Serie.respectsView (cross s t) := by
  apply respectsView_NewWrapper
  intro g1 g2 hv
  obtain ⟨a1, a2⟩ := Serie.Get_respectsView s hs g1 g2 hv
  obtain ⟨b1, b2⟩ := Serie.Get_respectsView t ht _ _ a2
  obtain ⟨c1, c2⟩ := Serie.G_respectsView s hs 1 _ _ b2
  obtain ⟨d1, d2⟩ := Serie.G_respectsView t ht 1 _ _ c2
  simp only [a1, b1, c1, d1]
  split
  · exact ⟨rfl, d2⟩
  · split <;> exact ⟨rfl, d2⟩

theorem respectsView_crossOver (s t : Serie F) (hs : Serie.respectsView s)
    (ht : Serie.respectsView t) : Serie.respectsView (crossOver s t) := by
  apply respectsView_NewWrapper
  intro g1 g2 hv
  obtain ⟨a1, a2⟩ := Serie.Get_respectsView s hs g1 g2 hv
  obtain ⟨b1, b2⟩ := Serie.Get_respectsView t ht _ _ a2
  obtain ⟨c1, c2⟩ := Serie.Get_respectsView _ (Serie.B_respectsView s hs 1) _ _ b2
  obtain ⟨d1, d2⟩ := Serie.Get_respectsView _ (Serie.B_respectsView t ht 1) _ _ c2
  simp only [a1, b1, c1, d1]
  split
  · split <;> exact ⟨rfl, d2⟩
  · exact ⟨rfl, b2⟩

theorem respectsView_crossUnder (s t : Serie F) (hs : Serie.respectsView s)
    (ht : Serie.respectsView t) : Serie.respectsView (crossUnder s t) := by
  apply respectsView_NewWrapper
  intro g1 g2 hv
  obtain ⟨a1, a2⟩ := Serie.Get_respectsView s hs g1 g2 hv
  obtain ⟨b1, b2⟩ := Serie.Get_respectsView t ht _ _ a2
  obtain ⟨c1, c2⟩ := Serie.Get_respectsView _ (Serie.B_respectsView s hs 1) _ _ b2
  obtain ⟨d1, d2⟩ := Serie.Get_respectsView _ (Serie.B_respectsView t ht 1) _ _ c2
  simp only [a1, b1, c1, d1]
  split
  · split <;> exact ⟨rfl, d2⟩
  · exact ⟨rfl, b2⟩

theorem barsSinceLoop_respectsView (f : GoQuant F → Bool × GoQuant F)
    (hf : CondRespectsView f) :
    ∀ (n : Nat) (i : Int) (g1 g2 : GoQuant F), g1.view = g2.view →
      (barsSinceLoop f n i g1).1 = (barsSinceLoop f n i g2).1 ∧
      (barsSinceLoop f n i g1).2.view = (barsSinceLoop f n i g2).2.view := by
  intro n
  induction n with
  | zero => intro i g1 g2 hv; exact ⟨rfl, hv⟩
  | succ n ih =>
    intro i g1 g2 hv
    obtain ⟨a1, a2⟩ := hf _ _ (view_Increase g1 g2 i hv)
    have a3 := view_Decrease _ _ i a2
    simp only [barsSinceLoop, a1]
    split
    · exact ⟨rfl, a3⟩
    · exact ih _ _ _ a3

theorem respectsView_barsSince (f : GoQuant F → Bool × GoQuant F) (hf : CondRespectsView f) :
    Serie.respectsView (barsSince f) := by
  apply respectsView_NewWrapper
  intro g1 g2 hv
  have hb : g1.bars = g2.bars := ((view_eq_iff g1 g2).1 hv).2.2.2.2.1
  dsimp only
  rw [hb]
  exact barsSinceLoop_respectsView f hf _ _ g1 g2 hv

theorem pivotScan_respectsView (src : Serie F) (hs : Serie.respectsView src)
    (righBars step : Int) (rejects : F → Bool) :
    ∀ (n : Nat) (i : Int) (g1 g2 : GoQuant F), g1.view = g2.view →
      (pivotScan src righBars step rejects n i g1).1 =
        (pivotScan src righBars step rejects n i g2).1 ∧
      (pivotScan src righBars step rejects n i g1).2.view =
        (pivotScan src righBars step rejects n i g2).2.view := by
  intro n
  induction n with
  | zero => intro i g1 g2 hv; exact ⟨rfl, hv⟩
  | succ n ih =>
    intro i g1 g2 hv
    obtain ⟨a1, a2⟩ := Serie.G_respectsView src hs (righBars + step * i) g1 g2 hv
    simp only [pivotScan, a1]
    split
    · exact ⟨rfl, a2⟩
    · exact ih _ _ _ a2

theorem respectsView_pivotWith (src : Serie F) (hs : Serie.respectsView src)
    (leftBars righBars : Int) (rejects : F → F → Bool) :
    Serie.respectsView (pivotWith src leftBars righBars rejects) := by
  apply respectsView_NewWrapper
  intro g1 g2 hv
  obtain ⟨a1, a2⟩ := Serie.G_respectsView src hs righBars g1 g2 hv
  obtain ⟨b1, b2⟩ := pivotScan_respectsView src hs righBars 1 (rejects (src.G righBars g2).1)
    leftBars.toNat 1 _ _ a2
  obtain ⟨c1, c2⟩ := pivotScan_respectsView src hs righBars (-1)
    (rejects (src.G righBars g2).1) righBars.toNat 1 _ _ b2
  simp only [a1, b1, c1]
  split
  · exact ⟨rfl, b2⟩
  · split <;> exact ⟨rfl, c2⟩

theorem respectsView_pivotHigh (g0 : GoQuant F) (leftBars righBars : Int)
    (source : List (Serie F)) (hs : ∀ s, s ∈ source → Serie.respectsView s) :
    Serie.respectsView (pivotHigh g0 leftBars righBars source) := by
  cases source with
  | nil =>
    exact respectsView_pivotWith (recorded g0.high) (respectsView_recorded _) leftBars righBars
      (fun centre x => GoFloat.le centre x)
  | cons s rest =>
    exact respectsView_pivotWith s (hs s (List.mem_cons_self _ _)) leftBars righBars
      (fun centre x => GoFloat.le centre x)

theorem respectsView_pivotLow (g0 : GoQuant F) (leftBars righBars : Int)
    (source : List (Serie F)) (hs : ∀ s, s ∈ source → Serie.respectsView s) :
    Serie.respectsView (pivotLow g0 leftBars righBars source) := by
  cases source with
  | nil =>
    exact respectsView_pivotWith (recorded g0.low) (respectsView_recorded _) leftBars righBars
      (fun centre x => GoFloat.le x centre)
  | cons s rest =>
    exact respectsView_pivotWith s (hs s (List.mem_cons_self _ _)) leftBars righBars
      (fun centre x => GoFloat.le x centre)

theorem smaLoop_respectsView (src : Serie F) (hs : Serie.respectsView src) :
    ∀ (n : Nat) (i : Int) (sum : F) (g1 g2 : GoQuant F), g1.view = g2.view →
      (smaLoop src n i sum g1).1 = (smaLoop src n i sum g2).1 ∧
      (smaLoop src n i sum g1).2.view = (smaLoop src n i sum g2).2.view := by
  intro n
  induction n with
  | zero => intro i sum g1 g2 hv; exact ⟨rfl, hv⟩
  | succ n ih =>
    intro i sum g1 g2 hv
    obtain ⟨a1, a2⟩ := Serie.G_respectsView src hs i g1 g2 hv
    simp only [smaLoop, a1]
    exact ih _ _ _ _ a2

theorem respectsView_sma (src : Serie F) (hs : Serie.respectsView src) (length : F) :
    Serie.respectsView (sma src length) := by
  apply respectsView_NewWrapper
  intro g1 g2 hv
  obtain ⟨a1, a2⟩ := smaLoop_respectsView src hs (GoFloat.toInt length).toNat 0
    (GoFloat.ofInt 0) g1 g2 hv
  exact ⟨by show _ / length = _ / length; rw [a1], a2⟩

theorem respectsView_vwma (src : Serie F) (hs : Serie.respectsView src) (length : F) :
    Serie.respectsView (vwma src length) := by
  apply respectsView_NewWrapper
  intro g1 g2 hv
  have hvol : g1.volume = g2.volume := by
    have := ((view_eq_iff g1 g2).1 hv).2.2.2.2.2.2.2.1
    simp only [List.cons.injEq] at this
    exact this.2.2.2.2.1
  dsimp only
  rw [hvol]
  exact Serie.Get_respectsView _
    (respectsView_addOperation _
      (respectsView_sma _ (respectsView_addOperation src hs OpMul _ (by
        simp only [Value.respectsView]
        exact respectsView_recorded _)) length) OpDiv _ (by
        simp only [Value.respectsView]
        exact respectsView_sma _ (respectsView_recorded _) length)) g1 g2 hv

/-- A series that keeps no storage of its own depends on the cursor only through the
effective index. -/
theorem CursorFree.respectsView {s : Serie F} (hs : CursorFree s) : Serie.respectsView s := by
  induction hs with
  | materialized data diff => simp only [Serie.respectsView, operationsRespectView]
  | back s steps _ ih => exact Serie.B_respectsView s ih steps
  | constant s opType c _ ih =>
    exact respectsView_addOperation s ih opType _ (by simp only [Value.respectsView])
  | operand s t opType _ _ ih1 ih2 =>
    exact respectsView_addOperation s ih1 opType _ (by simp only [Value.respectsView]; exact ih2)
  | custom s f _ ih =>
    exact respectsView_addOperation s ih OpCustom _ (by simp only [Value.respectsView])
  | cache s lbl _ ih => exact respectsView_Cache s ih lbl
  | max s t _ _ ih1 ih2 => exact respectsView_Max s t ih1 ih2
  | cross s t _ _ ih1 ih2 => exact respectsView_cross s t ih1 ih2
  | crossOver s t _ _ ih1 ih2 => exact respectsView_crossOver s t ih1 ih2
  | crossUnder s t _ _ ih1 ih2 => exact respectsView_crossUnder s t ih1 ih2
  | barsSince cond hc => exact respectsView_barsSince cond hc
  | pivotHigh g0 leftBars righBars source _ ih =>
    exact respectsView_pivotHigh g0 leftBars righBars source ih
  | pivotLow g0 leftBars righBars source _ ih =>
    exact respectsView_pivotLow g0 leftBars righBars source ih
  | sma s length _ ih => exact respectsView_sma s ih length
  | vwma s length _ ih => exact respectsView_vwma s ih length
/-- A source read from the buffers `heap0`, read `k` bars back, is such a source. -/
theorem PureSource.back {src : Serie F} {srcAt : Int → F} {heap0 : List (List F)}
    (h : PureSource src srcAt heap0) (k : Int) :
    PureSource (src.B k) (fun e => srcAt (e - k)) heap0 := by
  intro g' hg'
  rw [B_Get, h (g'.IncreaseFuncIndex k) hg', Decrease_Increase]
  show (srcAt (g'.loopIndex - (g'.loopFuncIndex + k)), g') =
    (srcAt (g'.loopIndex - g'.loopFuncIndex - k), g')
  rw [sub_sub]

/-- The maximum of two sources read from the buffers `heap0` is such a source. -/
theorem PureSource.max {s t : Serie F} {sAt tAt : Int → F} {heap0 : List (List F)}
    (hs : PureSource s sAt heap0) (ht : PureSource t tAt heap0) :
    PureSource (Max s t) (fun e => GoFloat.max (sAt e) (tAt e)) heap0 := by
  intro g' hg'
  simp only [Max, NewWrapper_Get, hs g' hg', ht g' hg']

/-- The text of `%v` for some values: a fraction, an integer below and one at `1e6`, a
value whose nearest `float64` has sixteen digits, and a small value. -/
theorem format_scenario :
    [GoFloat.format (XFloat.fin (1 / 2)), GoFloat.format (XFloat.fin 30),
      GoFloat.format (XFloat.fin 999999), GoFloat.format (XFloat.fin 1000000),
      GoFloat.format (XFloat.fin (32 / 3)), GoFloat.format (XFloat.fin (-5 / 4)),
      GoFloat.format (XFloat.fin (1 / 100000)), GoFloat.format XFloat.nan,
      GoFloat.format XFloat.pinf] =
      ["0.5", "30", "999999", "1e+06", "10.666666666666666", "-1.25", "1e-05", "NaN",
        "+Inf"] := by
  decide!

/-- The conversion `int(x)` at a fraction, a negative fraction, NaN and a value beyond the
range of `int64`. -/
theorem toInt_scenario :
    [GoFloat.toInt (XFloat.fin (7 / 2)), GoFloat.toInt (XFloat.fin (-7 / 2)),
      GoFloat.toInt XFloat.nan, GoFloat.toInt XFloat.pinf,
      GoFloat.toInt (XFloat.fin (10 ^ 30))] =
      [3, -3, -9223372036854775808, -9223372036854775808, -9223372036854775808] := by
  decide!

/-- The function `math.Max` at its special cases: `+Inf` wins over NaN, and NaN over a
number. -/
theorem max_scenario :
    [GoFloat.max XFloat.pinf XFloat.nan, GoFloat.max XFloat.nan XFloat.pinf,
      GoFloat.max XFloat.nan (XFloat.fin 1), GoFloat.max XFloat.ninf (XFloat.fin 1),
      GoFloat.max (XFloat.fin 2) (XFloat.fin 1)] =
      [XFloat.pinf, XFloat.pinf, XFloat.nan, XFloat.fin 1, XFloat.fin 2] := by
  decide!

/-- A write through `Set` past the end of a storage buffer is recorded as a panic: on an
engine without bars the storage of `rsi` has no slot, and the read of `rsi` panics. -/
theorem rsi_without_bars_panics :
    bufferEngine.bars.length = 0 ∧
    ((rsi (Serie.SerieWrapper 0 [] 0) (XFloat.fin 2) "L").Get bufferEngine).2.panicked = true := by
  decide!

end Theorems

end Goquant
